import Mathlib

/-!
# Marvell XOR engine driver (drivers/dma/mv_xor.c): descriptor lifecycle

A shallow embedding of the slot pool, the builders, the chain scheduler
(submission), the completion engine (cleanup) and the interrupt handler of
`drivers/dma/mv_xor.c`, and theorems about them.

Conventions of the embedding.

* A slot is addressed by its index `idx` in the pool. The four intrusive lists
  of the channel are lists of slot indices. A list node is linked into one list
  at a time, so `list_del` unlinks the index from whichever list holds it.
* The target is a 32-bit platform: `dma_addr_t`, `size_t` and `unsigned long`
  are 32 bits wide and addresses are natural numbers below `2 ^ 32`. Pointers
  are natural numbers, `0` is `NULL`.
* `BUG()` and a failing `BUG_ON` end the run: a function that can reach one
  returns `none` there.
* Effects that leave the driver (completion callbacks, unmapping, the checksum
  write-back, `dma_run_dependencies`) are appended to the event log of the
  channel in the order in which the code performs them. Callbacks are opaque:
  they do not touch the channel (the source requires that they neither sleep
  nor submit to this channel). What a callback finds when it is called (the
  lock flag and the caller memory) is recorded in `callback_views` at the call.
  The event `unmap` stands for the unmapping stage of `mv_xor_unmap_desc` on a
  slot with a non-zero `unmap_len`; which buffers that stage hands to
  `dma_unmap_single` or `dma_unmap_page`, which depends on the flags of the
  descriptor, is not followed.
* Registers: `xor_curr_desc` and `xor_activation` are what a read of
  `XOR_CURR_DESC` and `XOR_ACTIVATION` returns (the device owns them),
  `xor_next_desc` is the last value written to `XOR_NEXT_DESC`, and
  `activate_count` counts the writes of `0x1` to `XOR_ACTIVATION`.
* The loop of `mv_xor_prep_dma_pq` has no bound on its index into the table
  `mv_xor_raid6_coefs`. A read past the eight entries of the table has no
  defined result in C; the embedding follows the loop up to such a read and
  not beyond it: `pq_src_scan` gives the local variables of the loop at that
  point, and `pq_src_loop` and `mv_xor_prep_dma_pq` have no value (`none`)
  for a request that reaches it.
* The calls are those of one thread. The spinlock of the channel is the flag
  `lock_held`, set by `spin_lock_bh` and cleared by `spin_unlock_bh`; it is
  followed on the path of the completion engine (`mv_xor_slot_cleanup`).
  `mv_xor_alloc_slot` and `mv_xor_tx_submit`, which take the lock and release
  it again around their own list operations, are embedded without these two
  calls.
-/

namespace MvXor

/-- Constants and macros of `mv_xor.h` and `include/linux/dmaengine.h`, which
are not among the sources. Every definition takes them as a parameter. -/
structure mv_xor_h where
  MV_XOR_THRESHOLD : Nat
  MV_XOR_MIN_BYTE_COUNT : Nat
  MV_XOR_MAX_BYTE_COUNT : Nat
  XOR_MAX_BYTE_COUNT : Nat
  XOR_DESC_SUCCESS : Nat
  XOR_DESC_OPERATION_XOR : Nat
  XOR_DESC_OPERATION_CRC32C : Nat
  XOR_DESC_OPERATION_MEMCPY : Nat
  XOR_DESC_OPERATION_PQ : Nat
  DMA_PREP_INTERRUPT : Nat
  DMA_CTRL_ACK : Nat
  DMA_PREP_PQ_DISABLE_P : Nat
  DMA_PREP_PQ_DISABLE_Q : Nat
  DMA_PREP_PQ_MULT : Nat
  DMA_PREP_PQ_SUM_PRODUCT : Nat
  mv_phy_src_idx : Nat → Nat

/-- Sample values for the constants (those of the mainline headers where
mainline has the constant), used only to evaluate the definitions on concrete
channels; no theorem about the driver depends on them. -/
def sample_h : mv_xor_h where
  MV_XOR_THRESHOLD := 1
  MV_XOR_MIN_BYTE_COUNT := 128
  MV_XOR_MAX_BYTE_COUNT := 16777215
  XOR_MAX_BYTE_COUNT := 16777215
  XOR_DESC_SUCCESS := 1073741824
  XOR_DESC_OPERATION_XOR := 0
  XOR_DESC_OPERATION_CRC32C := 16777216
  XOR_DESC_OPERATION_MEMCPY := 33554432
  XOR_DESC_OPERATION_PQ := 83886080
  DMA_PREP_INTERRUPT := 1
  DMA_CTRL_ACK := 2
  DMA_PREP_PQ_DISABLE_P := 64
  DMA_PREP_PQ_DISABLE_Q := 128
  DMA_PREP_PQ_MULT := 1024
  DMA_PREP_PQ_SUM_PRODUCT := 2048
  mv_phy_src_idx := fun i => i

/-- Errno `EBUSY`. -/
def EBUSY : Int := 16

/-- The values of `enum dma_transaction_type` that the driver handles. -/
inductive dma_transaction_type where
  | DMA_MEMCPY
  | DMA_XOR
  | DMA_PQ
  | DMA_INTERRUPT
  | DMA_CRC32C
  deriving DecidableEq, Repr

/-- The `enum mv_xor_mode` of the source. -/
inductive mv_xor_mode where
  | XOR_MODE_IN_REG
  | XOR_MODE_IN_DESC
  deriving DecidableEq, Repr

/-- The hardware descriptor `struct mv_xor_desc` (all fields are `u32`). -/
structure mv_xor_desc where
  status : Nat
  crc32_result : Nat
  desc_command : Nat
  phy_next_desc : Nat
  byte_count : Nat
  phy_dest_addr : Nat
  phy_src_addr : Nat → Nat
  phy_q_dest_addr : Nat

/-- The fields of `struct dma_async_tx_descriptor` that the driver uses. The
cookie is a signed 32-bit `dma_cookie_t`; `callback` is a function pointer. -/
structure dma_async_tx_descriptor where
  cookie : Int
  flags : Nat
  phys : Nat
  callback : Nat
  callback_param : Nat

/-- The software descriptor `struct mv_xor_desc_slot`. `crc32_result` is the
pointer to the output location of a checksum. -/
structure mv_xor_desc_slot where
  type : dma_transaction_type
  hw_desc : mv_xor_desc
  async_tx : dma_async_tx_descriptor
  unmap_src_cnt : Nat
  unmap_len : Nat
  crc32_result : Nat

/-- Effects of the completion engine that leave the driver. -/
inductive mv_xor_event where
  | crc32_write (idx : Nat) (loc : Nat) (val : Nat)
  | callback (idx : Nat)
  | unmap (idx : Nat)
  | run_dependencies (idx : Nat)
  deriving DecidableEq, Repr

/-- What a completion callback finds at the moment `mv_xor_run_tx_complete_actions`
calls it: the slot `idx` it is called for, whether the spinlock of the channel
is taken, and the caller memory. -/
structure callback_view where
  idx : Nat
  lock_held : Bool
  mem : Nat → Nat

/-- The channel `struct mv_xor_chan` with the registers of its device, the
caller memory that checksum results are written to (`mem`, 32-bit words by
address) and the event log. `cookie` and `completed_cookie` are the fields of
the embedded `struct dma_chan`; `tasklet_count` counts `tasklet_schedule`.
`idx` is the index of the channel in its device and `lock_held` tells whether
the spinlock `lock` is taken. `xor_intr_cause` is what a read of
`XOR_INTR_CAUSE` returns, `intr_cause_writes` holds the values written to that
register, and `reg_dumps` counts the calls of `mv_dump_xor_regs`.
`callback_views` holds, for every call of a completion callback, what the
callback finds, in the order of the calls. -/
structure mv_xor_chan where
  slots : Nat → mv_xor_desc_slot
  slots_allocated : Nat
  free_slots : List Nat
  allocated_slots : List Nat
  chain : List Nat
  completed_slots : List Nat
  pending : Nat
  op_in_desc : mv_xor_mode
  cookie : Int
  completed_cookie : Int
  xor_curr_desc : Nat
  xor_next_desc : Nat
  xor_activation : Nat
  activate_count : Nat
  tasklet_count : Nat
  mem : Nat → Nat
  events : List mv_xor_event
  idx : Nat
  lock_held : Bool
  xor_intr_cause : Nat
  intr_cause_writes : List Nat
  reg_dumps : Nat
  callback_views : List callback_view

/-- The four list heads of a channel. -/
inductive list_head where
  | free_slots
  | allocated_slots
  | chain
  | completed_slots
  deriving DecidableEq, Repr

/-! ## Helpers of the kernel that the driver calls -/

/-- Modelled from the spec: `async_tx_ack` of `include/linux/dmaengine.h`, which
is not among the sources. It sets the "acknowledged by caller" flag of the
descriptor (the source calls it under the comment "pre-ack descriptor"). -/
def async_tx_ack (k : mv_xor_h) (tx : dma_async_tx_descriptor) : dma_async_tx_descriptor :=
  { tx with flags := tx.flags ||| k.DMA_CTRL_ACK }

/-- Modelled from the spec: `async_tx_test_ack` of `include/linux/dmaengine.h`,
which is not among the sources. It tests the "acknowledged by caller" flag. -/
def async_tx_test_ack (k : mv_xor_h) (tx : dma_async_tx_descriptor) : Bool :=
  tx.flags &&& k.DMA_CTRL_ACK == k.DMA_CTRL_ACK

/-- Wrap an integer to the signed 32-bit range. -/
def wrap_s32 (x : Int) : Int := (x + 2 ^ 31) % 2 ^ 32 - 2 ^ 31

/-- Modelled from the spec: the counter step of `dma_cookie_assign`
(`drivers/dma/dmaengine.h`, not among the sources). The cookie after
`chan_cookie` is one more, and the least valid cookie `1` again when the signed
32-bit counter "wraps at the natural width boundary". -/
def dma_cookie_next (chan_cookie : Int) : Int :=
  let cookie := wrap_s32 (chan_cookie + 1)
  if cookie < 1 then 1 else cookie

/-- Modelled from the spec: `tasklet_schedule` on the tasklet of the channel
(kernel code outside the sources): one more deferred cleanup attempt is
requested. -/
def tasklet_schedule (s : mv_xor_chan) : mv_xor_chan :=
  { s with tasklet_count := s.tasklet_count + 1 }

/-- Modelled from the spec: `list_del` of `include/linux/list.h`, which is not
among the sources: the node is unlinked from the one of the four "ordered
sequences" of the channel that holds it. -/
def list_del (i : Nat) (s : mv_xor_chan) : mv_xor_chan :=
  { s with
    free_slots := s.free_slots.erase i
    allocated_slots := s.allocated_slots.erase i
    chain := s.chain.erase i
    completed_slots := s.completed_slots.erase i }

/-- Modelled from the spec: `list_add_tail` of `include/linux/list.h`, which is
not among the sources: the node becomes the last element of the sequence. -/
def list_add_tail (i : Nat) (l : list_head) (s : mv_xor_chan) : mv_xor_chan :=
  match l with
  | .free_slots => { s with free_slots := s.free_slots ++ [i] }
  | .allocated_slots => { s with allocated_slots := s.allocated_slots ++ [i] }
  | .chain => { s with chain := s.chain ++ [i] }
  | .completed_slots => { s with completed_slots := s.completed_slots ++ [i] }

/-- Modelled from the spec: `list_move_tail` of `include/linux/list.h`, which is
not among the sources: the node is unlinked from the sequence that holds it and
becomes the last element of the target sequence ("move the slot to"). -/
def list_move_tail (i : Nat) (l : list_head) (s : mv_xor_chan) : mv_xor_chan :=
  list_add_tail i l (list_del i s)

/-- Store a slot record at an index of the pool. -/
def set_slot (i : Nat) (d : mv_xor_desc_slot) (s : mv_xor_chan) : mv_xor_chan :=
  { s with slots := Function.update s.slots i d }

/-- Modelled from the spec: `dma_cookie_assign` of `drivers/dma/dmaengine.h`,
which is not among the sources. The cookie is "a strictly increasing
per-channel counter assigned at submission time" that "wraps only at the
natural width boundary": the next cookie of the counter is stored in the
descriptor and in the channel, and returned. -/
def dma_cookie_assign (s : mv_xor_chan) (tx : Nat) : Int × mv_xor_chan :=
  let cookie := dma_cookie_next s.cookie
  let d := s.slots tx
  (cookie,
    { set_slot tx { d with async_tx := { d.async_tx with cookie := cookie } } s with
      cookie := cookie })

/-- Bitwise complement of a `u32`. -/
def u32_not (x : Nat) : Nat := 2 ^ 32 - 1 - x % 2 ^ 32

/-! ## Descriptor and register accessors -/

/-- The source function `mv_desc_init`. -/
def mv_desc_init (k : mv_xor_h) (desc : mv_xor_desc_slot) (flags : Nat) : mv_xor_desc_slot :=
  let command : Nat := 0
  let command := if flags &&& k.DMA_PREP_INTERRUPT ≠ 0 then command ||| (1 <<< 31) else command
  let command :=
    if desc.type = dma_transaction_type.DMA_CRC32C then command ||| (1 <<< 30) else command
  { desc with
    hw_desc := { desc.hw_desc with status := 1 <<< 31, phy_next_desc := 0, desc_command := command } }

/-- The source function `mv_desc_set_mode`. Its default case (`BUG()`) covers
the transaction types outside `dma_transaction_type` as embedded here. -/
def mv_desc_set_mode (k : mv_xor_h) (desc : mv_xor_desc_slot) : mv_xor_desc_slot :=
  let or_command (v : Nat) : mv_xor_desc_slot :=
    { desc with hw_desc := { desc.hw_desc with desc_command := desc.hw_desc.desc_command ||| v } }
  match desc.type with
  | .DMA_XOR => or_command k.XOR_DESC_OPERATION_XOR
  | .DMA_INTERRUPT => or_command k.XOR_DESC_OPERATION_XOR
  | .DMA_CRC32C => or_command k.XOR_DESC_OPERATION_CRC32C
  | .DMA_MEMCPY => or_command k.XOR_DESC_OPERATION_MEMCPY
  | .DMA_PQ => or_command k.XOR_DESC_OPERATION_PQ

/-- The source function `mv_desc_set_byte_count`. -/
def mv_desc_set_byte_count (desc : mv_xor_desc_slot) (byte_count : Nat) : mv_xor_desc_slot :=
  { desc with hw_desc := { desc.hw_desc with byte_count := byte_count } }

/-- The source function `mv_desc_set_next_desc`; `none` is its `BUG_ON`. -/
def mv_desc_set_next_desc (desc : mv_xor_desc_slot) (next_desc_addr : Nat) :
    Option mv_xor_desc_slot :=
  if desc.hw_desc.phy_next_desc ≠ 0 then none
  else some { desc with hw_desc := { desc.hw_desc with phy_next_desc := next_desc_addr } }

/-- The source function `mv_desc_set_src_addr`. -/
def mv_desc_set_src_addr (k : mv_xor_h) (desc : mv_xor_desc_slot) (index : Nat) (addr : Nat) :
    mv_xor_desc_slot :=
  let hw := { desc.hw_desc with
    phy_src_addr := Function.update desc.hw_desc.phy_src_addr (k.mv_phy_src_idx index) addr }
  let hw :=
    if desc.type = dma_transaction_type.DMA_XOR ∨ desc.type = dma_transaction_type.DMA_PQ then
      { hw with desc_command := hw.desc_command ||| (1 <<< index) }
    else hw
  { desc with hw_desc := hw }

/-- The source function `mv_desc_set_dest_addr`. -/
def mv_desc_set_dest_addr (desc : mv_xor_desc_slot) (addr : Nat) : mv_xor_desc_slot :=
  let hw := { desc.hw_desc with phy_dest_addr := addr }
  let hw :=
    if desc.type = dma_transaction_type.DMA_PQ then
      { hw with desc_command := hw.desc_command ||| (1 <<< 8) }
    else hw
  { desc with hw_desc := hw }

/-- The source function `mv_desc_set_q_dest_addr`. -/
def mv_desc_set_q_dest_addr (desc : mv_xor_desc_slot) (addr : Nat) : mv_xor_desc_slot :=
  let hw := { desc.hw_desc with phy_q_dest_addr := addr }
  let hw :=
    if desc.type = dma_transaction_type.DMA_PQ then
      { hw with desc_command := hw.desc_command ||| (1 <<< 9) }
    else hw
  { desc with hw_desc := hw }

/-- The source function `mv_chan_get_current_desc`. -/
def mv_chan_get_current_desc (s : mv_xor_chan) : Nat := s.xor_curr_desc

/-- The source function `mv_chan_set_next_descriptor`. -/
def mv_chan_set_next_descriptor (s : mv_xor_chan) (next_desc_addr : Nat) : mv_xor_chan :=
  { s with xor_next_desc := next_desc_addr }

/-- The source function `mv_chan_activate`: one write of `0x1` to the
activation register. -/
def mv_chan_activate (s : mv_xor_chan) : mv_xor_chan :=
  { s with activate_count := s.activate_count + 1 }

/-- The source function `mv_chan_is_busy`. -/
def mv_chan_is_busy (s : mv_xor_chan) : Bool :=
  let state := (s.xor_activation >>> 4) &&& 3
  state == 1

/-- The source function `mv_xor_issue_pending`. -/
def mv_xor_issue_pending (k : mv_xor_h) (s : mv_xor_chan) : mv_xor_chan :=
  if s.pending ≥ k.MV_XOR_THRESHOLD then mv_chan_activate { s with pending := 0 } else s

/-- The source function `mv_xor_start_new_chain`; `pending` is an
`unsigned int`. -/
def mv_xor_start_new_chain (k : mv_xor_h) (s : mv_xor_chan) (sw_desc : Nat) : mv_xor_chan :=
  let s := mv_chan_set_next_descriptor s (s.slots sw_desc).async_tx.phys
  let s := { s with pending := (s.pending + 1) % 2 ^ 32 }
  mv_xor_issue_pending k s

/-! ## Interrupt cause -/

/-- The source function `mv_chan_get_intr_cause`: the 16 cause bits of the
channel in the cause register of its device. -/
def mv_chan_get_intr_cause (s : mv_xor_chan) : Nat :=
  (s.xor_intr_cause >>> (s.idx * 16)) &&& 0xFFFF

/-- The source function `mv_is_err_intr`. -/
def mv_is_err_intr (intr_cause : Nat) : Nat :=
  if intr_cause &&&
      ((1 <<< 4) ||| (1 <<< 5) ||| (1 <<< 6) ||| (1 <<< 7) ||| (1 <<< 8) ||| (1 <<< 9)) ≠ 0 then
    1
  else 0

/-- The source function `mv_xor_device_clear_eoc_cause`: one write of the
`u32` value `~(3 << (idx * 16))` to the cause register. -/
def mv_xor_device_clear_eoc_cause (s : mv_xor_chan) : mv_xor_chan :=
  let val := u32_not (3 <<< (s.idx * 16))
  { s with intr_cause_writes := s.intr_cause_writes ++ [val] }

/-- The source function `mv_dump_xor_regs`: the registers are read and
printed; the channel records that a dump took place. -/
def mv_dump_xor_regs (s : mv_xor_chan) : mv_xor_chan :=
  { s with reg_dumps := s.reg_dumps + 1 }

/-- How a call into the interrupt path ends: it returns, or it stops in
`BUG()`; either way with the channel as the call left it. -/
inductive irq_outcome where
  | returned (s : mv_xor_chan)
  | bug (s : mv_xor_chan)

/-- The source function `mv_xor_err_interrupt_handler`. -/
def mv_xor_err_interrupt_handler (s : mv_xor_chan) (intr_cause : Nat) : irq_outcome :=
  if intr_cause &&& (1 <<< 4) ≠ 0 then irq_outcome.returned s
  else irq_outcome.bug (mv_dump_xor_regs s)

/-- The source function `mv_xor_interrupt_handler`. -/
def mv_xor_interrupt_handler (s : mv_xor_chan) : irq_outcome :=
  let intr_cause := mv_chan_get_intr_cause s
  let r :=
    if mv_is_err_intr intr_cause ≠ 0 then mv_xor_err_interrupt_handler s intr_cause
    else irq_outcome.returned s
  match r with
  | .bug s => irq_outcome.bug s
  | .returned s => irq_outcome.returned (mv_xor_device_clear_eoc_cause (tasklet_schedule s))

/-! ## Slot pool -/

/-- The source function `mv_xor_alloc_slot`: the returned slot (`none` is
`NULL`) and the channel afterwards. -/
def mv_xor_alloc_slot (k : mv_xor_h) (s : mv_xor_chan) : Option Nat × mv_xor_chan :=
  match s.free_slots with
  | iter :: _ =>
    let s := list_move_tail iter list_head.allocated_slots s
    let d := s.slots iter
    let d := { d with async_tx := async_tx_ack k d.async_tx }
    let d := { d with async_tx := { d.async_tx with cookie := -EBUSY } }
    (some iter, set_slot iter d s)
  | [] => (none, tasklet_schedule s)

/-! ## Chain scheduler -/

/-- The source function `mv_xor_tx_submit` for the descriptor of slot `tx`: the
returned cookie and the channel afterwards; `none` is the `BUG_ON` of
`mv_desc_set_next_desc`. -/
def mv_xor_tx_submit (k : mv_xor_h) (s : mv_xor_chan) (tx : Nat) : Option (Int × mv_xor_chan) :=
  let sw_desc := tx
  let assigned := dma_cookie_assign s tx
  let cookie := assigned.1
  let s := assigned.2
  match s.chain.getLast? with
  | none =>
    let s := list_move_tail sw_desc list_head.chain s
    some (cookie, mv_xor_start_new_chain k s sw_desc)
  | some old_chain_tail =>
    let s := list_move_tail sw_desc list_head.chain s
    match mv_desc_set_next_desc (s.slots old_chain_tail) (s.slots sw_desc).async_tx.phys with
    | none => none
    | some t =>
      let s := set_slot old_chain_tail t s
      let new_hw_chain :=
        !mv_chan_is_busy s &&
          decide (mv_chan_get_current_desc s = (s.slots old_chain_tail).async_tx.phys)
      some (cookie, if new_hw_chain then mv_xor_start_new_chain k s sw_desc else s)

/-! ## Completion engine -/

/-- The source function `mv_xor_unmap_desc`. The `switch` on the type of a
descriptor with a non-zero `unmap_len` is one `unmap` event, whichever calls of
`dma_unmap_single` and `dma_unmap_page` the flags of the descriptor select in
it (none at all when both `DMA_COMPL_SKIP_DEST_UNMAP` and
`DMA_COMPL_SKIP_SRC_UNMAP` are set); `none` is the `BUG()` of the default
case. -/
def mv_xor_unmap_desc (s : mv_xor_chan) (desc : Nat) : Option mv_xor_chan :=
  if (s.slots desc).unmap_len ≠ 0 then
    match (s.slots desc).type with
    | .DMA_MEMCPY => some { s with events := s.events ++ [mv_xor_event.unmap desc] }
    | .DMA_XOR => some { s with events := s.events ++ [mv_xor_event.unmap desc] }
    | .DMA_PQ => some { s with events := s.events ++ [mv_xor_event.unmap desc] }
    | .DMA_CRC32C => some { s with events := s.events ++ [mv_xor_event.unmap desc] }
    | .DMA_INTERRUPT => none
  else some s

/-- The source function `mv_xor_run_tx_complete_actions`: the cookie it returns
and the channel afterwards; `none` is a `BUG`. Where the source calls the
callback, the event is logged and what the callback finds (slot, lock flag,
caller memory) is appended to `callback_views`. -/
def mv_xor_run_tx_complete_actions (s : mv_xor_chan) (desc : Nat) (cookie : Int) :
    Option (Int × mv_xor_chan) :=
  let tx := (s.slots desc).async_tx
  if tx.cookie < 0 then none
  else
    let r : Option (Int × mv_xor_chan) :=
      if tx.cookie > 0 then
        let s := if tx.callback ≠ 0 then
            { s with
              events := s.events ++ [mv_xor_event.callback desc]
              callback_views := s.callback_views ++ [⟨desc, s.lock_held, s.mem⟩] }
          else s
        (mv_xor_unmap_desc s desc).map fun s => (tx.cookie, s)
      else some (cookie, s)
    r.map fun r => (r.1, { r.2 with events := r.2.events ++ [mv_xor_event.run_dependencies desc] })

/-- The loop of the source function `mv_xor_clean_completed_slots` over the
nodes that `completed_slots` holds when the loop starts. -/
def clean_completed_loop (k : mv_xor_h) : List Nat → mv_xor_chan → mv_xor_chan
  | [], s => s
  | iter :: rest, s =>
    if async_tx_test_ack k (s.slots iter).async_tx then
      clean_completed_loop k rest (list_move_tail iter list_head.free_slots s)
    else clean_completed_loop k rest s

/-- The source function `mv_xor_clean_completed_slots`. -/
def mv_xor_clean_completed_slots (k : mv_xor_h) (s : mv_xor_chan) : mv_xor_chan :=
  clean_completed_loop k s.completed_slots s

/-- The source function `mv_xor_clean_slot`. -/
def mv_xor_clean_slot (k : mv_xor_h) (s : mv_xor_chan) (desc : Nat) : mv_xor_chan :=
  if !async_tx_test_ack k (s.slots desc).async_tx then
    list_move_tail desc list_head.completed_slots s
  else list_move_tail desc list_head.free_slots s

/-- The local variables of `__mv_xor_slot_cleanup` when its loop over the chain
is left. `iter` is the loop cursor: `none` when the loop ran to the end of the
list, where the cursor is the entry of the list head. -/
structure cleanup_locals where
  chan : mv_xor_chan
  cookie : Int
  current_cleaned : Bool
  iter : Option Nat

/-- The checksum write-back in the loop of `__mv_xor_slot_cleanup`; `none` is
its `BUG_ON`. -/
def crc32_write_back (s : mv_xor_chan) (iter : Nat) : Option mv_xor_chan :=
  if (s.slots iter).type = dma_transaction_type.DMA_CRC32C then
    if (s.slots iter).crc32_result = 0 then none
    else
      let v := u32_not (s.slots iter).hw_desc.crc32_result
      some { s with
        mem := Function.update s.mem (s.slots iter).crc32_result v
        events := s.events ++ [mv_xor_event.crc32_write iter (s.slots iter).crc32_result v] }
  else some s

/-- The loop of `__mv_xor_slot_cleanup` over the nodes that the chain holds when
the loop starts (`list_for_each_entry_safe`); `none` is a `BUG`. -/
def cleanup_chain_loop (k : mv_xor_h) (current_desc : Nat) :
    List Nat → mv_xor_chan → Int → Option cleanup_locals
  | [], s, cookie => some ⟨s, cookie, false, none⟩
  | iter :: rest, s, cookie =>
    if (s.slots iter).hw_desc.status &&& k.XOR_DESC_SUCCESS ≠ 0 then
      match crc32_write_back s iter with
      | none => none
      | some s =>
        match mv_xor_run_tx_complete_actions s iter cookie with
        | none => none
        | some (cookie, s) =>
          let s := mv_xor_clean_slot k s iter
          if (s.slots iter).async_tx.phys = current_desc then some ⟨s, cookie, true, some iter⟩
          else cleanup_chain_loop k current_desc rest s cookie
    else
      if (s.slots iter).async_tx.phys = current_desc then some ⟨s, cookie, false, some iter⟩
      else cleanup_chain_loop k current_desc rest s cookie

/-- The node after `iter` in a list (`iter->node.next`), `none` when that is
the list head. -/
def list_next (l : List Nat) (iter : Nat) : Option Nat :=
  (l.dropWhile fun j => j != iter).tail.head?

/-- The resume decision at the end of `__mv_xor_slot_cleanup`.
`list_is_last (&iter->node, &mv_chan->chain)` holds when the node after the
cursor is the list head. The cursor of a loop that ran to the end is the entry
of the list head itself; the node after it is the first node of the chain. -/
def cleanup_resume (k : mv_xor_h) (busy : Bool) (r : cleanup_locals) : mv_xor_chan :=
  let s := r.chan
  if busy = false ∧ s.chain ≠ [] then
    if r.current_cleaned then
      match s.chain.head? with
      | some iter => mv_xor_start_new_chain k s iter
      | none => s
    else
      let next : Option Nat :=
        match r.iter with
        | some iter => list_next s.chain iter
        | none => s.chain.head?
      match next with
      | some iter => mv_xor_start_new_chain k s iter
      | none => tasklet_schedule s
  else s

/-- The source function `__mv_xor_slot_cleanup`; `none` is a `BUG`. -/
def __mv_xor_slot_cleanup (k : mv_xor_h) (s : mv_xor_chan) : Option mv_xor_chan :=
  let busy := mv_chan_is_busy s
  let current_desc := mv_chan_get_current_desc s
  let s := mv_xor_clean_completed_slots k s
  match cleanup_chain_loop k current_desc s.chain s 0 with
  | none => none
  | some r =>
    let s := cleanup_resume k busy r
    some (if r.cookie > 0 then { s with completed_cookie := r.cookie } else s)

/-- Modelled from the spec: `spin_lock_bh` on the lock of the channel (kernel
code outside the sources): the "per-channel lock" is taken. -/
def spin_lock_bh (s : mv_xor_chan) : mv_xor_chan := { s with lock_held := true }

/-- Modelled from the spec: `spin_unlock_bh` on the lock of the channel (kernel
code outside the sources): the "per-channel lock" is released. -/
def spin_unlock_bh (s : mv_xor_chan) : mv_xor_chan := { s with lock_held := false }

/-- The source function `mv_xor_slot_cleanup`. -/
def mv_xor_slot_cleanup (k : mv_xor_h) (s : mv_xor_chan) : Option mv_xor_chan :=
  let s := spin_lock_bh s
  match __mv_xor_slot_cleanup k s with
  | none => none
  | some s => some (spin_unlock_bh s)

/-- The source function `mv_xor_tasklet`. -/
def mv_xor_tasklet (k : mv_xor_h) (s : mv_xor_chan) : Option mv_xor_chan :=
  mv_xor_slot_cleanup k s

/-! ## Builders -/

/-- The source function `mv_xor_prep_dma_crc32c`: the returned descriptor
(`none` is `NULL`) and the channel afterwards. `seed` points to the seed word
in caller memory. -/
def mv_xor_prep_dma_crc32c (k : mv_xor_h) (s : mv_xor_chan) (src : Nat) (len : Nat) (seed : Nat)
    (flags : Nat) : Option Nat × mv_xor_chan :=
  if s.mem seed ≠ 2 ^ 32 - 1 ∨ len < k.MV_XOR_MIN_BYTE_COUNT ∨ len > k.XOR_MAX_BYTE_COUNT then
    (none, s)
  else
    match mv_xor_alloc_slot k s with
    | (some sw_desc, s) =>
      let d := s.slots sw_desc
      let d := { d with type := dma_transaction_type.DMA_CRC32C }
      let d := { d with async_tx := { d.async_tx with flags := flags } }
      let d := mv_desc_init k d flags
      let d := if s.op_in_desc = mv_xor_mode.XOR_MODE_IN_DESC then mv_desc_set_mode k d else d
      let d := mv_desc_set_byte_count d len
      let d := mv_desc_set_src_addr k d 0 src
      let d := { d with unmap_src_cnt := 1 }
      let d := { d with unmap_len := len }
      let d := { d with crc32_result := seed }
      (some sw_desc, set_slot sw_desc d s)
    | (none, s) => (none, s)

/-- The source function `mv_xor_prep_dma_interrupt`. The globals `dummy1_addr`
and `dummy2_addr` are passed as arguments. -/
def mv_xor_prep_dma_interrupt (k : mv_xor_h) (dummy1_addr dummy2_addr : Nat) (s : mv_xor_chan)
    (flags : Nat) : Option Nat × mv_xor_chan :=
  match mv_xor_alloc_slot k s with
  | (some sw_desc, s) =>
    let d := s.slots sw_desc
    let d := { d with type := dma_transaction_type.DMA_XOR }
    let d := { d with async_tx := { d.async_tx with flags := flags } }
    let d := mv_desc_init k d k.DMA_PREP_INTERRUPT
    let d := if s.op_in_desc = mv_xor_mode.XOR_MODE_IN_DESC then mv_desc_set_mode k d else d
    let d := mv_desc_set_byte_count d k.MV_XOR_MIN_BYTE_COUNT
    let d := mv_desc_set_dest_addr d dummy1_addr
    let d := { d with unmap_src_cnt := 0 }
    let d := { d with unmap_len := 0 }
    let d := mv_desc_set_src_addr k d 1 dummy2_addr
    (some sw_desc, set_slot sw_desc d s)
  | (none, s) => (none, s)

/-- The source function `mv_xor_prep_dma_memcpy`: the returned descriptor
(`none` is `NULL`) and the channel afterwards; the outer `none` is the
`BUG_ON` on the length. -/
def mv_xor_prep_dma_memcpy (k : mv_xor_h) (s : mv_xor_chan) (dest : Nat) (src : Nat) (len : Nat)
    (flags : Nat) : Option (Option Nat × mv_xor_chan) :=
  if len < k.MV_XOR_MIN_BYTE_COUNT then some (none, s)
  else if len > k.MV_XOR_MAX_BYTE_COUNT then none
  else
    match mv_xor_alloc_slot k s with
    | (some sw_desc, s) =>
      let d := s.slots sw_desc
      let d :=
        if s.op_in_desc = mv_xor_mode.XOR_MODE_IN_DESC then
          { d with type := dma_transaction_type.DMA_MEMCPY }
        else { d with type := dma_transaction_type.DMA_XOR }
      let d := { d with async_tx := { d.async_tx with flags := flags } }
      let d := mv_desc_init k d flags
      let d := if s.op_in_desc = mv_xor_mode.XOR_MODE_IN_DESC then mv_desc_set_mode k d else d
      let d := mv_desc_set_byte_count d len
      let d := mv_desc_set_dest_addr d dest
      let d := mv_desc_set_src_addr k d 0 src
      let d := { d with unmap_src_cnt := 1 }
      let d := { d with unmap_len := len }
      some (some sw_desc, set_slot sw_desc d s)
    | (none, s) => some (none, s)

/-- The loop `while (src_cnt--)` of `mv_xor_prep_dma_xor`: the sources are set
from index `src_cnt - 1` down to index `0`. -/
def xor_src_loop (k : mv_xor_h) (src : Nat → Nat) : Nat → mv_xor_desc_slot → mv_xor_desc_slot
  | 0, d => d
  | src_cnt + 1, d => xor_src_loop k src src_cnt (mv_desc_set_src_addr k d src_cnt (src src_cnt))

/-- The source function `mv_xor_prep_dma_xor`: the returned descriptor (`none`
is `NULL`) and the channel afterwards; the outer `none` is the `BUG_ON` on the
length. `src` is the array of the source addresses. -/
def mv_xor_prep_dma_xor (k : mv_xor_h) (s : mv_xor_chan) (dest : Nat) (src : Nat → Nat)
    (src_cnt : Nat) (len : Nat) (flags : Nat) : Option (Option Nat × mv_xor_chan) :=
  if len < k.MV_XOR_MIN_BYTE_COUNT then some (none, s)
  else if len > k.MV_XOR_MAX_BYTE_COUNT then none
  else
    match mv_xor_alloc_slot k s with
    | (some sw_desc, s) =>
      let d := s.slots sw_desc
      let d := { d with type := dma_transaction_type.DMA_XOR }
      let d := { d with async_tx := { d.async_tx with flags := flags } }
      let d := mv_desc_init k d flags
      let d := if s.op_in_desc = mv_xor_mode.XOR_MODE_IN_DESC then mv_desc_set_mode k d else d
      let d := mv_desc_set_byte_count d len
      let d := mv_desc_set_dest_addr d dest
      let d := { d with unmap_src_cnt := src_cnt }
      let d := { d with unmap_len := len }
      let d := xor_src_loop k src src_cnt d
      some (some sw_desc, set_slot sw_desc d s)
    | (none, s) => some (none, s)

/-- The engine coefficients `mv_xor_raid6_coefs`. -/
def mv_xor_raid6_coefs : List Nat := [0x01, 0x02, 0x04, 0x08, 0x10, 0x20, 0x40, 0x80]

/-- The loop `while (src_cnt)` of `mv_xor_prep_dma_pq`, entered with the table
index `i`, the source index `src_i` and the count `src_cnt`; the first argument
is the coefficient table from index `i` on (all of `mv_xor_raid6_coefs` at
`i = 0`). `scf` is the array of the coefficient bytes and `src` the array of
the source addresses. `none` is a read of the table past its eight entries,
up to which the loop is followed (`pq_src_scan`). -/
def pq_src_loop (k : mv_xor_h) (src scf : Nat → Nat) :
    List Nat → Nat → Nat → Nat → mv_xor_desc_slot → Option mv_xor_desc_slot
  | [], _, _, src_cnt, d => if src_cnt = 0 then some d else none
  | c :: coefs, i, src_i, src_cnt, d =>
    if src_cnt = 0 then some d
    else if scf src_i = c then
      pq_src_loop k src scf coefs (i + 1) (src_i + 1) (src_cnt - 1)
        (mv_desc_set_src_addr k d i (src src_i))
    else pq_src_loop k src scf coefs (i + 1) src_i src_cnt d

/-- The local variables of the loop `while (src_cnt)` of `mv_xor_prep_dma_pq`:
the table index `i`, the source index `src_i`, the count `src_cnt` of the
sources still to place, and the descriptor. -/
structure pq_locals where
  i : Nat
  src_i : Nat
  src_cnt : Nat
  desc : mv_xor_desc_slot

/-- The loop `while (src_cnt)` of `mv_xor_prep_dma_pq` for as long as it reads
`mv_xor_raid6_coefs` within its eight entries: the local variables when the
loop is left (`src_cnt = 0`), or, with `src_cnt` still non-zero, when the next
step of the loop reads the table past its last entry. The first argument is
the coefficient table from index `i` on. -/
def pq_src_scan (k : mv_xor_h) (src scf : Nat → Nat) : List Nat → pq_locals → pq_locals
  | [], l => l
  | c :: coefs, l =>
    if l.src_cnt = 0 then l
    else if scf l.src_i = c then
      pq_src_scan k src scf coefs
        ⟨l.i + 1, l.src_i + 1, l.src_cnt - 1, mv_desc_set_src_addr k l.desc l.i (src l.src_i)⟩
    else pq_src_scan k src scf coefs { l with i := l.i + 1 }

/-- The source function `mv_xor_prep_dma_pq`: the returned descriptor (`none`
is `NULL`) and the channel afterwards; the outer `none` is the `BUG_ON` on the
length, or a loop that goes on to read `mv_xor_raid6_coefs` past its eight
entries, which is not followed further. `dst` is the array of the two
destination addresses. -/
def mv_xor_prep_dma_pq (k : mv_xor_h) (s : mv_xor_chan) (dst : Nat → Nat) (src : Nat → Nat)
    (src_cnt : Nat) (scf : Nat → Nat) (len : Nat) (flags : Nat) :
    Option (Option Nat × mv_xor_chan) :=
  if len < k.MV_XOR_MIN_BYTE_COUNT then some (none, s)
  else if len > k.MV_XOR_MAX_BYTE_COUNT then none
  else if flags &&& k.DMA_PREP_PQ_MULT ≠ 0 ∨ flags &&& k.DMA_PREP_PQ_SUM_PRODUCT ≠ 0 then
    some (none, s)
  else
    match mv_xor_alloc_slot k s with
    | (some sw_desc, s) =>
      let d := s.slots sw_desc
      let d := { d with type := dma_transaction_type.DMA_PQ }
      let d := { d with async_tx := { d.async_tx with flags := flags } }
      let d := mv_desc_init k d flags
      let d := if s.op_in_desc = mv_xor_mode.XOR_MODE_IN_DESC then mv_desc_set_mode k d else d
      let d := mv_desc_set_byte_count d len
      let d := if flags &&& k.DMA_PREP_PQ_DISABLE_P = 0 then mv_desc_set_dest_addr d (dst 0) else d
      let d :=
        if flags &&& k.DMA_PREP_PQ_DISABLE_Q = 0 then mv_desc_set_q_dest_addr d (dst 1) else d
      let d := { d with unmap_src_cnt := src_cnt }
      let d := { d with unmap_len := len }
      match pq_src_loop k src scf mv_xor_raid6_coefs 0 0 src_cnt d with
      | some d => some (some sw_desc, set_slot sw_desc d s)
      | none => none
    | (none, s) => some (none, s)

/-! ## Runs of the driver -/

/-- What happens to a channel between two entries into the driver: the calls
`mv_xor_alloc_slot`, `mv_xor_tx_submit` and `__mv_xor_slot_cleanup`, the device
rewriting the status and result words of the descriptors and its registers, and
the client writing the flags and the callback of a descriptor. -/
inductive driver_op where
  | alloc_slot
  | tx_submit (tx : Nat)
  | slot_cleanup
  | device (status : Nat → Nat) (crc32_result : Nat → Nat) (curr_desc : Nat) (activation : Nat)
  | client (tx : Nat) (flags : Nat) (callback : Nat) (callback_param : Nat)

/-- The device rewrites the status and result word of every descriptor and its
own registers. -/
def device_update (status : Nat → Nat) (crc32_result : Nat → Nat) (curr_desc : Nat)
    (activation : Nat) (s : mv_xor_chan) : mv_xor_chan :=
  { s with
    slots := fun i =>
      { s.slots i with
        hw_desc := { (s.slots i).hw_desc with status := status i, crc32_result := crc32_result i } }
    xor_curr_desc := curr_desc
    xor_activation := activation }

/-- The client writes the flags and the callback of a descriptor. -/
def client_update (tx : Nat) (flags : Nat) (callback : Nat) (callback_param : Nat)
    (s : mv_xor_chan) : mv_xor_chan :=
  let d := s.slots tx
  set_slot tx
    { d with async_tx :=
      { d.async_tx with flags := flags, callback := callback, callback_param := callback_param } } s

/-- One step of a run; `none` when the driver hits a `BUG` or when the client
submits a descriptor that is not in `allocated_slots`. -/
def driver_step (k : mv_xor_h) (op : driver_op) (s : mv_xor_chan) : Option mv_xor_chan :=
  match op with
  | .alloc_slot => some (mv_xor_alloc_slot k s).2
  | .tx_submit tx =>
    if tx ∈ s.allocated_slots then (mv_xor_tx_submit k s tx).map fun r => r.2 else none
  | .slot_cleanup => __mv_xor_slot_cleanup k s
  | .device status crc curr act => some (device_update status crc curr act s)
  | .client tx flags cb param => some (client_update tx flags cb param s)

/-- A run: the steps one after the other. -/
def driver_run (k : mv_xor_h) : List driver_op → mv_xor_chan → Option mv_xor_chan
  | [], s => some s
  | op :: ops, s =>
    match driver_step k op s with
    | some s => driver_run k ops s
    | none => none

/-! ## Notions used in the statements -/

/-- The four slot sequences one after the other. -/
def all_slots (s : mv_xor_chan) : List Nat :=
  s.free_slots ++ s.allocated_slots ++ s.chain ++ s.completed_slots

/-- The slot-set partition: the four sequences are duplicate-free and pairwise
disjoint (their concatenation has no duplicates) and together hold exactly the
slots of the pool, the indices below `slots_allocated`. -/
def slots_partition (s : mv_xor_chan) : Prop :=
  (all_slots s).Nodup ∧ ∀ i, i ∈ all_slots s ↔ i < s.slots_allocated

/-- The status word of slot `i` marks it successful. -/
def slot_success (k : mv_xor_h) (slots : Nat → mv_xor_desc_slot) (i : Nat) : Bool :=
  decide ((slots i).hw_desc.status &&& k.XOR_DESC_SUCCESS ≠ 0)

/-- The descriptor of slot `i` is acknowledged. -/
def slot_acked (k : mv_xor_h) (slots : Nat → mv_xor_desc_slot) (i : Nat) : Bool :=
  async_tx_test_ack k (slots i).async_tx

/-- The nodes of a list that a walk from its head reaches when it stops at the
first node whose physical address is `current_desc`. -/
def walk_visited (slots : Nat → mv_xor_desc_slot) (current_desc : Nat) : List Nat → List Nat
  | [] => []
  | i :: rest =>
    if (slots i).async_tx.phys = current_desc then [i]
    else i :: walk_visited slots current_desc rest

/-- The events of the checksum write-back for slot `i`. -/
def crc32_events (slots : Nat → mv_xor_desc_slot) (i : Nat) : List mv_xor_event :=
  if (slots i).type = dma_transaction_type.DMA_CRC32C then
    [mv_xor_event.crc32_write i (slots i).crc32_result (u32_not (slots i).hw_desc.crc32_result)]
  else []

/-- The events of `mv_xor_run_tx_complete_actions` for slot `i`. -/
def action_events (slots : Nat → mv_xor_desc_slot) (i : Nat) : List mv_xor_event :=
  (if (slots i).async_tx.cookie > 0 then
      (if (slots i).async_tx.callback ≠ 0 then [mv_xor_event.callback i] else []) ++
        (if (slots i).unmap_len ≠ 0 then [mv_xor_event.unmap i] else [])
    else []) ++ [mv_xor_event.run_dependencies i]

/-- The completion actions of slot `i` in the order of the source. -/
def completion_events (slots : Nat → mv_xor_desc_slot) (i : Nat) : List mv_xor_event :=
  crc32_events slots i ++ action_events slots i

/-- The cookie that the loop of the cleanup holds after it completed the slots
of a list, starting from `cookie`. -/
def walk_cookie (slots : Nat → mv_xor_desc_slot) (cookie : Int) (l : List Nat) : Int :=
  l.foldl (fun c i => if (slots i).async_tx.cookie > 0 then (slots i).async_tx.cookie else c) cookie

/-- Every submission of the run finds the cookie counter below the largest
signed 32-bit value: the counter does not wrap. -/
def run_no_wrap (k : mv_xor_h) : List driver_op → mv_xor_chan → Bool
  | [], _ => true
  | op :: ops, s =>
    (match op with
      | .tx_submit _ => decide (s.cookie < 2 ^ 31 - 1)
      | _ => true) &&
    (match driver_step k op s with
      | some s => run_no_wrap k ops s
      | none => true)

/-- The successful slots of the chain are a prefix of it: no successful slot
follows a slot that is not yet successful. -/
def chain_in_order (k : mv_xor_h) (s : mv_xor_chan) : Bool :=
  (s.chain.dropWhile (slot_success k s.slots)).all fun i => !slot_success k s.slots i

/-- Every cleanup pass of the run finds the chain completed in order. -/
def run_in_order (k : mv_xor_h) : List driver_op → mv_xor_chan → Bool
  | [], _ => true
  | op :: ops, s =>
    (match op with
      | .slot_cleanup => chain_in_order k s
      | _ => true) &&
    (match driver_step k op s with
      | some s => run_in_order k ops s
      | none => true)

/-- What the loop of the cleanup leaves alone: everything but the free, chain
and completed lists, the caller memory, the event log and the views of the
callbacks. -/
def cleanup_frame (s s' : mv_xor_chan) : Prop :=
  s' = { s with
    free_slots := s'.free_slots
    chain := s'.chain
    completed_slots := s'.completed_slots
    mem := s'.mem
    events := s'.events
    callback_views := s'.callback_views }

/-- What arming the device and scheduling the tasklet leave alone: everything
but the pending counter, the next-descriptor register and the two counters of
doorbell writes and tasklet requests. -/
def resume_frame (s s' : mv_xor_chan) : Prop :=
  s' = { s with
    pending := s'.pending
    xor_next_desc := s'.xor_next_desc
    activate_count := s'.activate_count
    tasklet_count := s'.tasklet_count }

/-- The slots of the chain that the loop of a cleanup pass on `s` runs on. -/
def cleanup_visited (s : mv_xor_chan) : List Nat :=
  walk_visited s.slots (mv_chan_get_current_desc s) s.chain

/-- The slots that a cleanup pass on `s` completes: the visited slots whose
status word marks them successful, in chain order. -/
def cleanup_completed (k : mv_xor_h) (s : mv_xor_chan) : List Nat :=
  (cleanup_visited s).filter (slot_success k s.slots)

/-! ## Channels used to evaluate the definitions -/

/-- A zeroed slot with index `idx`, its descriptor at address `4096 + 64 * idx`. -/
def example_slot (idx : Nat) : mv_xor_desc_slot where
  type := dma_transaction_type.DMA_XOR
  hw_desc :=
    { status := 0, crc32_result := 0, desc_command := 0, phy_next_desc := 0, byte_count := 0,
      phy_dest_addr := 0, phy_src_addr := fun _ => 0, phy_q_dest_addr := 0 }
  async_tx := { cookie := 0, flags := 0, phys := 4096 + 64 * idx, callback := 0, callback_param := 0 }
  unmap_src_cnt := 0
  unmap_len := 0
  crc32_result := 0

/-- A channel with a pool of four slots, all free, as `mv_xor_channel_add` and
`mv_xor_alloc_chan_resources` leave it (cookies start at `1`). -/
def example_chan : mv_xor_chan where
  slots := example_slot
  slots_allocated := 4
  free_slots := [0, 1, 2, 3]
  allocated_slots := []
  chain := []
  completed_slots := []
  pending := 0
  op_in_desc := mv_xor_mode.XOR_MODE_IN_DESC
  cookie := 1
  completed_cookie := 1
  xor_curr_desc := 0
  xor_next_desc := 0
  xor_activation := 0
  activate_count := 0
  tasklet_count := 0
  mem := fun _ => 0
  events := []
  idx := 0
  lock_held := false
  xor_intr_cause := 0
  intr_cause_writes := []
  reg_dumps := 0
  callback_views := []

/-- A slot as a builder and a submission leave it: cookie, flags, callback,
and the status word and forward link of its descriptor. -/
def submitted_slot (idx : Nat) (cookie : Int) (flags : Nat) (callback : Nat) (status : Nat)
    (next : Nat) : mv_xor_desc_slot :=
  { example_slot idx with
    hw_desc := { (example_slot idx).hw_desc with status := status, phy_next_desc := next }
    async_tx :=
      { (example_slot idx).async_tx with cookie := cookie, flags := flags, callback := callback } }

/-- The example channel with slots `0` and `1` chained in this order (cookies
`2` and `3`, both acknowledged, callback set), slot `2` allocated and slot `3`
free. The device has marked slot `1` successful and slot `0` not, and its
current-descriptor register holds no slot address. -/
def chan_out_of_order : mv_xor_chan :=
  { example_chan with
    free_slots := [3]
    allocated_slots := [2]
    chain := [0, 1]
    cookie := 3
    slots := fun i =>
      if i = 0 then submitted_slot 0 2 2 7 0 4160
      else if i = 1 then submitted_slot 1 3 2 7 1073741824 0
      else example_slot i }

/-- The slots whose callback an event log records as invoked, in the order of
the invocations. -/
def callback_slots (events : List mv_xor_event) : List Nat :=
  events.filterMap fun e =>
    match e with
    | .callback i => some i
    | _ => none

/-- Completing slot `i` invokes a callback: it carries a positive cookie and a
callback pointer. -/
def has_callback (slots : Nat → mv_xor_desc_slot) (i : Nat) : Bool :=
  decide ((slots i).async_tx.cookie > 0 ∧ (slots i).async_tx.callback ≠ 0)

/-- The slot that an event belongs to. -/
def event_slot (e : mv_xor_event) : Nat :=
  match e with
  | .crc32_write idx _ _ => idx
  | .callback idx => idx
  | .unmap idx => idx
  | .run_dependencies idx => idx

/-- The example channel with slots `0` and `1` chained in this order (cookies
`2` and `3`, callback set; slot `0` acknowledged, slot `1` not), slot `2`
allocated and slot `3` free. The device has marked both chained slots
successful, is idle, and its current-descriptor register holds the address of
slot `1`. -/
def chan_in_order : mv_xor_chan :=
  { example_chan with
    free_slots := [3]
    allocated_slots := [2]
    chain := [0, 1]
    cookie := 3
    xor_curr_desc := 4160
    slots := fun i =>
      if i = 0 then submitted_slot 0 2 2 7 1073741824 4160
      else if i = 1 then submitted_slot 1 3 0 7 1073741824 0
      else example_slot i }

/-- What the list moves and the completion actions leave alone: everything but
the four lists, the caller memory, the event log and the views of the
callbacks. -/
def lists_frame (s s' : mv_xor_chan) : Prop :=
  s' = { s with
    free_slots := s'.free_slots
    allocated_slots := s'.allocated_slots
    chain := s'.chain
    completed_slots := s'.completed_slots
    mem := s'.mem
    events := s'.events
    callback_views := s'.callback_views }

/-- The channel of a result of `mv_xor_tx_submit`, `example_chan` when there is
none. -/
def submit_chan (r : Option (Int × mv_xor_chan)) : mv_xor_chan :=
  (r.map fun p => p.2).getD example_chan

/-- The channel `chan_in_order` after the submission of slot `2`. -/
def chan_first_submit : mv_xor_chan :=
  submit_chan (mv_xor_tx_submit sample_h chan_in_order 2)

/-- The channel `chan_first_submit` after an allocation and a cleanup pass. -/
def chan_between_submits : mv_xor_chan :=
  (driver_run sample_h [driver_op.alloc_slot, driver_op.slot_cleanup]
    chan_first_submit).getD example_chan

/-- The channel `chan_between_submits` after the submission of slot `3`. -/
def chan_second_submit : mv_xor_chan :=
  submit_chan (mv_xor_tx_submit sample_h chan_between_submits 3)

/-- Arming the device for the descriptor at `phys`, from channel `s` to channel
`s'`: the next-descriptor register holds `phys`, the pending counter (an
`unsigned int`) is incremented, and the threshold rule of
`mv_xor_issue_pending` is applied: at the threshold the counter is reset and
the doorbell is written once, below it no doorbell is written. -/
def armed_for (k : mv_xor_h) (phys : Nat) (s s' : mv_xor_chan) : Prop :=
  s'.xor_next_desc = phys ∧
  (if (s.pending + 1) % 2 ^ 32 ≥ k.MV_XOR_THRESHOLD then
    s'.pending = 0 ∧ s'.activate_count = s.activate_count + 1
  else s'.pending = (s.pending + 1) % 2 ^ 32 ∧ s'.activate_count = s.activate_count)

/-- The example channel with slot `0` allocated and the other slots free. -/
def chan_allocated : mv_xor_chan :=
  { example_chan with free_slots := [1, 2, 3], allocated_slots := [0] }

/-- The example channel with slot `0` chained (cookie `2`, forward link unset),
slot `1` allocated and the other slots free; the device is idle with the
address of slot `0` in its current-descriptor register. -/
def chan_tail_drained : mv_xor_chan :=
  { example_chan with
    free_slots := [2, 3]
    allocated_slots := [1]
    chain := [0]
    cookie := 2
    xor_curr_desc := 4096
    slots := fun i => if i = 0 then submitted_slot 0 2 2 7 0 0 else example_slot i }

/-- The example channel with an empty free list: all four slots allocated. -/
def chan_exhausted : mv_xor_chan :=
  { example_chan with free_slots := [], allocated_slots := [0, 1, 2, 3] }

/-- A pool in which slot `0` is a checksum descriptor (cookie `2`, callback
set, acknowledged) with output location `512` and hardware result word
`0x12345678`, marked successful, alone in the chain. -/
def chan_crc32 : mv_xor_chan :=
  { example_chan with
    free_slots := [1, 2, 3]
    chain := [0]
    cookie := 2
    slots := fun i =>
      if i = 0 then
        { submitted_slot 0 2 2 7 1073741824 0 with
          type := dma_transaction_type.DMA_CRC32C
          hw_desc :=
            { (submitted_slot 0 2 2 7 1073741824 0).hw_desc with crc32_result := 305419896 }
          crc32_result := 512 }
      else example_slot i }

/-- Cookie order of a chain for a cookie assignment `c`: the cookies increase
strictly along the chain, every one of them lies above the completed cookie and
not above the cookie counter of the channel. -/
def cookie_order_on (c : Nat → Int) (chain : List Nat) (completed counter : Int) : Prop :=
  chain.Pairwise (fun i j => c i < c j) ∧
  (∀ i ∈ chain, completed < c i ∧ c i ≤ counter) ∧ completed ≤ counter

/-- The cookies of the chained slots of a channel are in cookie order. -/
def cookie_order (s : mv_xor_chan) : Prop :=
  cookie_order_on (fun i => (s.slots i).async_tx.cookie) s.chain s.completed_cookie s.cookie

/-- The run that brings the completed cookie down: slots `0` and `1` are
allocated and submitted (cookies `2` and `3`), the device marks slot `1`
successful and a cleanup pass runs; then the device marks slot `0` successful
too. -/
def run_out_of_order : List driver_op :=
  [driver_op.alloc_slot, driver_op.tx_submit 0, driver_op.alloc_slot, driver_op.tx_submit 1,
    driver_op.device (fun i => if i = 1 then 1073741824 else 0) (fun _ => 0) 0 0,
    driver_op.slot_cleanup,
    driver_op.device (fun _ => 1073741824) (fun _ => 0) 0 0]

/-- The run in which the device completes in chain order: slots `0` and `1` are
allocated and submitted, the device marks slot `0` successful and a cleanup
pass runs; then the device marks slot `1` successful too. -/
def run_in_chain_order : List driver_op :=
  [driver_op.alloc_slot, driver_op.tx_submit 0, driver_op.alloc_slot, driver_op.tx_submit 1,
    driver_op.device (fun i => if i = 0 then 1073741824 else 0) (fun _ => 0) 0 0,
    driver_op.slot_cleanup,
    driver_op.device (fun _ => 1073741824) (fun _ => 0) 0 0]

/-- The channel after `run_in_chain_order` from `example_chan`. -/
def chan_after_run_in_chain_order : mv_xor_chan :=
  (driver_run sample_h run_in_chain_order example_chan).getD example_chan

/-- No assertion of the cleanup pass can fail on slot `d`: its cookie is not
negative, a checksum slot has an output location, and a slot whose buffers are
to be unmapped has a transaction type that `mv_xor_unmap_desc` handles. -/
def slot_passes_assertions (d : mv_xor_desc_slot) : Prop :=
  0 ≤ d.async_tx.cookie ∧
  (d.type = dma_transaction_type.DMA_CRC32C → d.crc32_result ≠ 0) ∧
  (d.async_tx.cookie > 0 → d.unmap_len ≠ 0 → d.type ≠ dma_transaction_type.DMA_INTERRUPT)

/-- The run that leaves a linked slot at the tail of the chain: slots `0` and
`1` are allocated and submitted, the device marks slot `1` successful, a
cleanup pass runs, and slot `2` is allocated. -/
def run_to_linked_tail : List driver_op :=
  [driver_op.alloc_slot, driver_op.tx_submit 0, driver_op.alloc_slot, driver_op.tx_submit 1,
    driver_op.device (fun i => if i = 1 then 1073741824 else 0) (fun _ => 0) 0 0,
    driver_op.slot_cleanup, driver_op.alloc_slot]

/-- The constants of `sample_h` with a coalescing threshold of four. -/
def threshold_four_h : mv_xor_h := { sample_h with MV_XOR_THRESHOLD := 4 }

/-- The example channel with one pending activation. -/
def chan_one_pending : mv_xor_chan := { example_chan with pending := 1 }

/-- The example channel with the seed word `0xFFFFFFFF` at address `512` of the
caller memory. -/
def chan_seeded : mv_xor_chan :=
  { example_chan with mem := fun a => if a = 512 then 4294967295 else 0 }

/-- The descriptor `d` after the first `n` sources of a parity request have
been placed by their coefficients: source `j` is set, by
`mv_desc_set_src_addr`, at the index that its coefficient `scf j` has in
`mv_xor_raid6_coefs`, for `j` from `0` to `n - 1`. -/
def pq_placed (k : mv_xor_h) (src scf : Nat → Nat) (n : Nat) (d : mv_xor_desc_slot) :
    mv_xor_desc_slot :=
  ((List.range n).map fun j => (mv_xor_raid6_coefs.indexOf (scf j), src j)).foldl
    (fun d p => mv_desc_set_src_addr k d p.1 p.2) d

/-- The coefficient array `2, 1, 1, ...`: coefficients of the engine in
descending order. -/
def scf_descending : Nat → Nat := fun j => if j = 0 then 2 else 1

/-- The coefficient array that starts with `3`, which the engine does not
have. -/
def scf_foreign : Nat → Nat := fun _ => 3

/-- The coefficient array `1, 2, 2, ...`. -/
def scf_ascending : Nat → Nat := fun j => if j = 0 then 1 else 2

/-- Source and destination addresses used to evaluate the builders. -/
def example_addrs : Nat → Nat := fun j => 65536 + 4096 * j

/-- What a builder does to a channel: nothing (the request is refused), or one
more `tasklet_schedule` (the pool is exhausted), or the first free slot moves to
`allocated_slots` and gets a descriptor whose forward link is zero. -/
def build_effect (s s' : mv_xor_chan) : Prop :=
  s' = s ∨ s' = tasklet_schedule s ∨
  ∃ i rest d, s.free_slots = i :: rest ∧ d.hw_desc.phy_next_desc = 0 ∧
    s' = set_slot i d (list_move_tail i list_head.allocated_slots s)

/-- Whether a call into the interrupt path returned (`false`: it stopped in
`BUG()`). -/
def irq_returned : irq_outcome → Bool
  | .returned _ => true
  | .bug _ => false

/-- The channel as a call into the interrupt path left it. -/
def irq_chan : irq_outcome → mv_xor_chan
  | .returned s => s
  | .bug s => s

/-- The example channel with the cause bits `4` and `5` of channel `0` set in
the cause register. -/
def chan_cause_4_5 : mv_xor_chan := { example_chan with xor_intr_cause := 48 }

/-- The example channel with the cause bit `5` of channel `0` set in the cause
register. -/
def chan_cause_5 : mv_xor_chan := { example_chan with xor_intr_cause := 32 }

/-- What happens to a channel between two entries into the driver when slots
are obtained through the builders only: a build by one of the five builders
(the interrupt builder with the values of the globals `dummy1_addr` and
`dummy2_addr`), `mv_xor_tx_submit`, a pass of `__mv_xor_slot_cleanup`, the
device rewriting status words and registers, and the client writing the flags
and the callback of a descriptor. -/
inductive engine_op where
  | prep_dma_interrupt (dummy1_addr dummy2_addr : Nat) (flags : Nat)
  | prep_dma_memcpy (dest src len flags : Nat)
  | prep_dma_xor (dest : Nat) (src : Nat → Nat) (src_cnt len flags : Nat)
  | prep_dma_crc32c (src len seed flags : Nat)
  | prep_dma_pq (dst src : Nat → Nat) (src_cnt : Nat) (scf : Nat → Nat) (len flags : Nat)
  | tx_submit (tx : Nat)
  | slot_cleanup
  | device (status : Nat → Nat) (crc32_result : Nat → Nat) (curr_desc : Nat) (activation : Nat)
  | client (tx : Nat) (flags : Nat) (callback : Nat) (callback_param : Nat)

/-- One step of a run with builders; `none` when the driver hits a `BUG`, when
the client submits a descriptor that is not in `allocated_slots`, or when a
parity build goes on to read past the coefficient table, where the step is not
followed further. -/
def engine_step (k : mv_xor_h) (op : engine_op) (s : mv_xor_chan) : Option mv_xor_chan :=
  match op with
  | .prep_dma_interrupt a1 a2 flags => some (mv_xor_prep_dma_interrupt k a1 a2 s flags).2
  | .prep_dma_memcpy dest src len flags =>
    (mv_xor_prep_dma_memcpy k s dest src len flags).map fun r => r.2
  | .prep_dma_xor dest src src_cnt len flags =>
    (mv_xor_prep_dma_xor k s dest src src_cnt len flags).map fun r => r.2
  | .prep_dma_crc32c src len seed flags => some (mv_xor_prep_dma_crc32c k s src len seed flags).2
  | .prep_dma_pq dst src src_cnt scf len flags =>
    (mv_xor_prep_dma_pq k s dst src src_cnt scf len flags).map fun r => r.2
  | .tx_submit tx => driver_step k (driver_op.tx_submit tx) s
  | .slot_cleanup => driver_step k driver_op.slot_cleanup s
  | .device status crc curr act => driver_step k (driver_op.device status crc curr act) s
  | .client tx flags cb param => driver_step k (driver_op.client tx flags cb param) s

/-- A run with builders: the steps one after the other. -/
def engine_run (k : mv_xor_h) : List engine_op → mv_xor_chan → Option mv_xor_chan
  | [], s => some s
  | op :: ops, s =>
    match engine_step k op s with
    | some s => engine_run k ops s
    | none => none

/-- Every cleanup pass of the run with builders finds the chain completed in
order. -/
def engine_run_in_order (k : mv_xor_h) : List engine_op → mv_xor_chan → Bool
  | [], _ => true
  | op :: ops, s =>
    (match op with
      | .slot_cleanup => chain_in_order k s
      | _ => true) &&
    (match engine_step k op s with
      | some s => engine_run_in_order k ops s
      | none => true)

/-- The hardware forward link of the last slot of the chain is zero. -/
def tail_unlinked (s : mv_xor_chan) : Prop :=
  ∀ t, s.chain.getLast? = some t → (s.slots t).hw_desc.phy_next_desc = 0

/-- The hardware forward link of every allocated slot is zero. -/
def allocated_unlinked (s : mv_xor_chan) : Prop :=
  ∀ j ∈ s.allocated_slots, (s.slots j).hw_desc.phy_next_desc = 0

/-- The run with builders that leaves a linked slot at the tail of the chain:
two copies are built (slots `0` and `1`) and submitted, the device marks slot
`1` successful, a cleanup pass runs, and a third copy is built (slot `2`). -/
def engine_run_to_linked_tail : List engine_op :=
  [engine_op.prep_dma_memcpy 8192 12288 128 0, engine_op.tx_submit 0,
    engine_op.prep_dma_memcpy 8192 12288 128 0, engine_op.tx_submit 1,
    engine_op.device (fun i => if i = 1 then 1073741824 else 0) (fun _ => 0) 0 0,
    engine_op.slot_cleanup, engine_op.prep_dma_memcpy 8192 12288 128 0]

/-- The run with builders in which the device completes in chain order: two
copies are built and submitted, the device marks slot `0` successful, a cleanup
pass runs, and a third copy is built (slot `2`). -/
def engine_run_in_chain_order : List engine_op :=
  [engine_op.prep_dma_memcpy 8192 12288 128 0, engine_op.tx_submit 0,
    engine_op.prep_dma_memcpy 8192 12288 128 0, engine_op.tx_submit 1,
    engine_op.device (fun i => if i = 0 then 1073741824 else 0) (fun _ => 0) 0 0,
    engine_op.slot_cleanup, engine_op.prep_dma_memcpy 8192 12288 128 0]

/-- The example channel with slots `0`, `1` and `2` chained in this order
(cookies `2`, `3` and `4`, all acknowledged) and slot `3` free. The device has
marked slot `0` successful and the slots `1` and `2` not, is idle, and its
current-descriptor register holds the address of slot `1`. -/
def chan_resume_next : mv_xor_chan :=
  { example_chan with
    free_slots := [3]
    chain := [0, 1, 2]
    cookie := 4
    xor_curr_desc := 4160
    slots := fun i =>
      if i = 0 then submitted_slot 0 2 2 0 1073741824 4160
      else if i = 1 then submitted_slot 1 3 2 0 0 4224
      else if i = 2 then submitted_slot 2 4 2 0 0 0
      else example_slot i }

/-- The channel `chan_resume_next` with slot `1` marked successful too. -/
def chan_resume_cleaned : mv_xor_chan :=
  { chan_resume_next with
    slots := fun i =>
      if i = 1 then submitted_slot 1 3 2 0 1073741824 4224 else chan_resume_next.slots i }

/-- The example channel with slots `0` and `1` chained in this order (cookies
`2` and `3`, both acknowledged) and the slots `2` and `3` free. The device has
marked slot `0` successful and slot `1` not, is idle, and its
current-descriptor register holds the address of slot `3`, which is not in the
chain. -/
def chan_walk_past_current : mv_xor_chan :=
  { example_chan with
    free_slots := [2, 3]
    chain := [0, 1]
    cookie := 3
    xor_curr_desc := 4288
    slots := fun i =>
      if i = 0 then submitted_slot 0 2 2 0 1073741824 4160
      else if i = 1 then submitted_slot 1 3 2 0 0 0
      else example_slot i }

/-- The caller memory after the checksum write-back for slot `i`: for a slot of
checksum kind the word at its output location is the 32-bit complement of the
result word of its hardware descriptor; the memory is unchanged for a slot of
another kind. -/
def crc32_store (slots : Nat → mv_xor_desc_slot) (mem : Nat → Nat) (i : Nat) : Nat → Nat :=
  if (slots i).type = dma_transaction_type.DMA_CRC32C then
    Function.update mem (slots i).crc32_result (u32_not (slots i).hw_desc.crc32_result)
  else mem

/-- The caller memory after the checksum write-backs for the slots of a list,
in the order of the list. -/
def walk_mem (slots : Nat → mv_xor_desc_slot) (mem : Nat → Nat) (l : List Nat) : Nat → Nat :=
  l.foldl (crc32_store slots) mem

/-- What the callbacks find when the slots of a list are completed in order
with the lock flag `lock`, starting from the caller memory `mem`: one view for
every slot that has a callback, with the memory as it is after the write-backs
up to and including that of the slot. -/
def walk_views (slots : Nat → mv_xor_desc_slot) (lock : Bool) :
    (Nat → Nat) → List Nat → List callback_view
  | _, [] => []
  | mem, i :: rest =>
    (if has_callback slots i then [⟨i, lock, crc32_store slots mem i⟩] else []) ++
      walk_views slots lock (crc32_store slots mem i) rest

/-! # Theorems -/

/-! ## List moves keep the partition -/

theorem count_erase_nodup (l : List Nat) (i a : Nat) (h : l.Nodup) :
    (l.erase i).count a = if a = i then 0 else l.count a := by
  rw [List.count_erase]
  by_cases hai : a = i
  · subst hai
    have := List.nodup_iff_count_le_one.mp h a
    simp; omega
  · have : ¬ i = a := fun h => hai h.symm
    simp [this, hai]

theorem all_slots_list_move_tail_perm (s : mv_xor_chan) (i : Nat) (l : list_head)
    (hnd : (all_slots s).Nodup) (hi : i ∈ all_slots s) :
    (all_slots (list_move_tail i l s)).Perm (all_slots s) := by
  rw [List.perm_iff_count]
  intro a
  have h1 := List.nodup_iff_count_eq_one.mp hnd
  unfold all_slots at hnd hi h1 ⊢
  have hA : s.free_slots.Nodup := by simp [List.nodup_append] at hnd; tauto
  have hB : s.allocated_slots.Nodup := by simp [List.nodup_append] at hnd; tauto
  have hC : s.chain.Nodup := by simp [List.nodup_append] at hnd; tauto
  have hD : s.completed_slots.Nodup := by simp [List.nodup_append] at hnd; tauto
  have h2 := h1 i hi
  simp only [List.count_append] at h2
  by_cases hai : a = i
  · subst hai
    cases l <;>
      simp [list_move_tail, list_add_tail, list_del, List.count_append, count_erase_nodup, hA,
        hB, hC, hD] <;> omega
  · cases l <;>
      simp [list_move_tail, list_add_tail, list_del, List.count_append, count_erase_nodup, hA,
        hB, hC, hD, hai, List.count_cons, List.count_nil]

theorem slots_allocated_list_move_tail (s : mv_xor_chan) (i : Nat) (l : list_head) :
    (list_move_tail i l s).slots_allocated = s.slots_allocated := by
  cases l <;> rfl

theorem slots_partition_of_perm {s s' : mv_xor_chan} (h : slots_partition s)
    (hp : (all_slots s').Perm (all_slots s)) (hn : s'.slots_allocated = s.slots_allocated) :
    slots_partition s' := by
  refine ⟨hp.nodup_iff.mpr h.1, fun i => ?_⟩
  rw [hp.mem_iff, hn]
  exact h.2 i

theorem slots_partition_list_move_tail {s : mv_xor_chan} (h : slots_partition s) (i : Nat)
    (l : list_head) (hi : i ∈ all_slots s) : slots_partition (list_move_tail i l s) :=
  slots_partition_of_perm h (all_slots_list_move_tail_perm s i l h.1 hi)
    (slots_allocated_list_move_tail s i l)

theorem all_slots_start_new_chain (k : mv_xor_h) (s : mv_xor_chan) (i : Nat) :
    all_slots (mv_xor_start_new_chain k s i) = all_slots s ∧
      (mv_xor_start_new_chain k s i).slots_allocated = s.slots_allocated := by
  unfold mv_xor_start_new_chain mv_xor_issue_pending
  dsimp only
  split <;> exact ⟨rfl, rfl⟩

theorem slots_partition_start_new_chain {k : mv_xor_h} {s : mv_xor_chan} {i : Nat}
    (h : slots_partition s) : slots_partition (mv_xor_start_new_chain k s i) :=
  slots_partition_of_perm h (by rw [(all_slots_start_new_chain k s i).1])
    (all_slots_start_new_chain k s i).2

theorem slots_partition_alloc_slot (k : mv_xor_h) (s : mv_xor_chan) (h : slots_partition s) :
    slots_partition (mv_xor_alloc_slot k s).2 := by
  unfold mv_xor_alloc_slot
  split
  · rename_i iter rest hf
    have hi : iter ∈ all_slots s := by simp [all_slots, hf]
    exact slots_partition_list_move_tail h iter _ hi
  · exact h

theorem slots_move_assign_phys (s : mv_xor_chan) (tx j : Nat) (l : list_head) :
    ((list_move_tail tx l (dma_cookie_assign s tx).2).slots j).async_tx.phys =
      (s.slots j).async_tx.phys := by
  have h : (list_move_tail tx l (dma_cookie_assign s tx).2).slots = (dma_cookie_assign s tx).2.slots := by
    cases l <;> rfl
  rw [h]
  by_cases hj : j = tx
  · subst hj
    simp [dma_cookie_assign, set_slot]
  · simp [dma_cookie_assign, set_slot, Function.update, hj]

/-- The result of a submission in terms of the channel after the cookie
assignment and the list move. -/
theorem tx_submit_eq (k : mv_xor_h) (s : mv_xor_chan) (tx : Nat) :
    mv_xor_tx_submit k s tx =
      (let m := list_move_tail tx list_head.chain (dma_cookie_assign s tx).2
      match s.chain.getLast? with
      | none => some ((dma_cookie_assign s tx).1, mv_xor_start_new_chain k m tx)
      | some t =>
        if (m.slots t).hw_desc.phy_next_desc ≠ 0 then none
        else
          let m' := set_slot t
            { m.slots t with
              hw_desc := { (m.slots t).hw_desc with phy_next_desc := (s.slots tx).async_tx.phys } } m
          some ((dma_cookie_assign s tx).1,
            if mv_chan_is_busy s = false ∧ s.xor_curr_desc = (s.slots t).async_tx.phys then
              mv_xor_start_new_chain k m' tx
            else m')) := by
  unfold mv_xor_tx_submit
  have hc : (dma_cookie_assign s tx).2.chain = s.chain := rfl
  dsimp only
  rw [hc]
  cases hl : s.chain.getLast? with
  | none => rfl
  | some t =>
    dsimp only
    unfold mv_desc_set_next_desc
    rw [slots_move_assign_phys]
    by_cases hn : ((list_move_tail tx list_head.chain (dma_cookie_assign s tx).2).slots
        t).hw_desc.phy_next_desc ≠ 0
    · simp only [if_pos hn]
    · simp only [if_neg hn]
      have hb : ∀ d, mv_chan_is_busy (set_slot t d
          (list_move_tail tx list_head.chain (dma_cookie_assign s tx).2)) = mv_chan_is_busy s :=
        fun _ => rfl
      rw [hb]
      simp only [set_slot, Function.update_same, mv_chan_get_current_desc]
      rw [slots_move_assign_phys]
      have hcur : (list_move_tail tx list_head.chain (dma_cookie_assign s tx).2).xor_curr_desc =
          s.xor_curr_desc := rfl
      rw [hcur]
      cases mv_chan_is_busy s <;> simp

theorem start_new_chain_lists (k : mv_xor_h) (s : mv_xor_chan) (i : Nat) :
    (mv_xor_start_new_chain k s i).events = s.events ∧
    (mv_xor_start_new_chain k s i).chain = s.chain ∧
    (mv_xor_start_new_chain k s i).free_slots = s.free_slots ∧
    (mv_xor_start_new_chain k s i).allocated_slots = s.allocated_slots ∧
    (mv_xor_start_new_chain k s i).completed_slots = s.completed_slots ∧
    (mv_xor_start_new_chain k s i).slots = s.slots ∧
    (mv_xor_start_new_chain k s i).cookie = s.cookie ∧
    (mv_xor_start_new_chain k s i).completed_cookie = s.completed_cookie ∧
    (mv_xor_start_new_chain k s i).slots_allocated = s.slots_allocated := by
  unfold mv_xor_start_new_chain mv_xor_issue_pending
  dsimp only
  split <;> exact ⟨rfl, rfl, rfl, rfl, rfl, rfl, rfl, rfl, rfl⟩

/-- The fields of the channel after a submission that the cookie assignment
and the list move determine. -/
theorem tx_submit_fields (k : mv_xor_h) (s : mv_xor_chan) (tx : Nat) (r : Int × mv_xor_chan)
    (hr : mv_xor_tx_submit k s tx = some r) :
    r.1 = dma_cookie_next s.cookie ∧ r.2.cookie = r.1 ∧
    (∀ j, (r.2.slots j).async_tx.cookie = if j = tx then r.1 else (s.slots j).async_tx.cookie) ∧
    r.2.events = s.events ∧ r.2.chain = s.chain.erase tx ++ [tx] ∧
    r.2.free_slots = s.free_slots.erase tx ∧
    r.2.allocated_slots = s.allocated_slots.erase tx ∧
    r.2.completed_slots = s.completed_slots.erase tx ∧
    r.2.slots_allocated = s.slots_allocated ∧ r.2.completed_cookie = s.completed_cookie := by
  have hm : ∀ j, ((list_move_tail tx list_head.chain (dma_cookie_assign s tx).2).slots
      j).async_tx.cookie =
      if j = tx then dma_cookie_next s.cookie else (s.slots j).async_tx.cookie := by
    intro j
    by_cases hj : j = tx
    · subst hj
      simp [list_move_tail, list_add_tail, list_del, dma_cookie_assign, set_slot]
    · simp [list_move_tail, list_add_tail, list_del, dma_cookie_assign, set_slot,
        Function.update, hj]
  have hP : ∀ X : mv_xor_chan,
      (∀ j, (X.slots j).async_tx.cookie =
        if j = tx then dma_cookie_next s.cookie else (s.slots j).async_tx.cookie) →
      X.cookie = dma_cookie_next s.cookie → X.events = s.events →
      X.chain = s.chain.erase tx ++ [tx] → X.free_slots = s.free_slots.erase tx →
      X.allocated_slots = s.allocated_slots.erase tx →
      X.completed_slots = s.completed_slots.erase tx →
      X.slots_allocated = s.slots_allocated → X.completed_cookie = s.completed_cookie →
      ∀ Y, (Y = X ∨ Y = mv_xor_start_new_chain k X tx) →
      (∀ j, (Y.slots j).async_tx.cookie =
        if j = tx then dma_cookie_next s.cookie else (s.slots j).async_tx.cookie) ∧
      Y.cookie = dma_cookie_next s.cookie ∧ Y.events = s.events ∧
      Y.chain = s.chain.erase tx ++ [tx] ∧ Y.free_slots = s.free_slots.erase tx ∧
      Y.allocated_slots = s.allocated_slots.erase tx ∧
      Y.completed_slots = s.completed_slots.erase tx ∧
      Y.slots_allocated = s.slots_allocated ∧ Y.completed_cookie = s.completed_cookie := by
    intro X h1 h2 h3 h4 h5 h6 h7 h8 h9 Y hY
    rcases hY with rfl | rfl
    · exact ⟨h1, h2, h3, h4, h5, h6, h7, h8, h9⟩
    · obtain ⟨e1, e2, e3, e4, e5, e6, e7, e8, e9⟩ := start_new_chain_lists k X tx
      rw [e1, e2, e3, e4, e5, e6, e7, e8, e9]
      exact ⟨h1, h2, h3, h4, h5, h6, h7, h8, h9⟩
  rw [tx_submit_eq] at hr
  dsimp only at hr
  cases hl : s.chain.getLast? with
  | none =>
    simp only [hl, Option.some.injEq] at hr
    subst hr
    obtain ⟨a1, a2, a3, a4, a5, a6, a7, a8, a9⟩ :=
      hP (list_move_tail tx list_head.chain (dma_cookie_assign s tx).2) hm rfl rfl rfl rfl rfl
        rfl rfl rfl _ (Or.inr rfl)
    exact ⟨rfl, a2, a1, a3, a4, a5, a6, a7, a8, a9⟩
  | some t =>
    simp only [hl] at hr
    split at hr
    · cases hr
    · simp only [Option.some.injEq] at hr
      subst hr
      have hm' : ∀ j, ((set_slot t
          { (list_move_tail tx list_head.chain (dma_cookie_assign s tx).2).slots t with
            hw_desc :=
              { ((list_move_tail tx list_head.chain (dma_cookie_assign s tx).2).slots t).hw_desc with
                phy_next_desc := (s.slots tx).async_tx.phys } }
          (list_move_tail tx list_head.chain (dma_cookie_assign s tx).2)).slots j).async_tx.cookie =
          if j = tx then dma_cookie_next s.cookie else (s.slots j).async_tx.cookie := by
        intro j
        rw [← hm j]
        by_cases hj : j = t
        · subst hj
          simp [set_slot]
        · simp [set_slot, Function.update, hj]
      dsimp only
      split
      · obtain ⟨a1, a2, a3, a4, a5, a6, a7, a8, a9⟩ :=
          hP _ hm' rfl rfl rfl rfl rfl rfl rfl rfl _ (Or.inr rfl)
        exact ⟨rfl, a2, a1, a3, a4, a5, a6, a7, a8, a9⟩
      · obtain ⟨a1, a2, a3, a4, a5, a6, a7, a8, a9⟩ :=
          hP _ hm' rfl rfl rfl rfl rfl rfl rfl rfl _ (Or.inl rfl)
        exact ⟨rfl, a2, a1, a3, a4, a5, a6, a7, a8, a9⟩

theorem all_slots_tx_submit_perm (k : mv_xor_h) (s : mv_xor_chan) (tx : Nat)
    (r : Int × mv_xor_chan) (hnd : (all_slots s).Nodup) (htx : tx ∈ s.allocated_slots)
    (hr : mv_xor_tx_submit k s tx = some r) : (all_slots r.2).Perm (all_slots s) := by
  have hi : tx ∈ all_slots s := by simp [all_slots, htx]
  have hm := all_slots_list_move_tail_perm s tx list_head.chain hnd hi
  obtain ⟨_, _, _, _, h1, h2, h3, h4, _⟩ := tx_submit_fields k s tx r hr
  have : all_slots r.2 = all_slots (list_move_tail tx list_head.chain s) := by
    unfold all_slots
    rw [h1, h2, h3, h4]
    rfl
  rw [this]
  exact hm

theorem slots_partition_tx_submit (k : mv_xor_h) (s : mv_xor_chan) (tx : Nat)
    (r : Int × mv_xor_chan) (h : slots_partition s) (htx : tx ∈ s.allocated_slots)
    (hr : mv_xor_tx_submit k s tx = some r) : slots_partition r.2 :=
  slots_partition_of_perm h (all_slots_tx_submit_perm k s tx r h.1 htx hr)
    (tx_submit_fields k s tx r hr).2.2.2.2.2.2.2.2.1

/-! ## The completion engine, step by step -/

theorem cleanup_frame_refl (s : mv_xor_chan) : cleanup_frame s s := rfl

theorem cleanup_frame_trans {a b c : mv_xor_chan} (h1 : cleanup_frame a b)
    (h2 : cleanup_frame b c) : cleanup_frame a c := by
  unfold cleanup_frame at *
  rw [h2, h1]

theorem crc32_write_back_spec {s s1 : mv_xor_chan} {i : Nat}
    (h : crc32_write_back s i = some s1) :
    s1 = { s with mem := s1.mem, events := s.events ++ crc32_events s.slots i } := by
  unfold crc32_write_back at h
  unfold crc32_events
  split at h
  · rename_i ht
    split at h
    · cases h
    · cases h
      simp [ht]
  · rename_i ht
    cases h
    simp [ht]

theorem unmap_desc_spec {s s1 : mv_xor_chan} {i : Nat} (h : mv_xor_unmap_desc s i = some s1) :
    s1 = { s with
      events := s.events ++ if (s.slots i).unmap_len ≠ 0 then [mv_xor_event.unmap i] else [] } := by
  unfold mv_xor_unmap_desc at h
  split at h
  · rename_i hlen
    split at h <;> first
      | (cases h; simp [hlen])
      | cases h
  · rename_i hlen
    cases h
    simp [hlen]

theorem run_tx_complete_actions_spec {s s1 : mv_xor_chan} {i : Nat} {c c1 : Int}
    (h : mv_xor_run_tx_complete_actions s i c = some (c1, s1)) :
    s1 = { s with
        events := s.events ++ action_events s.slots i
        callback_views := s.callback_views ++
          if has_callback s.slots i then [⟨i, s.lock_held, s.mem⟩] else [] } ∧
      c1 = (if (s.slots i).async_tx.cookie > 0 then (s.slots i).async_tx.cookie else c) ∧
      0 ≤ (s.slots i).async_tx.cookie := by
  unfold mv_xor_run_tx_complete_actions at h
  unfold action_events has_callback
  dsimp only at h
  split at h
  · cases h
  · rename_i hneg
    rw [Option.map_eq_some'] at h
    obtain ⟨⟨c2, s2⟩, hr, heq⟩ := h
    simp only [Prod.mk.injEq] at heq
    obtain ⟨hc, hs⟩ := heq
    subst hc; subst hs
    by_cases hpos : (s.slots i).async_tx.cookie > 0
    · simp only [hpos, if_true] at hr ⊢
      rw [Option.map_eq_some'] at hr
      obtain ⟨s3, hu, heq⟩ := hr
      simp only [Prod.mk.injEq] at heq
      obtain ⟨hc, hs⟩ := heq
      subst hc; subst hs
      have := unmap_desc_spec hu
      rw [this]
      refine ⟨?_, rfl, by omega⟩
      by_cases hcb : (s.slots i).async_tx.callback ≠ 0 <;> simp [hcb, hpos]
    · simp only [hpos, if_false] at hr ⊢
      simp only [Option.some.injEq, Prod.mk.injEq] at hr
      obtain ⟨hc, hs⟩ := hr
      subst hc; subst hs
      exact ⟨by simp, rfl, by omega⟩

theorem not_mem_of_chain_split {s : mv_xor_chan} {pre rest : List Nat} {i : Nat}
    (hnd : (all_slots s).Nodup) (hc : s.chain = pre ++ i :: rest) :
    i ∉ s.free_slots ∧ i ∉ s.allocated_slots ∧ i ∉ s.completed_slots ∧ i ∉ pre ∧ i ∉ rest := by
  unfold all_slots at hnd
  rw [hc] at hnd
  simp only [List.nodup_append, List.nodup_cons, List.Disjoint, List.mem_append, List.mem_cons] at hnd
  obtain ⟨⟨⟨_, _, h1⟩, ⟨_, ⟨h5, _⟩, h2⟩, h3⟩, _, h4⟩ := hnd
  refine ⟨fun h => ?_, fun h => ?_, fun h => ?_, fun h => ?_, h5⟩
  · exact h3 (Or.inl h) (Or.inr (Or.inl rfl))
  · exact h3 (Or.inr h) (Or.inr (Or.inl rfl))
  · exact h4 (Or.inr (Or.inr (Or.inl rfl))) h
  · exact h2 h (Or.inl rfl)

theorem list_move_tail_from_chain {s : mv_xor_chan} {pre rest : List Nat} {i : Nat}
    (hnd : (all_slots s).Nodup) (hc : s.chain = pre ++ i :: rest) :
    list_move_tail i list_head.free_slots s =
        { s with free_slots := s.free_slots ++ [i], chain := pre ++ rest } ∧
      list_move_tail i list_head.completed_slots s =
        { s with completed_slots := s.completed_slots ++ [i], chain := pre ++ rest } := by
  obtain ⟨h1, h2, h3, h4, _⟩ := not_mem_of_chain_split hnd hc
  have e : (pre ++ i :: rest).erase i = pre ++ rest := by
    rw [List.erase_append_right _ h4, List.erase_cons_head]
  constructor <;>
    simp [list_move_tail, list_add_tail, list_del, List.erase_of_not_mem, h1, h2, h3, hc, e]

theorem cleanup_chain_loop_spec (k : mv_xor_h) (cur : Nat) :
    ∀ (l pre : List Nat) (s : mv_xor_chan) (c : Int) (r : cleanup_locals),
      (all_slots s).Nodup → s.chain = pre ++ l → cleanup_chain_loop k cur l s c = some r →
      cleanup_frame s r.chan ∧
      r.chan.free_slots = s.free_slots ++
        (walk_visited s.slots cur l).filter
          (fun i => slot_success k s.slots i && slot_acked k s.slots i) ∧
      r.chan.completed_slots = s.completed_slots ++
        (walk_visited s.slots cur l).filter
          (fun i => slot_success k s.slots i && !slot_acked k s.slots i) ∧
      r.chan.chain = pre ++ (walk_visited s.slots cur l).filter (fun i => !slot_success k s.slots i)
        ++ l.drop (walk_visited s.slots cur l).length ∧
      r.chan.events = s.events ++
        ((walk_visited s.slots cur l).filter (slot_success k s.slots)).flatMap
          (completion_events s.slots) ∧
      r.cookie = walk_cookie s.slots c ((walk_visited s.slots cur l).filter (slot_success k s.slots)) ∧
      r.iter = l.find? (fun i => decide ((s.slots i).async_tx.phys = cur)) ∧
      r.current_cleaned = (match r.iter with
        | some i => slot_success k s.slots i
        | none => false) := by
  intro l
  induction l with
  | nil =>
    intro pre s c r _ hc h
    simp only [cleanup_chain_loop, Option.some.injEq] at h
    subst h
    simp [walk_visited, walk_cookie, cleanup_frame_refl, hc]
  | cons i rest ih =>
    intro pre s c r hnd hc h
    rw [cleanup_chain_loop] at h
    by_cases hs : (s.slots i).hw_desc.status &&& k.XOR_DESC_SUCCESS ≠ 0
    · rw [if_pos hs] at h
      have hs' : slot_success k s.slots i = true := by simp [slot_success, hs]
      cases h1 : crc32_write_back s i with
      | none => simp [h1] at h
      | some s1 =>
        simp only [h1] at h
        cases h2 : mv_xor_run_tx_complete_actions s1 i c with
        | none => simp [h2] at h
        | some p =>
          obtain ⟨c2, s2⟩ := p
          simp only [h2] at h
          have e1 := crc32_write_back_spec h1
          obtain ⟨e2, ec, _⟩ := run_tx_complete_actions_spec h2
          have hslots1 : s1.slots = s.slots := by rw [e1]
          have hslots2 : s2.slots = s.slots := by rw [e2, hslots1]
          have hall2 : all_slots s2 = all_slots s := by rw [e2, e1]; rfl
          have hchain2 : s2.chain = pre ++ i :: rest := by rw [e2, e1]; exact hc
          have hnd2 : (all_slots s2).Nodup := by rw [hall2]; exact hnd
          obtain ⟨mf, mc⟩ := list_move_tail_from_chain hnd2 hchain2
          have hi2 : i ∈ all_slots s2 := by simp [all_slots, hchain2]
          have hfr2 : cleanup_frame s s2 := by
            unfold cleanup_frame; rw [e2, e1]
          have hev2 : s2.events = s.events ++ completion_events s.slots i := by
            rw [e2, e1]; simp [completion_events, List.append_assoc]
          have hfree2 : s2.free_slots = s.free_slots := by rw [e2, e1]
          have hcomp2 : s2.completed_slots = s.completed_slots := by rw [e2, e1]
          have hc2 : c2 = (if (s.slots i).async_tx.cookie > 0 then (s.slots i).async_tx.cookie
              else c) := by rw [ec, hslots1]
          have key : ∃ s3, mv_xor_clean_slot k s2 i = s3 ∧ cleanup_frame s s3 ∧
              s3.slots = s.slots ∧ (all_slots s3).Nodup ∧ s3.chain = pre ++ rest ∧
              s3.free_slots = s.free_slots ++ (if slot_acked k s.slots i then [i] else []) ∧
              s3.completed_slots =
                s.completed_slots ++ (if slot_acked k s.slots i then [] else [i]) ∧
              s3.events = s.events ++ completion_events s.slots i := by
            refine ⟨_, rfl, ?_⟩
            by_cases hack : slot_acked k s.slots i = true
            · have hs3 : mv_xor_clean_slot k s2 i =
                  { s2 with free_slots := s2.free_slots ++ [i], chain := pre ++ rest } := by
                unfold mv_xor_clean_slot
                have : async_tx_test_ack k (s2.slots i).async_tx = true := by
                  rw [hslots2]; exact hack
                simp [this, mf]
              have hp := all_slots_list_move_tail_perm s2 i list_head.free_slots hnd2 hi2
              rw [mf, ← hs3] at hp
              have hnd3 := hp.nodup_iff.mpr hnd2
              rw [hs3] at hnd3 ⊢
              refine ⟨cleanup_frame_trans hfr2 (by unfold cleanup_frame; rfl), hslots2, hnd3, rfl,
                ?_, ?_, hev2⟩
              · simp [hack, hfree2]
              · simp [hack, hcomp2]
            · have hack' : slot_acked k s.slots i = false := by simpa using hack
              have hs3 : mv_xor_clean_slot k s2 i =
                  { s2 with completed_slots := s2.completed_slots ++ [i], chain := pre ++ rest } := by
                unfold mv_xor_clean_slot
                have : async_tx_test_ack k (s2.slots i).async_tx = false := by
                  rw [hslots2]; exact hack'
                simp [this, mc]
              have hp := all_slots_list_move_tail_perm s2 i list_head.completed_slots hnd2 hi2
              rw [mc, ← hs3] at hp
              have hnd3 := hp.nodup_iff.mpr hnd2
              rw [hs3] at hnd3 ⊢
              refine ⟨cleanup_frame_trans hfr2 (by unfold cleanup_frame; rfl), hslots2, hnd3, rfl,
                ?_, ?_, hev2⟩
              · simp [hack', hfree2]
              · simp [hack', hcomp2]
          obtain ⟨s3, hs3, hfr3, hslots3, hnd3, hchain3, hfree3, hcomp3, hev3⟩ := key
          rw [hs3, hslots3] at h
          by_cases hcur : (s.slots i).async_tx.phys = cur
          · rw [if_pos hcur] at h
            simp only [Option.some.injEq] at h
            subst h
            refine ⟨hfr3, ?_, ?_, ?_, ?_, ?_, ?_, ?_⟩
            · cases hack : slot_acked k s.slots i <;> simp [walk_visited, hcur, hs', hack, hfree3]
            · cases hack : slot_acked k s.slots i <;> simp [walk_visited, hcur, hs', hack, hcomp3]
            · simp [walk_visited, hcur, hs', hchain3]
            · simp [walk_visited, hcur, hs', hev3]
            · simp [walk_visited, hcur, hs', walk_cookie, hc2]
            · simp [hcur]
            · simp [hs']
          · rw [if_neg hcur] at h
            obtain ⟨f1, f2, f3, f4, f5, f6, f7, f8⟩ := ih pre s3 c2 r hnd3 hchain3 h
            simp only [hslots3] at f2 f3 f4 f5 f6 f7 f8
            refine ⟨cleanup_frame_trans hfr3 f1, ?_, ?_, ?_, ?_, ?_, ?_, f8⟩
            · rw [f2, hfree3]
              cases hack : slot_acked k s.slots i <;> simp [walk_visited, hcur, hs', hack]
            · rw [f3, hcomp3]
              cases hack : slot_acked k s.slots i <;> simp [walk_visited, hcur, hs', hack]
            · rw [f4]; simp [walk_visited, hcur, hs']
            · rw [f5, hev3]; simp [walk_visited, hcur, hs']
            · rw [f6]; simp [walk_visited, hcur, hs', walk_cookie, hc2]
            · rw [f7]; simp [hcur]
    · rw [if_neg hs] at h
      have hs' : slot_success k s.slots i = false := by simp [slot_success, hs]
      by_cases hcur : (s.slots i).async_tx.phys = cur
      · rw [if_pos hcur] at h
        simp only [Option.some.injEq] at h
        subst h
        refine ⟨cleanup_frame_refl s, ?_, ?_, ?_, ?_, ?_, ?_, ?_⟩
        · simp [walk_visited, hcur, hs']
        · simp [walk_visited, hcur, hs']
        · simp [walk_visited, hcur, hs', hc]
        · simp [walk_visited, hcur, hs']
        · simp [walk_visited, hcur, hs', walk_cookie]
        · simp [hcur]
        · simp [hs']
      · rw [if_neg hcur] at h
        have hc' : s.chain = (pre ++ [i]) ++ rest := by rw [hc]; simp
        obtain ⟨f1, f2, f3, f4, f5, f6, f7, f8⟩ := ih (pre ++ [i]) s c r hnd hc' h
        refine ⟨f1, ?_, ?_, ?_, ?_, ?_, ?_, f8⟩
        · rw [f2]; simp [walk_visited, hcur, hs']
        · rw [f3]; simp [walk_visited, hcur, hs']
        · rw [f4]; simp [walk_visited, hcur, hs']
        · rw [f5]; simp [walk_visited, hcur, hs']
        · rw [f6]; simp [walk_visited, hcur, hs', walk_cookie]
        · rw [f7]; simp [hcur]

theorem not_mem_of_completed_split {s : mv_xor_chan} {pre rest : List Nat} {i : Nat}
    (hnd : (all_slots s).Nodup) (hc : s.completed_slots = pre ++ i :: rest) :
    i ∉ s.free_slots ∧ i ∉ s.allocated_slots ∧ i ∉ s.chain ∧ i ∉ pre ∧ i ∉ rest := by
  unfold all_slots at hnd
  rw [hc] at hnd
  simp only [List.nodup_append, List.nodup_cons, List.Disjoint, List.mem_append, List.mem_cons] at hnd
  obtain ⟨_, ⟨_, ⟨h5, _⟩, h2⟩, h4⟩ := hnd
  refine ⟨fun h => ?_, fun h => ?_, fun h => ?_, fun h => ?_, h5⟩
  · exact h4 (Or.inl (Or.inl h)) (Or.inr (Or.inl rfl))
  · exact h4 (Or.inl (Or.inr h)) (Or.inr (Or.inl rfl))
  · exact h4 (Or.inr h) (Or.inr (Or.inl rfl))
  · exact h2 h (Or.inl rfl)

theorem clean_completed_loop_spec (k : mv_xor_h) :
    ∀ (l pre : List Nat) (s : mv_xor_chan),
      (all_slots s).Nodup → s.completed_slots = pre ++ l →
      clean_completed_loop k l s =
        { s with
          free_slots := s.free_slots ++ l.filter (slot_acked k s.slots)
          completed_slots := pre ++ l.filter (fun i => !slot_acked k s.slots i) } := by
  intro l
  induction l with
  | nil =>
    intro pre s _ hc
    simp [clean_completed_loop, ← hc]
  | cons i rest ih =>
    intro pre s hnd hc
    rw [clean_completed_loop]
    by_cases hack : async_tx_test_ack k (s.slots i).async_tx = true
    · rw [if_pos hack]
      obtain ⟨h1, h2, h3, h4, _⟩ := not_mem_of_completed_split hnd hc
      have hi : i ∈ all_slots s := by simp [all_slots, hc]
      have e : (pre ++ i :: rest).erase i = pre ++ rest := by
        rw [List.erase_append_right _ h4, List.erase_cons_head]
      have hm : list_move_tail i list_head.free_slots s =
          { s with free_slots := s.free_slots ++ [i], completed_slots := pre ++ rest } := by
        simp [list_move_tail, list_add_tail, list_del, List.erase_of_not_mem, h1, h2, h3, hc, e]
      have hp := all_slots_list_move_tail_perm s i list_head.free_slots hnd hi
      rw [hm] at hp ⊢
      rw [ih pre _ (hp.nodup_iff.mpr hnd) rfl]
      have hack' : slot_acked k s.slots i = true := hack
      simp [hack']
    · rw [if_neg hack]
      have hack' : slot_acked k s.slots i = false := by simpa [slot_acked] using hack
      have hc' : s.completed_slots = (pre ++ [i]) ++ rest := by rw [hc]; simp
      rw [ih (pre ++ [i]) s hnd hc']
      simp [hack']

theorem clean_completed_slots_spec (k : mv_xor_h) (s : mv_xor_chan) (hnd : (all_slots s).Nodup) :
    mv_xor_clean_completed_slots k s =
      { s with
        free_slots := s.free_slots ++ s.completed_slots.filter (slot_acked k s.slots)
        completed_slots := s.completed_slots.filter (fun i => !slot_acked k s.slots i) } := by
  unfold mv_xor_clean_completed_slots
  rw [clean_completed_loop_spec k s.completed_slots [] s hnd (by simp)]
  simp

theorem all_slots_clean_completed_perm (k : mv_xor_h) (s : mv_xor_chan)
    (hnd : (all_slots s).Nodup) :
    (all_slots (mv_xor_clean_completed_slots k s)).Perm (all_slots s) := by
  rw [clean_completed_slots_spec k s hnd]
  unfold all_slots
  dsimp only
  have h := List.filter_append_perm (slot_acked k s.slots) s.completed_slots
  have h' : (List.filter (slot_acked k s.slots) s.completed_slots ++
      List.filter (fun i => !slot_acked k s.slots i) s.completed_slots).Perm s.completed_slots := by
    simpa using h
  rw [List.perm_iff_count] at h' ⊢
  intro a
  have := h' a
  simp only [List.count_append] at this ⊢
  omega

theorem start_new_chain_frame (k : mv_xor_h) (s : mv_xor_chan) (i : Nat) :
    resume_frame s (mv_xor_start_new_chain k s i) := by
  unfold resume_frame mv_xor_start_new_chain mv_xor_issue_pending
  dsimp only
  split <;> rfl

theorem cleanup_resume_frame (k : mv_xor_h) (busy : Bool) (r : cleanup_locals) :
    resume_frame r.chan (cleanup_resume k busy r) := by
  unfold cleanup_resume
  dsimp only
  split
  · split
    · split
      · exact start_new_chain_frame k _ _
      · rfl
    · split
      · exact start_new_chain_frame k _ _
      · rfl
  · rfl

/-- The result of a cleanup pass on a channel whose four lists share no slot. -/
theorem slot_cleanup_spec (k : mv_xor_h) (s s' : mv_xor_chan) (hnd : (all_slots s).Nodup)
    (h : __mv_xor_slot_cleanup k s = some s') :
    s'.slots = s.slots ∧ s'.slots_allocated = s.slots_allocated ∧
    s'.allocated_slots = s.allocated_slots ∧ s'.cookie = s.cookie ∧
    s'.free_slots = s.free_slots ++ s.completed_slots.filter (slot_acked k s.slots) ++
      (cleanup_completed k s).filter (slot_acked k s.slots) ∧
    s'.completed_slots = s.completed_slots.filter (fun i => !slot_acked k s.slots i) ++
      (cleanup_completed k s).filter (fun i => !slot_acked k s.slots i) ∧
    s'.chain = (cleanup_visited s).filter (fun i => !slot_success k s.slots i) ++
      s.chain.drop (cleanup_visited s).length ∧
    s'.events = s.events ++ (cleanup_completed k s).flatMap (completion_events s.slots) ∧
    s'.completed_cookie =
      (if walk_cookie s.slots 0 (cleanup_completed k s) > 0 then
        walk_cookie s.slots 0 (cleanup_completed k s)
      else s.completed_cookie) := by
  unfold __mv_xor_slot_cleanup at h
  dsimp only at h
  have hp := all_slots_clean_completed_perm k s hnd
  have hnd1 := hp.nodup_iff.mpr hnd
  have e1 := clean_completed_slots_spec k s hnd
  generalize mv_xor_clean_completed_slots k s = s1 at h hnd1 e1
  cases hl : cleanup_chain_loop k (mv_chan_get_current_desc s) s1.chain s1 0 with
  | none => simp [hl] at h
  | some r =>
    simp only [hl, Option.some.injEq] at h
    obtain ⟨f1, f2, f3, f4, f5, f6, _, _⟩ :=
      cleanup_chain_loop_spec k _ s1.chain [] s1 0 r hnd1 (by simp) hl
    have hslots1 : s1.slots = s.slots := by rw [e1]
    have hchain1 : s1.chain = s.chain := by rw [e1]
    rw [hslots1, hchain1] at f2 f3 f4 f5 f6
    have g := cleanup_resume_frame k (mv_chan_is_busy s) r
    generalize cleanup_resume k (mv_chan_is_busy s) r = s2 at h g
    unfold resume_frame at g
    unfold cleanup_frame at f1
    have hs2 : s2.slots = s.slots ∧ s2.slots_allocated = s.slots_allocated ∧
        s2.allocated_slots = s.allocated_slots ∧ s2.cookie = s.cookie ∧
        s2.free_slots = r.chan.free_slots ∧ s2.completed_slots = r.chan.completed_slots ∧
        s2.chain = r.chan.chain ∧ s2.events = r.chan.events ∧
        s2.completed_cookie = s.completed_cookie := by
      rw [g, f1, e1]
      exact ⟨rfl, rfl, rfl, rfl, rfl, rfl, rfl, rfl, rfl⟩
    obtain ⟨a1, a2, a3, a4, a5, a6, a7, a8, a9⟩ := hs2
    have hfilt : ∀ (p : Nat → Bool) (l : List Nat),
        List.filter (fun i => slot_success k s.slots i && p i) l =
          List.filter p (List.filter (slot_success k s.slots) l) := by
      intro p l
      rw [List.filter_filter]
      congr 1
      funext i
      exact Bool.and_comm _ _
    have hfree : s2.free_slots = s.free_slots ++ s.completed_slots.filter (slot_acked k s.slots) ++
        (cleanup_completed k s).filter (slot_acked k s.slots) := by
      rw [a5, f2, e1]
      simp only [cleanup_completed, cleanup_visited]
      rw [hfilt]
    have hcomp : s2.completed_slots =
        s.completed_slots.filter (fun i => !slot_acked k s.slots i) ++
          (cleanup_completed k s).filter (fun i => !slot_acked k s.slots i) := by
      rw [a6, f3, e1]
      simp only [cleanup_completed, cleanup_visited]
      rw [hfilt (fun i => !slot_acked k s.slots i)]
    have hchain : s2.chain = (cleanup_visited s).filter (fun i => !slot_success k s.slots i) ++
        s.chain.drop (cleanup_visited s).length := by
      rw [a7, f4]
      simp [cleanup_visited]
    have hev : s2.events =
        s.events ++ (cleanup_completed k s).flatMap (completion_events s.slots) := by
      rw [a8, f5, e1]
      rfl
    have hck : r.cookie = walk_cookie s.slots 0 (cleanup_completed k s) := by
      rw [f6]; rfl
    rw [hck] at h
    subst h
    split
    · exact ⟨a1, a2, a3, a4, hfree, hcomp, hchain, hev, rfl⟩
    · exact ⟨a1, a2, a3, a4, hfree, hcomp, hchain, hev, a9⟩

theorem walk_visited_append_drop (slots : Nat → mv_xor_desc_slot) (cur : Nat) (l : List Nat) :
    walk_visited slots cur l ++ l.drop (walk_visited slots cur l).length = l := by
  induction l with
  | nil => simp [walk_visited]
  | cons i rest ih =>
    by_cases hcur : (slots i).async_tx.phys = cur
    · simp [walk_visited, hcur]
    · simp [walk_visited, hcur, ih]

theorem count_filter_add_count_filter_not (p : Nat → Bool) (l : List Nat) (a : Nat) :
    (l.filter p).count a + (l.filter (fun i => !p i)).count a = l.count a := by
  induction l with
  | nil => simp
  | cons i rest ih =>
    cases hp : p i <;> simp [List.filter_cons, hp, List.count_cons] <;> omega

theorem all_slots_slot_cleanup_perm (k : mv_xor_h) (s s' : mv_xor_chan)
    (hnd : (all_slots s).Nodup) (h : __mv_xor_slot_cleanup k s = some s') :
    (all_slots s').Perm (all_slots s) := by
  obtain ⟨_, _, ha, _, hf, hc, hch, _, _⟩ := slot_cleanup_spec k s s' hnd h
  rw [List.perm_iff_count]
  intro a
  unfold all_slots
  rw [hf, hc, hch, ha]
  have h1 := count_filter_add_count_filter_not (slot_acked k s.slots) s.completed_slots a
  have h2 := count_filter_add_count_filter_not (slot_acked k s.slots) (cleanup_completed k s) a
  have h3 := count_filter_add_count_filter_not (slot_success k s.slots) (cleanup_visited s) a
  have h4 : (cleanup_visited s).count a + (s.chain.drop (cleanup_visited s).length).count a =
      s.chain.count a := by
    rw [← List.count_append]
    unfold cleanup_visited
    rw [walk_visited_append_drop]
  unfold cleanup_completed at h2 ⊢
  simp only [List.count_append]
  omega

theorem slots_partition_slot_cleanup (k : mv_xor_h) (s s' : mv_xor_chan) (h : slots_partition s)
    (hc : __mv_xor_slot_cleanup k s = some s') : slots_partition s' :=
  slots_partition_of_perm h (all_slots_slot_cleanup_perm k s s' h.1 hc)
    (slot_cleanup_spec k s s' h.1 hc).2.1

theorem slots_partition_clean_completed (k : mv_xor_h) (s : mv_xor_chan) (h : slots_partition s) :
    slots_partition (mv_xor_clean_completed_slots k s) :=
  slots_partition_of_perm h (all_slots_clean_completed_perm k s h.1)
    (by rw [clean_completed_slots_spec k s h.1])

/-! ## The walk and its events -/

theorem walk_visited_append_of_not_current (slots : Nat → mv_xor_desc_slot) (cur : Nat)
    (pre l : List Nat) (h : ∀ j ∈ pre, (slots j).async_tx.phys ≠ cur) :
    walk_visited slots cur (pre ++ l) = pre ++ walk_visited slots cur l := by
  induction pre with
  | nil => rfl
  | cons a pre ih =>
    have ha : (slots a).async_tx.phys ≠ cur := h a (by simp)
    have := ih (fun j hj => h j (by simp [hj]))
    simp [walk_visited, ha, this]

theorem walk_visited_initial_of_current (slots : Nat → mv_xor_desc_slot) (cur : Nat)
    (pre post : List Nat) (i : Nat) (h : (slots i).async_tx.phys = cur) :
    walk_visited slots cur (pre ++ i :: post) <+: pre ++ [i] := by
  induction pre with
  | nil => simp [walk_visited, h]
  | cons a pre ih =>
    by_cases ha : (slots a).async_tx.phys = cur
    · simp [walk_visited, ha]
    · simp only [List.cons_append, walk_visited, ha, if_false]
      exact (List.prefix_cons_inj a).mpr ih

theorem walk_visited_initial (slots : Nat → mv_xor_desc_slot) (cur : Nat) (l : List Nat) :
    walk_visited slots cur l <+: l :=
  ⟨_, walk_visited_append_drop slots cur l⟩

theorem mem_callback_slots (events : List mv_xor_event) (j : Nat) :
    j ∈ callback_slots events ↔ mv_xor_event.callback j ∈ events := by
  unfold callback_slots
  rw [List.mem_filterMap]
  constructor
  · rintro ⟨e, he, h⟩
    cases e <;> simp at h
    subst h
    exact he
  · intro h
    exact ⟨_, h, rfl⟩

theorem callback_slots_completion_events (slots : Nat → mv_xor_desc_slot) (i : Nat) :
    callback_slots (completion_events slots i) = if has_callback slots i then [i] else [] := by
  unfold callback_slots completion_events crc32_events action_events has_callback
  by_cases h1 : (slots i).type = dma_transaction_type.DMA_CRC32C <;>
    by_cases h2 : (slots i).async_tx.cookie > 0 <;>
    by_cases h3 : (slots i).async_tx.callback ≠ 0 <;>
    by_cases h4 : (slots i).unmap_len ≠ 0 <;>
    simp [h1, h2, h3, h4, List.filterMap_cons]

theorem callback_slots_flatMap (slots : Nat → mv_xor_desc_slot) (l : List Nat) :
    callback_slots (l.flatMap (completion_events slots)) = l.filter (has_callback slots) := by
  induction l with
  | nil => rfl
  | cons i rest ih =>
    have h : callback_slots (completion_events slots i ++
        rest.flatMap (completion_events slots)) =
        callback_slots (completion_events slots i) ++
          callback_slots (rest.flatMap (completion_events slots)) := by
      unfold callback_slots
      exact List.filterMap_append _ _ _
    rw [List.flatMap_cons, h, ih, callback_slots_completion_events]
    cases hc : has_callback slots i <;> simp [List.filter_cons, hc]

theorem cleanup_completed_sublist (k : mv_xor_h) (s : mv_xor_chan) :
    (cleanup_completed k s).Sublist s.chain :=
  (List.filter_sublist _).trans (walk_visited_initial _ _ _).sublist

/-! ## Runs keep the lists disjoint -/

theorem all_slots_alloc_slot_perm (k : mv_xor_h) (s : mv_xor_chan) (hnd : (all_slots s).Nodup) :
    (all_slots (mv_xor_alloc_slot k s).2).Perm (all_slots s) := by
  unfold mv_xor_alloc_slot
  split
  · rename_i iter rest hf
    have hi : iter ∈ all_slots s := by simp [all_slots, hf]
    exact all_slots_list_move_tail_perm s iter _ hnd hi
  · exact List.Perm.refl _

theorem all_slots_driver_step_perm (k : mv_xor_h) (op : driver_op) (s s' : mv_xor_chan)
    (hnd : (all_slots s).Nodup) (h : driver_step k op s = some s') :
    (all_slots s').Perm (all_slots s) := by
  cases op with
  | alloc_slot =>
    simp only [driver_step, Option.some.injEq] at h
    subst h
    exact all_slots_alloc_slot_perm k s hnd
  | tx_submit tx =>
    simp only [driver_step] at h
    split at h
    · rename_i htx
      rw [Option.map_eq_some'] at h
      obtain ⟨r, hr, rfl⟩ := h
      exact all_slots_tx_submit_perm k s tx r hnd htx hr
    · cases h
  | slot_cleanup => exact all_slots_slot_cleanup_perm k s s' hnd h
  | device st crc cur act =>
    simp only [driver_step, Option.some.injEq] at h
    subst h
    exact List.Perm.refl _
  | client tx fl cb pa =>
    simp only [driver_step, Option.some.injEq] at h
    subst h
    exact List.Perm.refl _

theorem nodup_driver_step (k : mv_xor_h) (op : driver_op) (s s' : mv_xor_chan)
    (hnd : (all_slots s).Nodup) (h : driver_step k op s = some s') : (all_slots s').Nodup :=
  (all_slots_driver_step_perm k op s s' hnd h).nodup_iff.mpr hnd

/-! ## C1: the slot-set partition -/

/-- C1. Slot-set partition invariant: on a channel whose four slot sequences are
duplicate-free, pairwise disjoint and together hold exactly the slots of the
pool, the channel after `mv_xor_alloc_slot`, after `mv_xor_tx_submit` of a slot
in `allocated_slots`, after a pass of `__mv_xor_slot_cleanup` and after the
sweep `mv_xor_clean_completed_slots` satisfies the same predicate. -/
theorem slots_partition_preserved (k : mv_xor_h) (s : mv_xor_chan) (h : slots_partition s) :
    slots_partition (mv_xor_alloc_slot k s).2 ∧
    (∀ tx r, tx ∈ s.allocated_slots → mv_xor_tx_submit k s tx = some r → slots_partition r.2) ∧
    (∀ s', __mv_xor_slot_cleanup k s = some s' → slots_partition s') ∧
    slots_partition (mv_xor_clean_completed_slots k s) :=
  ⟨slots_partition_alloc_slot k s h,
    fun tx r htx hr => slots_partition_tx_submit k s tx r h htx hr,
    fun s' hs' => slots_partition_slot_cleanup k s s' h hs',
    slots_partition_clean_completed k s h⟩

theorem slots_partition_chan_out_of_order : slots_partition chan_out_of_order := by
  refine ⟨by decide, fun i => ?_⟩
  simp [all_slots, chan_out_of_order, example_chan]
  omega

/-- Witness for C1 on `chan_out_of_order`: the allocation, the submission of
slot `2` and the cleanup pass all return and keep the partition. -/
theorem slots_partition_preserved_witness :
    slots_partition chan_out_of_order ∧
    slots_partition (mv_xor_alloc_slot sample_h chan_out_of_order).2 ∧
    (∃ r, mv_xor_tx_submit sample_h chan_out_of_order 2 = some r ∧ slots_partition r.2) ∧
    (∃ s', __mv_xor_slot_cleanup sample_h chan_out_of_order = some s' ∧ slots_partition s') := by
  have H := slots_partition_preserved sample_h chan_out_of_order
    slots_partition_chan_out_of_order
  obtain ⟨r, hr⟩ := Option.isSome_iff_exists.mp
    (show (mv_xor_tx_submit sample_h chan_out_of_order 2).isSome = true by decide)
  obtain ⟨s', hs'⟩ := Option.isSome_iff_exists.mp
    (show (__mv_xor_slot_cleanup sample_h chan_out_of_order).isSome = true by decide)
  exact ⟨slots_partition_chan_out_of_order, H.1, ⟨r, hr, H.2.1 2 r (by decide) hr⟩,
    ⟨s', hs', H.2.2.1 s' hs'⟩⟩

/-! ## C2: the order of completions in a pass -/

theorem chain_nodup_of_all_slots {s : mv_xor_chan} (hnd : (all_slots s).Nodup) : s.chain.Nodup := by
  unfold all_slots at hnd
  simp only [List.nodup_append] at hnd
  exact hnd.1.2.1

/-- Membership in the chain after a pass, in terms of the visited slots. -/
theorem mem_chain_after_cleanup (k : mv_xor_h) (s s' : mv_xor_chan) (hnd : (all_slots s).Nodup)
    (h : __mv_xor_slot_cleanup k s = some s') (j : Nat) :
    j ∈ s'.chain ↔ j ∈ s.chain ∧ ¬ (j ∈ cleanup_visited s ∧ slot_success k s.slots j = true) := by
  have hch := (slot_cleanup_spec k s s' hnd h).2.2.2.2.2.2.1
  have hsplit := walk_visited_append_drop s.slots (mv_chan_get_current_desc s) s.chain
  have hcn := chain_nodup_of_all_slots hnd
  rw [← hsplit] at hcn
  have hdisj := (List.nodup_append.mp hcn).2.2
  have hmem : j ∈ s.chain ↔ j ∈ cleanup_visited s ∨
      j ∈ s.chain.drop (cleanup_visited s).length := by
    unfold cleanup_visited
    conv_lhs => rw [← hsplit]
    exact List.mem_append
  rw [hch, hmem, List.mem_append, List.mem_filter]
  constructor
  · rintro (⟨hv, hs⟩ | hd)
    · exact ⟨Or.inl hv, fun hc => by simp [hc.2] at hs⟩
    · exact ⟨Or.inr hd, fun hc => hdisj hc.1 hd⟩
  · rintro ⟨hv | hd, hn⟩
    · left
      refine ⟨hv, ?_⟩
      cases hs : slot_success k s.slots j
      · rfl
      · exact absurd ⟨hv, hs⟩ hn
    · exact Or.inr hd

/-- C2 (amended). Completion order of a cleanup pass on a channel whose lists
share no slot: the callbacks of the pass are invoked in chain order; the walk
stops at the first chained slot whose physical address is the
current-descriptor snapshot, so no slot positioned after a slot at that
address has its callback invoked or leaves the chain; a slot that is not yet
successful has no callback invoked and stays in the chain, but it does not stop
the walk: a successful slot with no slot at the current-descriptor address
before it leaves the chain and has its callback invoked, whatever the status of
the slots before it. -/
theorem cleanup_completion_order (k : mv_xor_h) (s s' : mv_xor_chan)
    (hnd : (all_slots s).Nodup) (h : __mv_xor_slot_cleanup k s = some s') :
    ∃ done, s'.events = s.events ++ done ∧
      (callback_slots done).Sublist s.chain ∧
      (∀ pre i post, s.chain = pre ++ i :: post →
        (s.slots i).async_tx.phys = mv_chan_get_current_desc s →
        ∀ j ∈ post, mv_xor_event.callback j ∉ done ∧ j ∈ s'.chain) ∧
      (∀ i ∈ s.chain, slot_success k s.slots i = false →
        mv_xor_event.callback i ∉ done ∧ i ∈ s'.chain) ∧
      (∀ pre i post, s.chain = pre ++ i :: post →
        (∀ j ∈ pre, (s.slots j).async_tx.phys ≠ mv_chan_get_current_desc s) →
        slot_success k s.slots i = true →
        i ∉ s'.chain ∧ (has_callback s.slots i = true → mv_xor_event.callback i ∈ done)) := by
  have hev := (slot_cleanup_spec k s s' hnd h).2.2.2.2.2.2.2.1
  have hcn := chain_nodup_of_all_slots hnd
  have hcb : ∀ j, mv_xor_event.callback j ∈
      (cleanup_completed k s).flatMap (completion_events s.slots) ↔
      j ∈ (cleanup_completed k s).filter (has_callback s.slots) := by
    intro j
    rw [← mem_callback_slots, callback_slots_flatMap]
  refine ⟨_, hev, ?_, ?_, ?_, ?_⟩
  · rw [callback_slots_flatMap]
    exact (List.filter_sublist _).trans (cleanup_completed_sublist k s)
  · intro pre i post hc hcur j hj
    have hpre := walk_visited_initial_of_current s.slots _ pre post i hcur
    rw [← hc] at hpre
    have hjv : j ∉ cleanup_visited s := by
      intro hv
      have hj' : j ∈ pre ++ [i] := hpre.subset hv
      rw [hc] at hcn
      have hd := (List.nodup_append.mp (by simpa using hcn : (pre ++ [i] ++ post).Nodup)).2.2
      exact hd hj' hj
    constructor
    · rw [hcb]
      intro hm
      exact hjv (List.mem_of_mem_filter (List.mem_of_mem_filter hm))
    · rw [mem_chain_after_cleanup k s s' hnd h]
      exact ⟨by rw [hc]; simp [hj], fun hv => hjv hv.1⟩
  · intro i hi hs
    constructor
    · rw [hcb]
      intro hm
      have := (List.mem_filter.mp (List.mem_of_mem_filter hm)).2
      rw [hs] at this
      exact Bool.noConfusion this
    · rw [mem_chain_after_cleanup k s s' hnd h]
      exact ⟨hi, fun hv => by rw [hs] at hv; exact Bool.noConfusion hv.2⟩
  · intro pre i post hc hpre hs
    have hv : i ∈ cleanup_visited s := by
      unfold cleanup_visited
      rw [hc, walk_visited_append_of_not_current _ _ _ _ hpre]
      by_cases hcur : (s.slots i).async_tx.phys = mv_chan_get_current_desc s <;>
        simp [walk_visited, hcur]
    constructor
    · rw [mem_chain_after_cleanup k s s' hnd h]
      exact fun hm => hm.2 ⟨hv, hs⟩
    · intro hcall
      rw [hcb]
      exact List.mem_filter.mpr ⟨List.mem_filter.mpr ⟨hv, hs⟩, hcall⟩

/-- Counterexample to C2 as stated. On `chan_out_of_order` the chain is
`[0, 1]`, slot `0` is not yet successful and slot `1` behind it is; the pass
invokes the callback of slot `1` and removes it from the chain. -/
theorem cleanup_passes_unsuccessful_slot :
    chan_out_of_order.chain = [0, 1] ∧
    slot_success sample_h chan_out_of_order.slots 0 = false ∧
    slot_success sample_h chan_out_of_order.slots 1 = true ∧
    (__mv_xor_slot_cleanup sample_h chan_out_of_order).map (fun s' => (s'.chain, s'.events)) =
      some ([0], [mv_xor_event.callback 1, mv_xor_event.run_dependencies 1]) := by
  decide

/-- Witness for C2 (amended) on `chan_out_of_order`. -/
theorem cleanup_completion_order_witness :
    (all_slots chan_out_of_order).Nodup ∧
    ∃ s', __mv_xor_slot_cleanup sample_h chan_out_of_order = some s' ∧
      ∃ done, s'.events = chan_out_of_order.events ++ done ∧
        (callback_slots done).Sublist chan_out_of_order.chain ∧
        mv_xor_event.callback 0 ∉ done ∧ 0 ∈ s'.chain ∧ 1 ∉ s'.chain ∧
        mv_xor_event.callback 1 ∈ done := by
  obtain ⟨s', hs'⟩ := Option.isSome_iff_exists.mp
    (show (__mv_xor_slot_cleanup sample_h chan_out_of_order).isSome = true by decide)
  obtain ⟨done, h1, h2, _, h4, h5⟩ :=
    cleanup_completion_order sample_h chan_out_of_order s' (by decide) hs'
  have a := h4 0 (by decide) (by decide)
  have b := h5 [0] 1 [] (by decide) (by decide) (by decide)
  exact ⟨by decide, s', hs', done, h1, h2, a.1, a.2, b.1, b.2 (by decide)⟩

/-! ## C3: completion actions run at most once -/

theorem alloc_slot_events_chain (k : mv_xor_h) (s : mv_xor_chan) :
    (mv_xor_alloc_slot k s).2.events = s.events ∧
    ∀ i, i ∈ (mv_xor_alloc_slot k s).2.chain → i ∈ s.chain := by
  unfold mv_xor_alloc_slot
  split
  · refine ⟨rfl, fun i hi => ?_⟩
    exact List.mem_of_mem_erase hi
  · exact ⟨rfl, fun i hi => hi⟩

theorem count_callback_eq (events : List mv_xor_event) (i : Nat) :
    events.count (mv_xor_event.callback i) = (callback_slots events).count i := by
  induction events with
  | nil => rfl
  | cons e rest ih =>
    unfold callback_slots at ih ⊢
    cases e <;> simp [List.count_cons, List.filterMap_cons, ih]

theorem event_slot_completion_events (slots : Nat → mv_xor_desc_slot) (i : Nat)
    (e : mv_xor_event) (he : e ∈ completion_events slots i) : event_slot e = i := by
  unfold completion_events crc32_events action_events at he
  simp only [List.mem_append] at he
  rcases he with he | he | he
  · split at he <;> simp at he
    subst he; rfl
  · split at he
    · simp only [List.mem_append] at he
      rcases he with he | he <;> split at he <;> simp at he <;> (subst he; rfl)
    · simp at he
  · simp at he
    subst he; rfl

theorem cleanup_pass_events (k : mv_xor_h) (s s' : mv_xor_chan) (hnd : (all_slots s).Nodup)
    (h : __mv_xor_slot_cleanup k s = some s') :
    ∃ done, s'.events = s.events ++ done ∧
      (∀ e ∈ done, event_slot e ∈ s.chain ∧ event_slot e ∉ s'.chain) ∧
      (∀ i, done.count (mv_xor_event.callback i) ≤ 1) := by
  have hev := (slot_cleanup_spec k s s' hnd h).2.2.2.2.2.2.2.1
  refine ⟨_, hev, ?_, ?_⟩
  · intro e he
    rw [List.mem_flatMap] at he
    obtain ⟨j, hj, hej⟩ := he
    rw [event_slot_completion_events _ _ _ hej]
    have hjv := List.mem_filter.mp hj
    refine ⟨(cleanup_completed_sublist k s).subset hj, ?_⟩
    rw [mem_chain_after_cleanup k s s' hnd h]
    exact fun hm => hm.2 hjv
  · intro i
    rw [count_callback_eq, callback_slots_flatMap]
    apply List.nodup_iff_count_le_one.mp
    exact (chain_nodup_of_all_slots hnd).sublist
      ((List.filter_sublist _).trans (cleanup_completed_sublist k s))

theorem driver_step_callback_count (k : mv_xor_h) (op : driver_op) (s s1 : mv_xor_chan) (i : Nat)
    (hnd : (all_slots s).Nodup) (hop : op ≠ driver_op.tx_submit i)
    (h : driver_step k op s = some s1) :
    (s1.events.count (mv_xor_event.callback i) = s.events.count (mv_xor_event.callback i) ∨
      (s1.events.count (mv_xor_event.callback i) = s.events.count (mv_xor_event.callback i) + 1 ∧
        i ∉ s1.chain)) ∧
    (i ∉ s.chain → i ∉ s1.chain ∧
      s1.events.count (mv_xor_event.callback i) = s.events.count (mv_xor_event.callback i)) := by
  cases op with
  | alloc_slot =>
    simp only [driver_step, Option.some.injEq] at h
    subst h
    obtain ⟨he, hc⟩ := alloc_slot_events_chain k s
    rw [he]
    exact ⟨Or.inl rfl, fun hi => ⟨fun hm => hi (hc i hm), rfl⟩⟩
  | tx_submit tx =>
    simp only [driver_step] at h
    split at h
    · rw [Option.map_eq_some'] at h
      obtain ⟨r, hr, rfl⟩ := h
      obtain ⟨_, _, _, he, hc, _⟩ := tx_submit_fields k s tx r hr
      rw [he, hc]
      refine ⟨Or.inl rfl, fun hi => ⟨fun hm => ?_, rfl⟩⟩
      rw [List.mem_append, List.mem_singleton] at hm
      rcases hm with hm | hm
      · exact hi (List.mem_of_mem_erase hm)
      · exact hop (by rw [hm])
    · cases h
  | slot_cleanup =>
    have hc : __mv_xor_slot_cleanup k s = some s1 := h
    obtain ⟨done, he, hd, hcnt⟩ := cleanup_pass_events k s s1 hnd hc
    rw [he, List.count_append]
    have h1 := hcnt i
    constructor
    · by_cases h0 : done.count (mv_xor_event.callback i) = 0
      · left; omega
      · right
        refine ⟨by omega, ?_⟩
        have hm : mv_xor_event.callback i ∈ done := List.count_pos_iff.mp (by omega)
        exact (hd _ hm).2
    · intro hi
      have h0 : done.count (mv_xor_event.callback i) = 0 := by
        rw [List.count_eq_zero]
        intro hm
        exact hi (hd _ hm).1
      refine ⟨fun hm => ?_, by omega⟩
      exact hi ((mem_chain_after_cleanup k s s1 hnd hc i).mp hm).1
  | device st crc cur act =>
    simp only [driver_step, Option.some.injEq] at h
    subst h
    exact ⟨Or.inl rfl, fun hi => ⟨hi, rfl⟩⟩
  | client tx fl cb pa =>
    simp only [driver_step, Option.some.injEq] at h
    subst h
    exact ⟨Or.inl rfl, fun hi => ⟨hi, rfl⟩⟩

theorem driver_run_callback_count (k : mv_xor_h) (i : Nat) :
    ∀ (ops : List driver_op) (s s' : mv_xor_chan), (all_slots s).Nodup →
      driver_op.tx_submit i ∉ ops → driver_run k ops s = some s' →
      s'.events.count (mv_xor_event.callback i) ≤ s.events.count (mv_xor_event.callback i) + 1 ∧
      (i ∉ s.chain →
        s'.events.count (mv_xor_event.callback i) = s.events.count (mv_xor_event.callback i)) := by
  intro ops
  induction ops with
  | nil =>
    intro s s' _ _ h
    simp only [driver_run, Option.some.injEq] at h
    subst h
    exact ⟨by omega, fun _ => rfl⟩
  | cons op ops ih =>
    intro s s' hnd hno h
    rw [driver_run] at h
    cases hs : driver_step k op s with
    | none => simp [hs] at h
    | some s1 =>
      simp only [hs] at h
      have hop : op ≠ driver_op.tx_submit i := fun he => hno (by simp [he])
      have hno' : driver_op.tx_submit i ∉ ops := fun hm => hno (by simp [hm])
      obtain ⟨a, b⟩ := driver_step_callback_count k op s s1 i hnd hop hs
      obtain ⟨c, d⟩ := ih s1 s' (nodup_driver_step k op s s1 hnd hs) hno' h
      constructor
      · rcases a with a | ⟨a, hni⟩
        · omega
        · have := d hni
          omega
      · intro hi
        obtain ⟨b1, b2⟩ := b hi
        have := d b1
        omega

/-- C3. At-most-once completion, on a channel whose lists share no slot. In a
cleanup pass every completion action (checksum write-back, callback, unmap,
dependency run) belongs to a slot that was in the chain before the pass and is
out of the chain after it, and no callback is invoked twice in the pass. Over
any run of the driver that does not submit slot `i` again (allocations,
submissions of other slots, cleanup passes, device and client writes) the
callback of slot `i` is invoked at most once. -/
theorem completion_at_most_once (k : mv_xor_h) (s : mv_xor_chan) (hnd : (all_slots s).Nodup) :
    (∀ s', __mv_xor_slot_cleanup k s = some s' →
      ∃ done, s'.events = s.events ++ done ∧
        (∀ e ∈ done, event_slot e ∈ s.chain ∧ event_slot e ∉ s'.chain) ∧
        (∀ i, done.count (mv_xor_event.callback i) ≤ 1)) ∧
    (∀ ops s' i, driver_op.tx_submit i ∉ ops → driver_run k ops s = some s' →
      s'.events.count (mv_xor_event.callback i) ≤
        s.events.count (mv_xor_event.callback i) + 1) :=
  ⟨fun s' h => cleanup_pass_events k s s' hnd h,
    fun ops s' i hno h => (driver_run_callback_count k i ops s s' hnd hno h).1⟩

/-- Witness for C3 on `chan_in_order`: a pass completes slots `0` and `1`, and
over a run with three passes the callback of slot `0` is invoked once. -/
theorem completion_at_most_once_witness :
    (all_slots chan_in_order).Nodup ∧
    (∃ s', __mv_xor_slot_cleanup sample_h chan_in_order = some s' ∧
      ∃ done, s'.events = chan_in_order.events ++ done ∧
        (∀ e ∈ done, event_slot e ∈ chan_in_order.chain ∧ event_slot e ∉ s'.chain) ∧
        (∀ i, done.count (mv_xor_event.callback i) ≤ 1)) ∧
    (∃ s', driver_run sample_h
        [driver_op.slot_cleanup, driver_op.alloc_slot, driver_op.slot_cleanup,
          driver_op.slot_cleanup] chan_in_order = some s' ∧
      s'.events.count (mv_xor_event.callback 0) ≤
        chan_in_order.events.count (mv_xor_event.callback 0) + 1 ∧
      s'.events.count (mv_xor_event.callback 0) = 1) := by
  have H := completion_at_most_once sample_h chan_in_order (by decide)
  obtain ⟨s1, hs1⟩ := Option.isSome_iff_exists.mp
    (show (__mv_xor_slot_cleanup sample_h chan_in_order).isSome = true by decide)
  have hrun : (driver_run sample_h
      [driver_op.slot_cleanup, driver_op.alloc_slot, driver_op.slot_cleanup,
        driver_op.slot_cleanup] chan_in_order).map
        (fun s' => s'.events.count (mv_xor_event.callback 0)) = some 1 := by decide
  rw [Option.map_eq_some'] at hrun
  obtain ⟨s2, hs2, hcount⟩ := hrun
  exact ⟨by decide, ⟨s1, hs1, H.1 s1 hs1⟩, ⟨s2, hs2, H.2 _ s2 0 (by simp) hs2, hcount⟩⟩

/-! ## C4: cookies -/

theorem lists_frame_trans {a b c : mv_xor_chan} (h1 : lists_frame a b) (h2 : lists_frame b c) :
    lists_frame a c := by
  unfold lists_frame at *
  rw [h2, h1]

theorem list_move_tail_frame (i : Nat) (l : list_head) (s : mv_xor_chan) :
    lists_frame s (list_move_tail i l s) := by
  cases l <;> rfl

theorem clean_completed_loop_frame (k : mv_xor_h) :
    ∀ (l : List Nat) (s : mv_xor_chan), lists_frame s (clean_completed_loop k l s) := by
  intro l
  induction l with
  | nil => intro s; rfl
  | cons i rest ih =>
    intro s
    rw [clean_completed_loop]
    split
    · exact lists_frame_trans (list_move_tail_frame i _ s) (ih _)
    · exact ih s

theorem cleanup_chain_loop_frame (k : mv_xor_h) (cur : Nat) :
    ∀ (l : List Nat) (s : mv_xor_chan) (c : Int) (r : cleanup_locals),
      cleanup_chain_loop k cur l s c = some r → lists_frame s r.chan := by
  intro l
  induction l with
  | nil =>
    intro s c r h
    simp only [cleanup_chain_loop, Option.some.injEq] at h
    subst h
    rfl
  | cons i rest ih =>
    intro s c r h
    rw [cleanup_chain_loop] at h
    split at h
    · cases h1 : crc32_write_back s i with
      | none => simp [h1] at h
      | some s1 =>
        simp only [h1] at h
        cases h2 : mv_xor_run_tx_complete_actions s1 i c with
        | none => simp [h2] at h
        | some p =>
          obtain ⟨c2, s2⟩ := p
          simp only [h2] at h
          have e1 := crc32_write_back_spec h1
          have e2 := (run_tx_complete_actions_spec h2).1
          have f2 : lists_frame s s2 := by
            unfold lists_frame; rw [e2, e1]
          have f3 : lists_frame s2 (mv_xor_clean_slot k s2 i) := by
            unfold mv_xor_clean_slot
            split <;> exact list_move_tail_frame _ _ _
          split at h
          · simp only [Option.some.injEq] at h
            subst h
            exact lists_frame_trans f2 f3
          · exact lists_frame_trans f2 (lists_frame_trans f3 (ih _ _ _ h))
    · split at h
      · simp only [Option.some.injEq] at h
        subst h
        rfl
      · exact ih _ _ _ h

theorem slot_cleanup_cookie (k : mv_xor_h) (s s' : mv_xor_chan)
    (h : __mv_xor_slot_cleanup k s = some s') : s'.cookie = s.cookie ∧ s'.slots = s.slots := by
  unfold __mv_xor_slot_cleanup at h
  dsimp only at h
  have f1 : lists_frame s (mv_xor_clean_completed_slots k s) := clean_completed_loop_frame k _ s
  generalize mv_xor_clean_completed_slots k s = s1 at h f1
  cases hl : cleanup_chain_loop k (mv_chan_get_current_desc s) s1.chain s1 0 with
  | none => simp [hl] at h
  | some r =>
    simp only [hl, Option.some.injEq] at h
    have f2 := cleanup_chain_loop_frame k _ _ _ _ _ hl
    have g := cleanup_resume_frame k (mv_chan_is_busy s) r
    generalize cleanup_resume k (mv_chan_is_busy s) r = s2 at h g
    unfold resume_frame at g
    unfold lists_frame at f1 f2
    have : s2.cookie = s.cookie ∧ s2.slots = s.slots := by
      rw [g, f2, f1]
      exact ⟨rfl, rfl⟩
    subst h
    split <;> exact this

theorem dma_cookie_next_pos (c : Int) : 0 < dma_cookie_next c := by
  unfold dma_cookie_next
  dsimp only
  split <;> omega

theorem dma_cookie_next_gt (c : Int) (h : c < 2 ^ 31 - 1) : c < dma_cookie_next c := by
  unfold dma_cookie_next wrap_s32
  dsimp only
  split <;> omega

theorem driver_step_cookie_le (k : mv_xor_h) (op : driver_op) (s s1 : mv_xor_chan)
    (h : driver_step k op s = some s1) (hnw : run_no_wrap k [op] s = true) :
    s.cookie ≤ s1.cookie := by
  cases op with
  | alloc_slot =>
    simp only [driver_step, Option.some.injEq] at h
    subst h
    unfold mv_xor_alloc_slot
    split
    · exact le_of_eq rfl
    · exact le_of_eq rfl
  | tx_submit tx =>
    simp only [run_no_wrap, Bool.and_eq_true, decide_eq_true_eq] at hnw
    simp only [driver_step] at h
    split at h
    · rw [Option.map_eq_some'] at h
      obtain ⟨r, hr, rfl⟩ := h
      obtain ⟨e1, e2, _⟩ := tx_submit_fields k s tx r hr
      rw [e2, e1]
      exact le_of_lt (dma_cookie_next_gt _ hnw.1)
    · cases h
  | slot_cleanup =>
    exact le_of_eq (slot_cleanup_cookie k s s1 h).1.symm
  | device st crc cur act =>
    simp only [driver_step, Option.some.injEq] at h
    subst h
    exact le_of_eq rfl
  | client tx fl cb pa =>
    simp only [driver_step, Option.some.injEq] at h
    subst h
    exact le_of_eq rfl

theorem run_no_wrap_cons (k : mv_xor_h) (op : driver_op) (ops : List driver_op)
    (s s1 : mv_xor_chan) (h : driver_step k op s = some s1)
    (hnw : run_no_wrap k (op :: ops) s = true) :
    run_no_wrap k [op] s = true ∧ run_no_wrap k ops s1 = true := by
  simp only [run_no_wrap, h, Bool.and_eq_true] at hnw ⊢
  exact ⟨⟨hnw.1, trivial⟩, hnw.2⟩

theorem driver_run_cookie_le (k : mv_xor_h) :
    ∀ (ops : List driver_op) (s s' : mv_xor_chan), driver_run k ops s = some s' →
      run_no_wrap k ops s = true → s.cookie ≤ s'.cookie := by
  intro ops
  induction ops with
  | nil =>
    intro s s' h _
    simp only [driver_run, Option.some.injEq] at h
    subst h
    exact le_refl _
  | cons op ops ih =>
    intro s s' h hnw
    rw [driver_run] at h
    cases hs : driver_step k op s with
    | none => simp [hs] at h
    | some s1 =>
      simp only [hs] at h
      obtain ⟨n1, n2⟩ := run_no_wrap_cons k op ops s s1 hs hnw
      exact le_trans (driver_step_cookie_le k op s s1 hs n1) (ih s1 s' h n2)

/-- C4. Cookies are strictly increasing in submission order. For two
submissions on a channel, with any run of the driver between them, such that
no submission after the first one wraps the cookie counter: the cookie of the
later submission is strictly greater than the cookie of the earlier one, both
cookies are positive, and each is the value stored in the submitted slot. -/
theorem cookies_strictly_increase (k : mv_xor_h) (s1 s2 s3 s4 : mv_xor_chan) (a b : Nat)
    (c1 c2 : Int) (ops : List driver_op)
    (h1 : mv_xor_tx_submit k s1 a = some (c1, s2))
    (hrun : driver_run k ops s2 = some s3)
    (hnw : run_no_wrap k ops s2 = true)
    (hlast : s3.cookie < 2 ^ 31 - 1)
    (h2 : mv_xor_tx_submit k s3 b = some (c2, s4)) :
    c1 < c2 ∧ 0 < c1 ∧ 0 < c2 ∧
    (s2.slots a).async_tx.cookie = c1 ∧ (s4.slots b).async_tx.cookie = c2 := by
  obtain ⟨e1, e2, e3, _⟩ := tx_submit_fields k s1 a _ h1
  obtain ⟨f1, _, f3, _⟩ := tx_submit_fields k s3 b _ h2
  dsimp only at e1 e2 e3 f1 f3
  have hle := driver_run_cookie_le k ops s2 s3 hrun hnw
  have hgt := dma_cookie_next_gt s3.cookie hlast
  have hp1 := dma_cookie_next_pos s1.cookie
  have hp2 := dma_cookie_next_pos s3.cookie
  refine ⟨by omega, by omega, by omega, ?_, ?_⟩
  · have := e3 a
    simpa using this
  · have := f3 b
    simpa using this

/-- Witness for C4: on `chan_in_order` the submission of slot `2` returns
cookie `4`; after an allocation and a cleanup pass the submission of slot `3`
returns cookie `5`. -/
theorem cookies_strictly_increase_witness :
    mv_xor_tx_submit sample_h chan_in_order 2 = some (4, chan_first_submit) ∧
    driver_run sample_h [driver_op.alloc_slot, driver_op.slot_cleanup] chan_first_submit =
      some chan_between_submits ∧
    mv_xor_tx_submit sample_h chan_between_submits 3 = some (5, chan_second_submit) ∧
    ((4 : Int) < 5 ∧ (0 : Int) < 4 ∧ (0 : Int) < 5 ∧
      (chan_first_submit.slots 2).async_tx.cookie = 4 ∧
      (chan_second_submit.slots 3).async_tx.cookie = 5) :=
  ⟨rfl, rfl, rfl,
    cookies_strictly_increase sample_h chan_in_order chan_first_submit chan_between_submits
      chan_second_submit 2 3 4 5 [driver_op.alloc_slot, driver_op.slot_cleanup] rfl rfl
      (by decide) (by decide) rfl⟩

/-! ## C5 and C6: submission -/

theorem start_new_chain_armed (k : mv_xor_h) (s : mv_xor_chan) (i : Nat) :
    armed_for k (s.slots i).async_tx.phys s (mv_xor_start_new_chain k s i) ∧
    (mv_xor_start_new_chain k s i).tasklet_count = s.tasklet_count := by
  unfold armed_for mv_xor_start_new_chain mv_xor_issue_pending mv_chan_activate
    mv_chan_set_next_descriptor
  dsimp only
  generalize (s.pending + 1) % 2 ^ 32 = p
  by_cases h : p ≥ k.MV_XOR_THRESHOLD
  · simp [h]
  · simp [h]

theorem not_mem_chain_of_mem_allocated {s : mv_xor_chan} {tx : Nat} (hnd : (all_slots s).Nodup)
    (htx : tx ∈ s.allocated_slots) :
    tx ∉ s.chain ∧ tx ∉ s.free_slots ∧ tx ∉ s.completed_slots ∧ s.allocated_slots.Nodup := by
  unfold all_slots at hnd
  simp only [List.nodup_append, List.Disjoint, List.mem_append] at hnd
  obtain ⟨⟨⟨_, ha, h1⟩, _, h2⟩, _, h3⟩ := hnd
  exact ⟨fun h => h2 (Or.inr htx) h, fun h => h1 h htx, fun h => h3 (Or.inl (Or.inr htx)) h, ha⟩

/-- C5. Submission onto an empty chain, on a channel whose lists share no slot:
for a slot `tx` in `allocated_slots`, `mv_xor_tx_submit` returns (with the next
cookie), the chain is `[tx]`, `tx` is out of `allocated_slots`, no field of any
hardware descriptor (so no forward link) is written, and the device is armed
for `tx`. -/
theorem tx_submit_empty_chain (k : mv_xor_h) (s : mv_xor_chan) (tx : Nat)
    (hnd : (all_slots s).Nodup) (hc : s.chain = []) (htx : tx ∈ s.allocated_slots) :
    ∃ s', mv_xor_tx_submit k s tx = some (dma_cookie_next s.cookie, s') ∧
      s'.chain = [tx] ∧ s'.allocated_slots = s.allocated_slots.erase tx ∧
      tx ∉ s'.allocated_slots ∧
      (∀ j, (s'.slots j).hw_desc = (s.slots j).hw_desc) ∧
      armed_for k (s.slots tx).async_tx.phys s s' := by
  obtain ⟨_, _, _, han⟩ := not_mem_chain_of_mem_allocated hnd htx
  refine ⟨mv_xor_start_new_chain k
    (list_move_tail tx list_head.chain (dma_cookie_assign s tx).2) tx, ?_, ?_⟩
  · rw [tx_submit_eq]
    simp only [hc, List.getLast?_nil]
    rfl
  · obtain ⟨e1, e2, e3, e4, e5, e6, _⟩ := start_new_chain_lists k
      (list_move_tail tx list_head.chain (dma_cookie_assign s tx).2) tx
    obtain ⟨a1, _⟩ := start_new_chain_armed k
      (list_move_tail tx list_head.chain (dma_cookie_assign s tx).2) tx
    refine ⟨?_, ?_, ?_, ?_, ?_⟩
    · rw [e2]
      simp [list_move_tail, list_add_tail, list_del, dma_cookie_assign, set_slot, hc]
    · rw [e4]; rfl
    · rw [e4]
      exact fun h => (List.Nodup.mem_erase_iff han).mp h |>.1 rfl
    · intro j
      rw [e6]
      by_cases hj : j = tx
      · subst hj
        simp [list_move_tail, list_add_tail, list_del, dma_cookie_assign, set_slot]
      · simp [list_move_tail, list_add_tail, list_del, dma_cookie_assign, set_slot,
          Function.update, hj]
    · rw [slots_move_assign_phys] at a1
      exact a1

/-- Witness for C5 on `chan_allocated`. -/
theorem tx_submit_empty_chain_witness :
    (all_slots chan_allocated).Nodup ∧ chan_allocated.chain = [] ∧
    0 ∈ chan_allocated.allocated_slots ∧
    ∃ s', mv_xor_tx_submit sample_h chan_allocated 0 =
        some (dma_cookie_next chan_allocated.cookie, s') ∧
      s'.chain = [0] ∧ s'.allocated_slots = chan_allocated.allocated_slots.erase 0 ∧
      0 ∉ s'.allocated_slots ∧
      (∀ j, (s'.slots j).hw_desc = (chan_allocated.slots j).hw_desc) ∧
      armed_for sample_h (chan_allocated.slots 0).async_tx.phys chan_allocated s' :=
  ⟨by decide, rfl, by decide,
    tx_submit_empty_chain sample_h chan_allocated 0 (by decide) rfl (by decide)⟩

theorem slots_move_assign_hw (s : mv_xor_chan) (tx j : Nat) (l : list_head) :
    ((list_move_tail tx l (dma_cookie_assign s tx).2).slots j).hw_desc = (s.slots j).hw_desc := by
  have h : (list_move_tail tx l (dma_cookie_assign s tx).2).slots =
      (dma_cookie_assign s tx).2.slots := by
    cases l <;> rfl
  rw [h]
  by_cases hj : j = tx
  · subst hj
    simp [dma_cookie_assign, set_slot]
  · simp [dma_cookie_assign, set_slot, Function.update, hj]

theorem armed_for_changes (k : mv_xor_h) (phys : Nat) (s s' : mv_xor_chan)
    (h : armed_for k phys s s') :
    ¬ (s'.pending = s.pending ∧ s'.activate_count = s.activate_count) := by
  unfold armed_for at h
  obtain ⟨_, h⟩ := h
  split at h <;> omega

/-- Submission onto a non-empty chain with tail `t`: when it returns, and what
the channel is then. -/
theorem tx_submit_append_spec (k : mv_xor_h) (s : mv_xor_chan) (tx t : Nat)
    (hnd : (all_slots s).Nodup) (ht : s.chain.getLast? = some t)
    (htx : tx ∈ s.allocated_slots) :
    ((mv_xor_tx_submit k s tx).isSome = true ↔ (s.slots t).hw_desc.phy_next_desc = 0) ∧
    ∀ c s', mv_xor_tx_submit k s tx = some (c, s') →
      s'.chain = s.chain ++ [tx] ∧ s'.allocated_slots = s.allocated_slots.erase tx ∧
      (s'.slots t).hw_desc.phy_next_desc = (s.slots tx).async_tx.phys ∧
      (∀ j, j ≠ t → (s'.slots j).hw_desc = (s.slots j).hw_desc) ∧
      (armed_for k (s.slots tx).async_tx.phys s s' ↔
        (mv_chan_is_busy s = false ∧
          mv_chan_get_current_desc s = (s.slots t).async_tx.phys)) ∧
      (¬ (mv_chan_is_busy s = false ∧
          mv_chan_get_current_desc s = (s.slots t).async_tx.phys) →
        s'.xor_next_desc = s.xor_next_desc ∧ s'.pending = s.pending ∧
          s'.activate_count = s.activate_count) := by
  obtain ⟨hnc, _, _, _⟩ := not_mem_chain_of_mem_allocated hnd htx
  have heq := tx_submit_eq k s tx
  simp only [ht, slots_move_assign_hw] at heq
  constructor
  · rw [heq]
    by_cases hn : (s.slots t).hw_desc.phy_next_desc = 0
    · simp [hn]
    · simp [hn]
  · intro c s' hs
    rw [heq] at hs
    by_cases hn : (s.slots t).hw_desc.phy_next_desc ≠ 0
    · simp only [if_pos hn] at hs
      cases hs
    · simp only [if_neg hn, Option.some.injEq, Prod.mk.injEq] at hs
      obtain ⟨_, hs⟩ := hs
      have hslots : ∀ X : mv_xor_chan,
          (X = set_slot t
            { (list_move_tail tx list_head.chain (dma_cookie_assign s tx).2).slots t with
              hw_desc := { (s.slots t).hw_desc with phy_next_desc := (s.slots tx).async_tx.phys } }
            (list_move_tail tx list_head.chain (dma_cookie_assign s tx).2)) →
          X.chain = s.chain ++ [tx] ∧ X.allocated_slots = s.allocated_slots.erase tx ∧
          (X.slots t).hw_desc.phy_next_desc = (s.slots tx).async_tx.phys ∧
          (∀ j, j ≠ t → (X.slots j).hw_desc = (s.slots j).hw_desc) ∧
          X.xor_next_desc = s.xor_next_desc ∧ X.pending = s.pending ∧
          X.activate_count = s.activate_count ∧ (X.slots tx).async_tx.phys =
            (s.slots tx).async_tx.phys := by
        intro X hX
        subst hX
        refine ⟨?_, rfl, ?_, ?_, rfl, rfl, rfl, ?_⟩
        · simp [list_move_tail, list_add_tail, list_del, dma_cookie_assign, set_slot,
            List.erase_of_not_mem hnc]
        · simp [set_slot]
        · intro j hj
          simp only [set_slot, Function.update_noteq hj]
          exact slots_move_assign_hw s tx j _
        · by_cases hj : tx = t
          · subst hj
            simp only [set_slot, Function.update_same]
            exact slots_move_assign_phys s tx tx _
          · simp only [set_slot, Function.update_noteq hj]
            exact slots_move_assign_phys s tx tx _
      obtain ⟨b1, b2, b3, b4, b5, b6, b7, b8⟩ := hslots _ rfl
      by_cases hcond : mv_chan_is_busy s = false ∧
          mv_chan_get_current_desc s = (s.slots t).async_tx.phys
      · have hcond' : mv_chan_is_busy s = false ∧ s.xor_curr_desc = (s.slots t).async_tx.phys :=
          hcond
        simp only [if_pos hcond'] at hs
        subst hs
        obtain ⟨e1, e2, e3, e4, e5, e6, _⟩ := start_new_chain_lists k
          (set_slot t
            { (list_move_tail tx list_head.chain (dma_cookie_assign s tx).2).slots t with
              hw_desc := { (s.slots t).hw_desc with phy_next_desc := (s.slots tx).async_tx.phys } }
            (list_move_tail tx list_head.chain (dma_cookie_assign s tx).2)) tx
        obtain ⟨a1, _⟩ := start_new_chain_armed k
          (set_slot t
            { (list_move_tail tx list_head.chain (dma_cookie_assign s tx).2).slots t with
              hw_desc := { (s.slots t).hw_desc with phy_next_desc := (s.slots tx).async_tx.phys } }
            (list_move_tail tx list_head.chain (dma_cookie_assign s tx).2)) tx
        rw [e2, e4, e6]
        refine ⟨b1, b2, b3, b4, ?_, fun hn => absurd hcond hn⟩
        rw [b8] at a1
        unfold armed_for at a1 ⊢
        rw [b6, b7] at a1
        exact ⟨fun _ => hcond, fun _ => a1⟩
      · have hcond' : ¬ (mv_chan_is_busy s = false ∧
            s.xor_curr_desc = (s.slots t).async_tx.phys) := hcond
        simp only [if_neg hcond'] at hs
        subst hs
        exact ⟨b1, b2, b3, b4,
          ⟨fun ha => absurd ⟨b6, b7⟩ (armed_for_changes k _ _ _ ha), fun hc => absurd hc hcond⟩,
          fun _ => ⟨b5, b6, b7⟩⟩

/-- C6 (amended). Submission onto a non-empty chain with tail `t` whose forward
link is still unset, on a channel whose lists share no slot, for a slot `tx` in
`allocated_slots`: the submission returns with the next cookie, `tx` is the new
last element of the chain behind the unchanged old elements, `tx` is out of
`allocated_slots`, the forward link of `t` holds the physical address of `tx`,
no other hardware descriptor is written, and the device is armed for `tx` if
and only if the device reports not busy and its current-descriptor register
holds the address of `t`; when that condition is false the next-descriptor
register, the pending counter and the count of doorbell writes are unchanged. -/
theorem tx_submit_append (k : mv_xor_h) (s : mv_xor_chan) (tx t : Nat)
    (hnd : (all_slots s).Nodup) (ht : s.chain.getLast? = some t)
    (htx : tx ∈ s.allocated_slots) (hlink : (s.slots t).hw_desc.phy_next_desc = 0) :
    ∃ s', mv_xor_tx_submit k s tx = some (dma_cookie_next s.cookie, s') ∧
      s'.chain = s.chain ++ [tx] ∧ s'.allocated_slots = s.allocated_slots.erase tx ∧
      (s'.slots t).hw_desc.phy_next_desc = (s.slots tx).async_tx.phys ∧
      (∀ j, j ≠ t → (s'.slots j).hw_desc = (s.slots j).hw_desc) ∧
      (armed_for k (s.slots tx).async_tx.phys s s' ↔
        (mv_chan_is_busy s = false ∧
          mv_chan_get_current_desc s = (s.slots t).async_tx.phys)) ∧
      (¬ (mv_chan_is_busy s = false ∧
          mv_chan_get_current_desc s = (s.slots t).async_tx.phys) →
        s'.xor_next_desc = s.xor_next_desc ∧ s'.pending = s.pending ∧
          s'.activate_count = s.activate_count) := by
  obtain ⟨hsome, hprops⟩ := tx_submit_append_spec k s tx t hnd ht htx
  obtain ⟨r, hr⟩ := Option.isSome_iff_exists.mp (hsome.mpr hlink)
  have hc := (tx_submit_fields k s tx r hr).1
  obtain ⟨c, s'⟩ := r
  dsimp only at hc
  subst hc
  exact ⟨s', hr, hprops _ s' hr⟩

/-- Counterexample to C6 as stated. From the initialised `example_chan` the run
`run_to_linked_tail` reaches a channel whose chain is `[0]`, whose lists share
no slot and in which slot `2` is allocated; the forward link of the tail `0`
still holds the address of slot `1`, which an earlier pass completed, and the
submission of slot `2` stops on the `BUG_ON` of `mv_desc_set_next_desc`. -/
theorem tx_submit_stops_on_linked_tail :
    (driver_run sample_h run_to_linked_tail example_chan).map
      (fun s => (s.chain, s.allocated_slots, decide (all_slots s).Nodup,
        (s.slots 0).hw_desc.phy_next_desc, (mv_xor_tx_submit sample_h s 2).isSome)) =
      some ([0], [2], true, 4160, false) := by
  decide

/-- Witness for C6 (amended) on `chan_tail_drained`: the chain is `[0]`, the
forward link of slot `0` is unset, and the submission of slot `1` returns. -/
theorem tx_submit_append_witness :
    (all_slots chan_tail_drained).Nodup ∧ chan_tail_drained.chain.getLast? = some 0 ∧
    1 ∈ chan_tail_drained.allocated_slots ∧
    (chan_tail_drained.slots 0).hw_desc.phy_next_desc = 0 ∧
    ∃ s', mv_xor_tx_submit sample_h chan_tail_drained 1 =
        some (dma_cookie_next chan_tail_drained.cookie, s') ∧
      s'.chain = chan_tail_drained.chain ++ [1] ∧
      s'.allocated_slots = chan_tail_drained.allocated_slots.erase 1 ∧
      (s'.slots 0).hw_desc.phy_next_desc = (chan_tail_drained.slots 1).async_tx.phys ∧
      (∀ j, j ≠ 0 → (s'.slots j).hw_desc = (chan_tail_drained.slots j).hw_desc) ∧
      (armed_for sample_h (chan_tail_drained.slots 1).async_tx.phys chan_tail_drained s' ↔
        (mv_chan_is_busy chan_tail_drained = false ∧
          mv_chan_get_current_desc chan_tail_drained =
            (chan_tail_drained.slots 0).async_tx.phys)) ∧
      (¬ (mv_chan_is_busy chan_tail_drained = false ∧
          mv_chan_get_current_desc chan_tail_drained =
            (chan_tail_drained.slots 0).async_tx.phys) →
        s'.xor_next_desc = chan_tail_drained.xor_next_desc ∧
          s'.pending = chan_tail_drained.pending ∧
          s'.activate_count = chan_tail_drained.activate_count) :=
  ⟨by decide, rfl, by decide, rfl,
    tx_submit_append sample_h chan_tail_drained 1 0 (by decide) rfl (by decide) rfl⟩

/-! ## C10: allocation -/

/-- C10. Allocation under exhaustion, on a channel whose lists share no slot.
`mv_xor_alloc_slot` returns nothing exactly when `free_slots` is empty; then the
channel is unchanged (all four lists and every slot) but for one more
`tasklet_schedule`. When `free_slots` is not empty it returns its first slot,
which is moved to the end of `allocated_slots`; the other lists keep their
slots and no tasklet is scheduled. -/
theorem alloc_slot_exhaustion (k : mv_xor_h) (s : mv_xor_chan) (hnd : (all_slots s).Nodup) :
    ((mv_xor_alloc_slot k s).1 = none ↔ s.free_slots = []) ∧
    (s.free_slots = [] →
      (mv_xor_alloc_slot k s).2 = { s with tasklet_count := s.tasklet_count + 1 }) ∧
    (∀ i rest, s.free_slots = i :: rest →
      (mv_xor_alloc_slot k s).1 = some i ∧
      (mv_xor_alloc_slot k s).2.free_slots = rest ∧
      (mv_xor_alloc_slot k s).2.allocated_slots = s.allocated_slots ++ [i] ∧
      (mv_xor_alloc_slot k s).2.chain = s.chain ∧
      (mv_xor_alloc_slot k s).2.completed_slots = s.completed_slots ∧
      (mv_xor_alloc_slot k s).2.tasklet_count = s.tasklet_count) := by
  refine ⟨?_, ?_, ?_⟩
  · unfold mv_xor_alloc_slot
    split
    · rename_i iter rest hf
      simp [hf]
    · rename_i hf
      simp [hf]
  · intro hf
    unfold mv_xor_alloc_slot
    split
    · rename_i iter rest hf'
      rw [hf] at hf'
      cases hf'
    · rfl
  · intro i rest hf
    have hnd' := hnd
    unfold all_slots at hnd'
    rw [hf] at hnd'
    simp only [List.nodup_append, List.nodup_cons, List.Disjoint, List.mem_append,
      List.mem_cons] at hnd'
    obtain ⟨⟨⟨_, _, h1⟩, _, h2⟩, _, h3⟩ := hnd'
    have ha : i ∉ s.allocated_slots := fun h => h1 (Or.inl rfl) h
    have hc : i ∉ s.chain := fun h => h2 (Or.inl (Or.inl rfl)) h
    have hd : i ∉ s.completed_slots := fun h => h3 (Or.inl (Or.inl (Or.inl rfl))) h
    unfold mv_xor_alloc_slot
    split
    · rename_i iter rest' hf'
      rw [hf] at hf'
      cases hf'
      refine ⟨rfl, ?_, ?_, ?_, ?_, rfl⟩
      · simp [set_slot, list_move_tail, list_add_tail, list_del, hf]
      · simp [set_slot, list_move_tail, list_add_tail, list_del, List.erase_of_not_mem ha]
      · simp [set_slot, list_move_tail, list_add_tail, list_del, List.erase_of_not_mem hc]
      · simp [set_slot, list_move_tail, list_add_tail, list_del, List.erase_of_not_mem hd]
    · rename_i hf'
      rw [hf] at hf'
      cases hf'

/-- Witness for C10 on `chan_exhausted` (empty free list) and on `chan_allocated`
(free list `[1, 2, 3]`). -/
theorem alloc_slot_exhaustion_witness :
    (all_slots chan_exhausted).Nodup ∧ (all_slots chan_allocated).Nodup ∧
    (mv_xor_alloc_slot sample_h chan_exhausted).1 = none ∧
    (mv_xor_alloc_slot sample_h chan_exhausted).2 =
      { chan_exhausted with tasklet_count := chan_exhausted.tasklet_count + 1 } ∧
    (mv_xor_alloc_slot sample_h chan_allocated).1 = some 1 ∧
    (mv_xor_alloc_slot sample_h chan_allocated).2.free_slots = [2, 3] ∧
    (mv_xor_alloc_slot sample_h chan_allocated).2.allocated_slots =
      chan_allocated.allocated_slots ++ [1] ∧
    (mv_xor_alloc_slot sample_h chan_allocated).2.tasklet_count =
      chan_allocated.tasklet_count := by
  have h1 := alloc_slot_exhaustion sample_h chan_exhausted (by decide)
  have h2 := alloc_slot_exhaustion sample_h chan_allocated (by decide)
  obtain ⟨a1, a2, a3, _, _, a6⟩ := h2.2.2 1 [2, 3] rfl
  exact ⟨by decide, by decide, h1.1.mpr rfl, h1.2.1 rfl, a1, a2, a3, a6⟩

/-! ## C8: release of slots -/

theorem callback_slots_append (a b : List mv_xor_event) :
    callback_slots (a ++ b) = callback_slots a ++ callback_slots b := by
  unfold callback_slots
  rw [List.filterMap_append]

theorem lists_frame_lock {s s' : mv_xor_chan} (h : lists_frame s s') :
    s'.lock_held = s.lock_held := by
  unfold lists_frame at h
  rw [h]

theorem lists_frame_slots {s s' : mv_xor_chan} (h : lists_frame s s') : s'.slots = s.slots := by
  unfold lists_frame at h
  rw [h]

theorem list_move_tail_views (i : Nat) (l : list_head) (s : mv_xor_chan) :
    (list_move_tail i l s).slots = s.slots ∧ (list_move_tail i l s).lock_held = s.lock_held ∧
    (list_move_tail i l s).mem = s.mem ∧
    (list_move_tail i l s).callback_views = s.callback_views ∧
    (list_move_tail i l s).events = s.events := by
  cases l <;> exact ⟨rfl, rfl, rfl, rfl, rfl⟩

theorem clean_slot_views (k : mv_xor_h) (s : mv_xor_chan) (i : Nat) :
    (mv_xor_clean_slot k s i).slots = s.slots ∧
    (mv_xor_clean_slot k s i).lock_held = s.lock_held ∧
    (mv_xor_clean_slot k s i).mem = s.mem ∧
    (mv_xor_clean_slot k s i).callback_views = s.callback_views ∧
    (mv_xor_clean_slot k s i).events = s.events := by
  unfold mv_xor_clean_slot
  split <;> exact list_move_tail_views _ _ _

theorem clean_completed_loop_views (k : mv_xor_h) :
    ∀ (l : List Nat) (s : mv_xor_chan),
      (clean_completed_loop k l s).slots = s.slots ∧
      (clean_completed_loop k l s).lock_held = s.lock_held ∧
      (clean_completed_loop k l s).mem = s.mem ∧
      (clean_completed_loop k l s).callback_views = s.callback_views ∧
      (clean_completed_loop k l s).events = s.events := by
  intro l
  induction l with
  | nil => intro s; exact ⟨rfl, rfl, rfl, rfl, rfl⟩
  | cons i rest ih =>
    intro s
    rw [clean_completed_loop]
    split
    · obtain ⟨a1, a2, a3, a4, a5⟩ := ih (list_move_tail i list_head.free_slots s)
      obtain ⟨b1, b2, b3, b4, b5⟩ := list_move_tail_views i list_head.free_slots s
      exact ⟨a1.trans b1, a2.trans b2, a3.trans b3, a4.trans b4, a5.trans b5⟩
    · exact ih s

theorem crc32_write_back_store {s s1 : mv_xor_chan} {i : Nat}
    (h : crc32_write_back s i = some s1) :
    s1.slots = s.slots ∧ s1.lock_held = s.lock_held ∧
    s1.mem = crc32_store s.slots s.mem i ∧ s1.callback_views = s.callback_views ∧
    s1.events = s.events ++ crc32_events s.slots i := by
  unfold crc32_write_back at h
  unfold crc32_store crc32_events
  split at h
  · rename_i ht
    split at h
    · cases h
    · cases h
      exact ⟨rfl, rfl, by rw [if_pos ht], rfl, by rw [if_pos ht]⟩
  · rename_i ht
    cases h
    exact ⟨rfl, rfl, by rw [if_neg ht], rfl, by rw [if_neg ht, List.append_nil]⟩

/-- The loop of the cleanup, the caller memory, the views of the callbacks and
the event log: the memory after the loop is the memory before it with the
write-backs for the completed slots, and the loop adds the views of their
callbacks and their completion events. -/
theorem cleanup_chain_loop_views (k : mv_xor_h) (cur : Nat) :
    ∀ (l : List Nat) (s : mv_xor_chan) (c : Int) (r : cleanup_locals),
      cleanup_chain_loop k cur l s c = some r →
      r.chan.mem =
        walk_mem s.slots s.mem ((walk_visited s.slots cur l).filter (slot_success k s.slots)) ∧
      r.chan.callback_views = s.callback_views ++
        walk_views s.slots s.lock_held s.mem
          ((walk_visited s.slots cur l).filter (slot_success k s.slots)) ∧
      r.chan.events = s.events ++
        ((walk_visited s.slots cur l).filter (slot_success k s.slots)).flatMap
          (completion_events s.slots) := by
  intro l
  induction l with
  | nil =>
    intro s c r h
    rw [cleanup_chain_loop] at h
    cases h
    simp [walk_visited, walk_mem, walk_views]
  | cons i rest ih =>
    intro s c r h
    rw [cleanup_chain_loop] at h
    rw [walk_visited]
    by_cases hs : (s.slots i).hw_desc.status &&& k.XOR_DESC_SUCCESS ≠ 0
    · have hss : slot_success k s.slots i = true := by
        unfold slot_success
        exact decide_eq_true hs
      rw [if_pos hs] at h
      cases h1 : crc32_write_back s i with
      | none => simp [h1] at h
      | some s1 =>
        simp only [h1] at h
        cases h2 : mv_xor_run_tx_complete_actions s1 i c with
        | none => simp [h2] at h
        | some p =>
          obtain ⟨c2, s2⟩ := p
          simp only [h2] at h
          obtain ⟨a1, a2, a3, a4, a5⟩ := crc32_write_back_store h1
          have e2 := (run_tx_complete_actions_spec h2).1
          obtain ⟨b1, b2, b3, b4, b5⟩ := clean_slot_views k s2 i
          have c1 : (mv_xor_clean_slot k s2 i).slots = s.slots := by rw [b1, e2]; exact a1
          have c2' : (mv_xor_clean_slot k s2 i).lock_held = s.lock_held := by
            rw [b2, e2]; exact a2
          have c3 : (mv_xor_clean_slot k s2 i).mem = crc32_store s.slots s.mem i := by
            rw [b3, e2]; exact a3
          have c4 : (mv_xor_clean_slot k s2 i).callback_views = s.callback_views ++
              if has_callback s.slots i then [⟨i, s.lock_held, crc32_store s.slots s.mem i⟩]
              else [] := by
            rw [b4, e2]
            show s1.callback_views ++
              (if has_callback s1.slots i then [⟨i, s1.lock_held, s1.mem⟩] else []) = _
            rw [a1, a2, a3, a4]
          have c5 : (mv_xor_clean_slot k s2 i).events =
              s.events ++ completion_events s.slots i := by
            rw [b5, e2]
            show s1.events ++ action_events s1.slots i = _
            rw [a1, a5, List.append_assoc]
            rfl
          rw [c1] at h
          by_cases hp : (s.slots i).async_tx.phys = cur
          · rw [if_pos hp] at h
            simp only [Option.some.injEq] at h
            subst h
            rw [if_pos hp]
            simp only [List.filter_cons_of_pos hss, List.filter_nil, walk_mem, walk_views,
              List.foldl_cons, List.foldl_nil, List.append_nil, List.flatMap_cons,
              List.flatMap_nil]
            exact ⟨c3, c4, c5⟩
          · rw [if_neg hp] at h
            obtain ⟨d1, d2, d3⟩ := ih _ _ _ h
            rw [c1, c3] at d1
            rw [c1, c2', c3, c4] at d2
            rw [c1, c5] at d3
            rw [if_neg hp, List.filter_cons_of_pos hss]
            simp only [walk_mem, walk_views, List.foldl_cons, List.flatMap_cons]
            refine ⟨d1, ?_, ?_⟩
            · rw [d2, List.append_assoc]
            · rw [d3, List.append_assoc]
    · have hss : slot_success k s.slots i = false := by
        unfold slot_success
        exact decide_eq_false hs
      rw [if_neg hs] at h
      by_cases hp : (s.slots i).async_tx.phys = cur
      · rw [if_pos hp] at h
        simp only [Option.some.injEq] at h
        subst h
        rw [if_pos hp]
        simp [hss, walk_mem, walk_views]
      · rw [if_neg hp] at h
        rw [if_neg hp, List.filter_cons_of_neg (by simp [hss])]
        exact ih _ _ _ h

/-- The caller memory after a cleanup pass on a channel whose four lists share
no slot, and the views of the callbacks that the pass adds. -/
theorem slot_cleanup_views (k : mv_xor_h) (s s' : mv_xor_chan) (hnd : (all_slots s).Nodup)
    (h : __mv_xor_slot_cleanup k s = some s') :
    s'.lock_held = s.lock_held ∧
    s'.mem = walk_mem s.slots s.mem (cleanup_completed k s) ∧
    s'.callback_views = s.callback_views ++
      walk_views s.slots s.lock_held s.mem (cleanup_completed k s) := by
  unfold __mv_xor_slot_cleanup at h
  dsimp only at h
  have e1 := clean_completed_slots_spec k s hnd
  generalize mv_xor_clean_completed_slots k s = s1 at h e1
  cases hl : cleanup_chain_loop k (mv_chan_get_current_desc s) s1.chain s1 0 with
  | none => simp [hl] at h
  | some r =>
    simp only [hl, Option.some.injEq] at h
    obtain ⟨f1, f2, _⟩ := cleanup_chain_loop_views k _ _ _ _ r hl
    have fl := lists_frame_lock (cleanup_chain_loop_frame k _ _ _ _ r hl)
    have hslots1 : s1.slots = s.slots := by rw [e1]
    have hchain1 : s1.chain = s.chain := by rw [e1]
    have hmem1 : s1.mem = s.mem := by rw [e1]
    have hlock1 : s1.lock_held = s.lock_held := by rw [e1]
    have hviews1 : s1.callback_views = s.callback_views := by rw [e1]
    rw [hslots1, hchain1, hmem1] at f1
    rw [hslots1, hchain1, hmem1, hlock1, hviews1] at f2
    rw [hlock1] at fl
    have g := cleanup_resume_frame k (mv_chan_is_busy s) r
    generalize cleanup_resume k (mv_chan_is_busy s) r = s2 at h g
    unfold resume_frame at g
    have hs2 : s2.lock_held = r.chan.lock_held ∧ s2.mem = r.chan.mem ∧
        s2.callback_views = r.chan.callback_views := by
      rw [g]
      exact ⟨rfl, rfl, rfl⟩
    obtain ⟨g1, g2, g3⟩ := hs2
    subst h
    split
    · exact ⟨g1.trans fl, g2.trans f1, g3.trans f2⟩
    · exact ⟨g1.trans fl, g2.trans f1, g3.trans f2⟩

theorem walk_views_spec (slots : Nat → mv_xor_desc_slot) (lock : Bool) :
    ∀ (l : List Nat) (mem : Nat → Nat),
      (walk_views slots lock mem l).map (fun v => v.idx) = l.filter (has_callback slots) ∧
      ∀ v ∈ walk_views slots lock mem l, v.lock_held = lock ∧
        ((slots v.idx).type = dma_transaction_type.DMA_CRC32C →
          v.mem (slots v.idx).crc32_result = u32_not (slots v.idx).hw_desc.crc32_result) := by
  intro l
  induction l with
  | nil =>
    intro mem
    simp [walk_views]
  | cons i rest ih =>
    intro mem
    obtain ⟨ih1, ih2⟩ := ih (crc32_store slots mem i)
    rw [walk_views]
    constructor
    · rw [List.map_append, ih1]
      by_cases hc : has_callback slots i = true
      · simp [hc]
      · simp [hc]
    · intro v hv
      rcases List.mem_append.mp hv with hv | hv
      · by_cases hc : has_callback slots i = true
        · rw [if_pos hc] at hv
          simp only [List.mem_singleton] at hv
          subst hv
          refine ⟨rfl, fun ht => ?_⟩
          dsimp only at ht ⊢
          unfold crc32_store
          rw [if_pos ht, Function.update_same]
        · rw [if_neg hc] at hv
          cases hv
      · exact ih2 v hv

/-- The callbacks of a cleanup pass under the lock, on any channel: the views
that `mv_xor_slot_cleanup` adds are those of a walk with the lock held, and the
callbacks that its event log records are the slots of these views. -/
theorem slot_cleanup_lock_views (k : mv_xor_h) (s s' : mv_xor_chan)
    (h : mv_xor_slot_cleanup k s = some s') :
    s'.lock_held = false ∧
    ∃ (mem : Nat → Nat) (l : List Nat),
      s'.callback_views = s.callback_views ++ walk_views s.slots true mem l ∧
      callback_slots s'.events =
        callback_slots s.events ++ (walk_views s.slots true mem l).map (fun v => v.idx) := by
  unfold mv_xor_slot_cleanup at h
  dsimp only at h
  cases hc : __mv_xor_slot_cleanup k (spin_lock_bh s) with
  | none => simp [hc] at h
  | some s2 =>
    simp only [hc, Option.some.injEq] at h
    subst h
    refine ⟨rfl, ?_⟩
    unfold __mv_xor_slot_cleanup at hc
    dsimp only at hc
    obtain ⟨e1, e2, e3, e4, e5⟩ :=
      clean_completed_loop_views k (spin_lock_bh s).completed_slots (spin_lock_bh s)
    have e0 : mv_xor_clean_completed_slots k (spin_lock_bh s) =
        clean_completed_loop k (spin_lock_bh s).completed_slots (spin_lock_bh s) := rfl
    rw [← e0] at e1 e2 e3 e4 e5
    generalize mv_xor_clean_completed_slots k (spin_lock_bh s) = s1 at hc e1 e2 e3 e4 e5
    cases hl : cleanup_chain_loop k (mv_chan_get_current_desc (spin_lock_bh s)) s1.chain s1 0 with
    | none => simp [hl] at hc
    | some r =>
      simp only [hl, Option.some.injEq] at hc
      obtain ⟨_, f2, f3⟩ := cleanup_chain_loop_views k _ _ _ _ r hl
      rw [e1, e2, e3, e4] at f2
      rw [e1, e5] at f3
      have g := cleanup_resume_frame k (mv_chan_is_busy (spin_lock_bh s)) r
      generalize cleanup_resume k (mv_chan_is_busy (spin_lock_bh s)) r = s3 at hc g
      unfold resume_frame at g
      have hs3 : s3.callback_views = r.chan.callback_views ∧ s3.events = r.chan.events := by
        rw [g]
        exact ⟨rfl, rfl⟩
      obtain ⟨g1, g2⟩ := hs3
      have hv : s2.callback_views = r.chan.callback_views ∧ s2.events = r.chan.events := by
        subst hc
        split
        · exact ⟨g1, g2⟩
        · exact ⟨g1, g2⟩
      refine ⟨s.mem, _, hv.1.trans f2, ?_⟩
      show callback_slots s2.events = _
      rw [hv.2, f3, callback_slots_append, callback_slots_flatMap,
        (walk_views_spec s.slots true _ s.mem).1]
      rfl

/-! ## C9: delivery of a checksum -/

theorem u32_not_spec (x : Nat) :
    u32_not x < 2 ^ 32 ∧ ∀ b, b < 32 → (u32_not x).testBit b = !(x.testBit b) := by
  have hx : x % 2 ^ 32 < 2 ^ 32 := Nat.mod_lt _ (by norm_num)
  constructor
  · unfold u32_not
    omega
  · intro b hb
    have e : u32_not x = 2 ^ 32 - (x % 2 ^ 32 + 1) := by
      unfold u32_not
      omega
    rw [e, Nat.testBit_two_pow_sub_succ hx, Nat.testBit_mod_two_pow]
    simp [hb]

theorem crc32_write_back_mem {s s1 : mv_xor_chan} {i : Nat}
    (h : crc32_write_back s i = some s1)
    (ht : (s.slots i).type = dma_transaction_type.DMA_CRC32C) :
    (s.slots i).crc32_result ≠ 0 ∧
    s1.mem (s.slots i).crc32_result = u32_not (s.slots i).hw_desc.crc32_result := by
  unfold crc32_write_back at h
  rw [if_pos ht] at h
  split at h
  · cases h
  · rename_i hz
    cases h
    exact ⟨hz, by simp⟩

theorem prep_dma_crc32c_writes_nothing (k : mv_xor_h) (s : mv_xor_chan)
    (src len seed flags : Nat) :
    (mv_xor_prep_dma_crc32c k s src len seed flags).2.mem = s.mem ∧
    (mv_xor_prep_dma_crc32c k s src len seed flags).2.events = s.events ∧
    ∀ i, (mv_xor_prep_dma_crc32c k s src len seed flags).1 = some i →
      ((mv_xor_prep_dma_crc32c k s src len seed flags).2.slots i).crc32_result = seed := by
  have ha : (mv_xor_alloc_slot k s).2.mem = s.mem ∧ (mv_xor_alloc_slot k s).2.events = s.events := by
    unfold mv_xor_alloc_slot
    split
    · exact ⟨rfl, rfl⟩
    · exact ⟨rfl, rfl⟩
  unfold mv_xor_prep_dma_crc32c
  split
  · exact ⟨rfl, rfl, fun i hi => by cases hi⟩
  · split
    · rename_i sw s1 heq
      have h2 : (mv_xor_alloc_slot k s).2 = s1 := by rw [heq]
      rw [← h2]
      refine ⟨ha.1, ha.2, fun i hi => ?_⟩
      simp only [Option.some.injEq] at hi
      subst hi
      simp [set_slot]
    · rename_i s1 heq
      have h2 : (mv_xor_alloc_slot k s).2 = s1 := by rw [heq]
      rw [← h2]
      exact ⟨ha.1, ha.2, fun i hi => by cases hi⟩

theorem walk_mem_keeps (slots : Nat → mv_xor_desc_slot) (a v : Nat) :
    ∀ (l : List Nat) (mem : Nat → Nat),
      (∀ j ∈ l, (slots j).type = dma_transaction_type.DMA_CRC32C → (slots j).crc32_result = a →
        u32_not (slots j).hw_desc.crc32_result = v) →
      mem a = v → walk_mem slots mem l a = v := by
  intro l
  induction l with
  | nil =>
    intro mem _ hm
    exact hm
  | cons j rest ih =>
    intro mem hl hm
    unfold walk_mem
    rw [List.foldl_cons]
    apply ih
    · exact fun j' hj' => hl j' (List.mem_cons_of_mem _ hj')
    · unfold crc32_store
      split
      · rename_i ht
        by_cases ha : (slots j).crc32_result = a
        · rw [← ha, Function.update_same]
          exact hl j (List.mem_cons_self _ _) ht ha
        · rw [Function.update_noteq (Ne.symm ha)]
          exact hm
      · exact hm

theorem walk_mem_delivers (slots : Nat → mv_xor_desc_slot) (i : Nat)
    (ht : (slots i).type = dma_transaction_type.DMA_CRC32C) :
    ∀ (l : List Nat) (mem : Nat → Nat), i ∈ l →
      (∀ j ∈ l, j ≠ i → (slots j).type = dma_transaction_type.DMA_CRC32C →
        (slots j).crc32_result ≠ (slots i).crc32_result) →
      walk_mem slots mem l (slots i).crc32_result = u32_not (slots i).hw_desc.crc32_result := by
  intro l
  induction l with
  | nil =>
    intro mem hi
    cases hi
  | cons j rest ih =>
    intro mem hi hl
    by_cases hji : j = i
    · subst hji
      unfold walk_mem
      rw [List.foldl_cons]
      apply walk_mem_keeps
      · intro j' hj' ht' ha'
        by_cases hj : j' = j
        · rw [hj]
        · exact absurd ha' (hl j' (List.mem_cons_of_mem _ hj') hj ht')
      · unfold crc32_store
        rw [if_pos ht, Function.update_same]
    · have hi' : i ∈ rest := by
        rcases List.mem_cons.mp hi with h | h
        · exact absurd h.symm hji
        · exact h
      unfold walk_mem
      rw [List.foldl_cons]
      exact ih _ hi' (fun j' hj' => hl j' (List.mem_cons_of_mem _ hj'))

/-- C9. Checksum result delivery. The write-back of the cleanup loop stores the
32-bit bitwise complement of the result word of the hardware descriptor at
the output location of the slot. For a cleanup pass on a channel whose lists
share no slot: the caller memory after the pass is the memory before it with
these stores for the slots that the pass completes, in chain order, and nothing
else; whenever the pass invokes the callback of a slot of checksum kind, the
caller memory at that moment holds the complement at the output location of
the slot. For a checksum slot that the pass takes out of the chain (found
successful): the events of the pass hold the write directly in front of the
completion actions of the slot, its callback among them, and no callback of
the slot comes before the write; if the slot has a callback, the pass invokes
it; and the output location holds the complement after the pass, unless another
checksum slot completed in the pass has the same output location. The builder
`mv_xor_prep_dma_crc32c` leaves the caller memory and the event log unchanged
and records the seed location of the caller as the output location. -/
theorem crc32_result_delivery (k : mv_xor_h) (s : mv_xor_chan) (hnd : (all_slots s).Nodup) :
    (∀ x, u32_not x < 2 ^ 32 ∧ ∀ b, b < 32 → (u32_not x).testBit b = !(x.testBit b)) ∧
    (∀ i s1, crc32_write_back s i = some s1 →
      (s.slots i).type = dma_transaction_type.DMA_CRC32C →
      (s.slots i).crc32_result ≠ 0 ∧
      s1.mem (s.slots i).crc32_result = u32_not (s.slots i).hw_desc.crc32_result) ∧
    (∀ s', __mv_xor_slot_cleanup k s = some s' →
      s'.mem = walk_mem s.slots s.mem (cleanup_completed k s) ∧
      ∃ done views, s'.events = s.events ++ done ∧
        s'.callback_views = s.callback_views ++ views ∧
        (∀ v ∈ views, (s.slots v.idx).type = dma_transaction_type.DMA_CRC32C →
          v.mem (s.slots v.idx).crc32_result = u32_not (s.slots v.idx).hw_desc.crc32_result) ∧
        ∀ i, i ∈ s.chain → i ∉ s'.chain →
          (s.slots i).type = dma_transaction_type.DMA_CRC32C →
          (has_callback s.slots i = true →
            mv_xor_event.callback i ∈ action_events s.slots i) ∧
          (∃ pre post, done = pre ++
              mv_xor_event.crc32_write i (s.slots i).crc32_result
                (u32_not (s.slots i).hw_desc.crc32_result) ::
              (action_events s.slots i ++ post) ∧
            mv_xor_event.callback i ∉ pre) ∧
          (has_callback s.slots i = true → ∃ v ∈ views, v.idx = i) ∧
          ((∀ j, j ∈ s.chain → j ∉ s'.chain → j ≠ i →
              (s.slots j).type = dma_transaction_type.DMA_CRC32C →
              (s.slots j).crc32_result ≠ (s.slots i).crc32_result) →
            s'.mem (s.slots i).crc32_result = u32_not (s.slots i).hw_desc.crc32_result)) ∧
    (∀ src len seed flags,
      (mv_xor_prep_dma_crc32c k s src len seed flags).2.mem = s.mem ∧
      (mv_xor_prep_dma_crc32c k s src len seed flags).2.events = s.events ∧
      ∀ i, (mv_xor_prep_dma_crc32c k s src len seed flags).1 = some i →
        ((mv_xor_prep_dma_crc32c k s src len seed flags).2.slots i).crc32_result = seed) := by
  refine ⟨u32_not_spec, fun i s1 h ht => crc32_write_back_mem h ht, ?_,
    fun src len seed flags => prep_dma_crc32c_writes_nothing k s src len seed flags⟩
  intro s' h
  have hev := (slot_cleanup_spec k s s' hnd h).2.2.2.2.2.2.2.1
  have hmem := mem_chain_after_cleanup k s s' hnd h
  obtain ⟨_, hm, hviews⟩ := slot_cleanup_views k s s' hnd h
  obtain ⟨hidx, hvs⟩ := walk_views_spec s.slots s.lock_held (cleanup_completed k s) s.mem
  have hcompl : ∀ i, i ∈ s.chain → i ∉ s'.chain → i ∈ cleanup_completed k s := by
    intro i hi hni
    have hv : i ∈ cleanup_visited s ∧ slot_success k s.slots i = true := by
      by_contra hcon
      exact hni ((hmem i).mpr ⟨hi, hcon⟩)
    exact List.mem_filter.mpr hv
  have hback : ∀ j, j ∈ cleanup_completed k s → j ∈ s.chain ∧ j ∉ s'.chain := by
    intro j hj
    have hj' := List.mem_filter.mp hj
    have hjc : j ∈ s.chain := (cleanup_completed_sublist k s).subset hj
    refine ⟨hjc, fun hjs => ?_⟩
    exact ((hmem j).mp hjs).2 hj'
  refine ⟨hm, _, _, hev, hviews, fun v hv => (hvs v hv).2, fun i hi hni ht => ⟨?_, ?_, ?_, ?_⟩⟩
  · intro hcb
    unfold has_callback at hcb
    simp only [decide_eq_true_eq] at hcb
    unfold action_events
    simp [hcb.1, hcb.2]
  · have hk : i ∈ cleanup_completed k s := hcompl i hi hni
    obtain ⟨A, B, hAB⟩ := List.append_of_mem hk
    have hnodup : (cleanup_completed k s).Nodup :=
      (chain_nodup_of_all_slots hnd).sublist (cleanup_completed_sublist k s)
    rw [hAB] at hnodup
    have hiA : i ∉ A := by
      intro hm
      have := (List.nodup_append.mp hnodup).2.2
      exact this hm (List.mem_cons_self i B)
    refine ⟨A.flatMap (completion_events s.slots), B.flatMap (completion_events s.slots), ?_, ?_⟩
    · rw [hAB, List.flatMap_append, List.flatMap_cons]
      unfold completion_events crc32_events
      simp [ht]
    · rw [← mem_callback_slots, callback_slots_flatMap]
      exact fun hm => hiA (List.mem_of_mem_filter hm)
  · intro hcb
    have hk : i ∈ (cleanup_completed k s).filter (has_callback s.slots) :=
      List.mem_filter.mpr ⟨hcompl i hi hni, hcb⟩
    rw [← hidx] at hk
    obtain ⟨v, hv, hvi⟩ := List.mem_map.mp hk
    exact ⟨v, hv, hvi⟩
  · intro hdist
    rw [hm]
    exact walk_mem_delivers s.slots i ht _ _ (hcompl i hi hni)
      (fun j hj hji => hdist j (hback j hj).1 (hback j hj).2 hji)

/-- Witness for C9 on `chan_crc32`: the pass takes checksum slot `0` out of the
chain, leaves the complement of `0x12345678` at location `512`, logs the write
in front of the callback, and the callback of slot `0` finds the complement at
location `512`. -/
theorem crc32_result_delivery_witness :
    (all_slots chan_crc32).Nodup ∧
    (__mv_xor_slot_cleanup sample_h chan_crc32).map (fun s' => (s'.chain, s'.events, s'.mem 512,
        s'.callback_views.map fun v => (v.idx, v.mem 512))) =
      some ([], [mv_xor_event.crc32_write 0 512 3989547399, mv_xor_event.callback 0,
        mv_xor_event.run_dependencies 0], 3989547399, [(0, 3989547399)]) ∧
    (∃ s', __mv_xor_slot_cleanup sample_h chan_crc32 = some s' ∧
      s'.mem = walk_mem chan_crc32.slots chan_crc32.mem (cleanup_completed sample_h chan_crc32)) ∧
    (∀ x, u32_not x < 2 ^ 32 ∧ ∀ b, b < 32 → (u32_not x).testBit b = !(x.testBit b)) ∧
    (mv_xor_prep_dma_crc32c sample_h chan_crc32 8192 4096 512 0).2.mem = chan_crc32.mem := by
  refine ⟨by decide, by decide, ?_, (crc32_result_delivery sample_h chan_crc32 (by decide)).1,
    ((crc32_result_delivery sample_h chan_crc32 (by decide)).2.2.2 8192 4096 512 0).1⟩
  have hs : (__mv_xor_slot_cleanup sample_h chan_crc32).isSome = true := by decide
  obtain ⟨s', hs'⟩ := Option.isSome_iff_exists.mp hs
  exact ⟨s', hs', ((crc32_result_delivery sample_h chan_crc32 (by decide)).2.2.1 s' hs').1⟩

/-! ## C7: the completed cookie -/

theorem cookie_order_on_congr {c c' : Nat → Int} {chain : List Nat} {a b : Int}
    (h : ∀ i ∈ chain, c' i = c i) (ho : cookie_order_on c chain a b) :
    cookie_order_on c' chain a b := by
  obtain ⟨h1, h2, h3⟩ := ho
  refine ⟨?_, fun i hi => ?_, h3⟩
  · refine List.Pairwise.imp_of_mem ?_ h1
    intro x y hx hy hxy
    rw [h x hx, h y hy]
    exact hxy
  · rw [h i hi]
    exact h2 i hi

theorem filter_append_filter_not_of_in_order (p : Nat → Bool) :
    ∀ l : List Nat, ((l.dropWhile p).all fun i => !p i) = true →
      l.filter p ++ l.filter (fun i => !p i) = l := by
  intro l
  induction l with
  | nil => intro _; rfl
  | cons a r ih =>
    intro h
    cases hp : p a
    · simp only [List.dropWhile_cons, hp] at h
      have hall : ∀ x ∈ a :: r, p x = false := by
        intro x hx
        have := List.all_eq_true.mp h x hx
        simpa using this
      have e1 : (a :: r).filter p = [] := by
        rw [List.filter_eq_nil_iff]
        intro x hx
        simp [hall x hx]
      have e2 : (a :: r).filter (fun i => !p i) = a :: r := by
        rw [List.filter_eq_self]
        intro x hx
        simp [hall x hx]
      rw [e1, e2]
      rfl
    · simp only [List.dropWhile_cons, hp, if_true] at h
      simp [List.filter_cons, hp, ih h]

theorem in_order_of_append (p : Nat → Bool) :
    ∀ v d : List Nat, (((v ++ d).dropWhile p).all fun i => !p i) = true →
      ((v.dropWhile p).all fun i => !p i) = true := by
  intro v
  induction v with
  | nil => intro _ _; rfl
  | cons a r ih =>
    intro d h
    cases hp : p a
    · simp only [List.cons_append, List.dropWhile_cons, hp] at h ⊢
      rw [List.all_eq_true] at h ⊢
      intro x hx
      exact h x (by
        rcases List.mem_cons.mp hx with hx | hx
        · simp [hx]
        · simp [hx])
    · simp only [List.cons_append, List.dropWhile_cons, hp, if_true] at h ⊢
      exact ih d h

theorem chain_split_of_in_order (k : mv_xor_h) (s s' : mv_xor_chan) (hnd : (all_slots s).Nodup)
    (h : __mv_xor_slot_cleanup k s = some s') (hio : chain_in_order k s = true) :
    cleanup_completed k s ++ s'.chain = s.chain := by
  have hch := (slot_cleanup_spec k s s' hnd h).2.2.2.2.2.2.1
  have hsplit := walk_visited_append_drop s.slots (mv_chan_get_current_desc s) s.chain
  unfold chain_in_order at hio
  have hv : (((cleanup_visited s).dropWhile (slot_success k s.slots)).all
      fun i => !slot_success k s.slots i) = true := by
    apply in_order_of_append _ _ (s.chain.drop (cleanup_visited s).length)
    unfold cleanup_visited
    rw [hsplit]
    exact hio
  have hf := filter_append_filter_not_of_in_order _ _ hv
  rw [hch, ← List.append_assoc]
  unfold cleanup_completed
  rw [hf]
  exact hsplit

theorem walk_cookie_cases (slots : Nat → mv_xor_desc_slot) :
    ∀ (l : List Nat) (c : Int), walk_cookie slots c l = c ∨
      ∃ i ∈ l, walk_cookie slots c l = (slots i).async_tx.cookie := by
  intro l
  induction l with
  | nil => intro c; exact Or.inl rfl
  | cons a r ih =>
    intro c
    unfold walk_cookie
    rw [List.foldl_cons]
    have h := ih (if (slots a).async_tx.cookie > 0 then (slots a).async_tx.cookie else c)
    unfold walk_cookie at h
    rcases h with h | ⟨i, hi, h⟩
    · rw [h]
      split
      · exact Or.inr ⟨a, List.mem_cons_self _ _, rfl⟩
      · exact Or.inl rfl
    · exact Or.inr ⟨i, List.mem_cons_of_mem _ hi, h⟩

theorem completed_cookie_after_cleanup (k : mv_xor_h) (s s' : mv_xor_chan)
    (hnd : (all_slots s).Nodup) (h : __mv_xor_slot_cleanup k s = some s') :
    s'.completed_cookie = s.completed_cookie ∨
      ∃ i ∈ cleanup_completed k s, s'.completed_cookie = (s.slots i).async_tx.cookie := by
  have hcc := (slot_cleanup_spec k s s' hnd h).2.2.2.2.2.2.2.2
  rw [hcc]
  split
  · rcases walk_cookie_cases s.slots (cleanup_completed k s) 0 with h0 | h0
    · rename_i hpos
      rw [h0] at hpos
      exact absurd hpos (by decide)
    · exact Or.inr h0
  · exact Or.inl rfl

theorem cleanup_completed_cookie_le (k : mv_xor_h) (s s' : mv_xor_chan)
    (hnd : (all_slots s).Nodup) (ho : cookie_order s) (h : __mv_xor_slot_cleanup k s = some s') :
    s.completed_cookie ≤ s'.completed_cookie := by
  rcases completed_cookie_after_cleanup k s s' hnd h with h0 | ⟨i, hi, h0⟩
  · rw [h0]
  · rw [h0]
    exact le_of_lt (ho.2.1 i ((cleanup_completed_sublist k s).subset hi)).1

theorem cookie_order_slot_cleanup (k : mv_xor_h) (s s' : mv_xor_chan)
    (hnd : (all_slots s).Nodup) (ho : cookie_order s) (h : __mv_xor_slot_cleanup k s = some s')
    (hio : chain_in_order k s = true) : cookie_order s' := by
  obtain ⟨hsl, _, _, hck, _⟩ := slot_cleanup_spec k s s' hnd h
  have hsplit := chain_split_of_in_order k s s' hnd h hio
  obtain ⟨h1, h2, h3⟩ := ho
  rw [← hsplit] at h1 h2
  rw [List.pairwise_append] at h1
  obtain ⟨_, hp, hcross⟩ := h1
  unfold cookie_order cookie_order_on
  rw [hsl, hck]
  rcases completed_cookie_after_cleanup k s s' hnd h with h0 | ⟨i, hi, h0⟩
  · rw [h0]
    exact ⟨hp, fun j hj => h2 j (List.mem_append_right _ hj), h3⟩
  · rw [h0]
    refine ⟨hp, fun j hj => ⟨hcross i hi j hj, (h2 j (List.mem_append_right _ hj)).2⟩, ?_⟩
    exact (h2 i (List.mem_append_left _ hi)).2

theorem cookie_order_alloc_slot (k : mv_xor_h) (s : mv_xor_chan) (hnd : (all_slots s).Nodup)
    (ho : cookie_order s) : cookie_order (mv_xor_alloc_slot k s).2 := by
  unfold mv_xor_alloc_slot
  split
  · rename_i iter rest hf
    have hnd' := hnd
    unfold all_slots at hnd'
    rw [hf] at hnd'
    simp only [List.nodup_append, List.nodup_cons, List.Disjoint, List.mem_append,
      List.mem_cons] at hnd'
    obtain ⟨⟨_, _, h2⟩, _, _⟩ := hnd'
    have hc : iter ∉ s.chain := fun h => h2 (Or.inl (Or.inl rfl)) h
    unfold cookie_order
    have e : (set_slot iter
        { (list_move_tail iter list_head.allocated_slots s).slots iter with
          async_tx :=
            { (async_tx_ack k ((list_move_tail iter list_head.allocated_slots s).slots
                iter).async_tx) with cookie := -EBUSY } }
        (list_move_tail iter list_head.allocated_slots s)).chain = s.chain := by
      simp [set_slot, list_move_tail, list_add_tail, list_del, List.erase_of_not_mem hc]
    dsimp only
    rw [e]
    refine cookie_order_on_congr (fun i hi => ?_) ho
    have hne : i ≠ iter := fun h => hc (h ▸ hi)
    simp [set_slot, list_move_tail, list_add_tail, list_del, Function.update, hne]
  · exact ho

theorem cookie_order_tx_submit (k : mv_xor_h) (s : mv_xor_chan) (tx : Nat)
    (r : Int × mv_xor_chan) (hnd : (all_slots s).Nodup) (ho : cookie_order s)
    (htx : tx ∈ s.allocated_slots) (hnw : s.cookie < 2 ^ 31 - 1)
    (hr : mv_xor_tx_submit k s tx = some r) : cookie_order r.2 := by
  obtain ⟨e1, e2, e3, _, e5, _, _, _, _, e10⟩ := tx_submit_fields k s tx r hr
  obtain ⟨hnc, _, _, _⟩ := not_mem_chain_of_mem_allocated hnd htx
  have hgt := dma_cookie_next_gt s.cookie hnw
  obtain ⟨h1, h2, h3⟩ := ho
  unfold cookie_order cookie_order_on
  rw [e5, List.erase_of_not_mem hnc, e10, e2, e1]
  beta_reduce at h1 h2 ⊢
  have hold : ∀ i ∈ s.chain, (r.2.slots i).async_tx.cookie = (s.slots i).async_tx.cookie := by
    intro i hi
    have hne : i ≠ tx := fun h => hnc (h ▸ hi)
    rw [e3 i, if_neg hne]
  have hnew : (r.2.slots tx).async_tx.cookie = dma_cookie_next s.cookie := by
    rw [e3 tx, if_pos rfl, e1]
  refine ⟨?_, ?_, by omega⟩
  · rw [List.pairwise_append]
    refine ⟨?_, List.pairwise_singleton _ _, ?_⟩
    · refine List.Pairwise.imp_of_mem ?_ h1
      intro x y hx hy hxy
      rw [hold x hx, hold y hy]
      exact hxy
    · intro i hi j hj
      rw [List.mem_singleton] at hj
      subst hj
      rw [hold i hi, hnew]
      have := (h2 i hi).2
      omega
  · intro i hi
    rw [List.mem_append, List.mem_singleton] at hi
    rcases hi with hi | hi
    · rw [hold i hi]
      have := h2 i hi
      omega
    · subst hi
      rw [hnew]
      omega

theorem run_in_order_cons (k : mv_xor_h) (op : driver_op) (ops : List driver_op)
    (s s1 : mv_xor_chan) (h : driver_step k op s = some s1)
    (hio : run_in_order k (op :: ops) s = true) :
    run_in_order k [op] s = true ∧ run_in_order k ops s1 = true := by
  simp only [run_in_order, h, Bool.and_eq_true] at hio ⊢
  exact ⟨⟨hio.1, trivial⟩, hio.2⟩

theorem cookie_order_driver_step (k : mv_xor_h) (op : driver_op) (s s1 : mv_xor_chan)
    (hnd : (all_slots s).Nodup) (ho : cookie_order s) (h : driver_step k op s = some s1)
    (hnw : run_no_wrap k [op] s = true) (hio : run_in_order k [op] s = true) :
    cookie_order s1 := by
  cases op with
  | alloc_slot =>
    simp only [driver_step, Option.some.injEq] at h
    subst h
    exact cookie_order_alloc_slot k s hnd ho
  | tx_submit tx =>
    simp only [run_no_wrap, Bool.and_eq_true, decide_eq_true_eq] at hnw
    simp only [driver_step] at h
    split at h
    · rename_i htx
      rw [Option.map_eq_some'] at h
      obtain ⟨r, hr, rfl⟩ := h
      exact cookie_order_tx_submit k s tx r hnd ho htx hnw.1 hr
    · cases h
  | slot_cleanup =>
    simp only [run_in_order, Bool.and_eq_true] at hio
    exact cookie_order_slot_cleanup k s s1 hnd ho h hio.1
  | device st crc cur act =>
    simp only [driver_step, Option.some.injEq] at h
    subst h
    exact ho
  | client tx fl cb pa =>
    simp only [driver_step, Option.some.injEq] at h
    subst h
    unfold cookie_order
    refine cookie_order_on_congr (fun i _ => ?_) ho
    by_cases hi : i = tx
    · subst hi
      simp [client_update, set_slot]
    · simp [client_update, set_slot, Function.update, hi]

theorem cookie_order_driver_run (k : mv_xor_h) :
    ∀ (ops : List driver_op) (s s' : mv_xor_chan), (all_slots s).Nodup → cookie_order s →
      driver_run k ops s = some s' → run_no_wrap k ops s = true →
      run_in_order k ops s = true → (all_slots s').Nodup ∧ cookie_order s' := by
  intro ops
  induction ops with
  | nil =>
    intro s s' hnd ho h _ _
    simp only [driver_run, Option.some.injEq] at h
    subst h
    exact ⟨hnd, ho⟩
  | cons op ops ih =>
    intro s s' hnd ho h hnw hio
    rw [driver_run] at h
    cases hs : driver_step k op s with
    | none => simp [hs] at h
    | some s1 =>
      simp only [hs] at h
      obtain ⟨n1, n2⟩ := run_no_wrap_cons k op ops s s1 hs hnw
      obtain ⟨i1, i2⟩ := run_in_order_cons k op ops s s1 hs hio
      exact ih s1 s' (nodup_driver_step k op s s1 hnd hs)
        (cookie_order_driver_step k op s s1 hnd ho hs n1 i1) h n2 i2

/-- C7 (amended). The completed cookie only advances on runs without a wrap of
the cookie counter in which the device completes in chain order. Let `s` be
reached from a channel with an empty chain, lists that share no slot and a
completed cookie not above the cookie counter, by a run of allocations,
submissions of allocated slots, cleanup passes and device and client writes, in
which no submission wraps the counter and every cleanup pass finds the
successful slots as a prefix of the chain. Then a cleanup pass on `s`, whatever
status words and current-descriptor snapshot it sees, leaves the completed
cookie greater than or equal to its value before the pass. -/
theorem completed_cookie_monotone (k : mv_xor_h) (ops : List driver_op) (s0 s s' : mv_xor_chan)
    (hnd : (all_slots s0).Nodup) (hchain : s0.chain = [])
    (hck : s0.completed_cookie ≤ s0.cookie)
    (hrun : driver_run k ops s0 = some s) (hnw : run_no_wrap k ops s0 = true)
    (hio : run_in_order k ops s0 = true)
    (hc : __mv_xor_slot_cleanup k s = some s') :
    s.completed_cookie ≤ s'.completed_cookie := by
  have ho : cookie_order s0 := by
    unfold cookie_order cookie_order_on
    rw [hchain]
    exact ⟨List.Pairwise.nil, fun i hi => absurd hi (List.not_mem_nil i), hck⟩
  obtain ⟨hnd', ho'⟩ := cookie_order_driver_run k ops s0 s hnd ho hrun hnw hio
  exact cleanup_completed_cookie_le k s s' hnd' ho' hc

/-- Counterexample to C7 as stated. From the initialised `example_chan` the run
`run_out_of_order` (two submissions, the device marks the second slot
successful first, a cleanup pass, then the device marks the first slot
successful) reaches a channel with completed cookie `3` on which a cleanup pass
sets the completed cookie back to `2`. -/
theorem completed_cookie_moves_back :
    ((driver_run sample_h run_out_of_order example_chan).bind fun s =>
      (__mv_xor_slot_cleanup sample_h s).map fun s' =>
        (s.completed_cookie, s'.completed_cookie)) = some (3, 2) := by
  decide

/-- Witness for C7 (amended): after `run_in_chain_order` from `example_chan` the
completed cookie is `2` and the next cleanup pass raises it to `3`. -/
theorem completed_cookie_monotone_witness :
    (all_slots example_chan).Nodup ∧ example_chan.chain = [] ∧
    example_chan.completed_cookie ≤ example_chan.cookie ∧
    driver_run sample_h run_in_chain_order example_chan = some chan_after_run_in_chain_order ∧
    run_no_wrap sample_h run_in_chain_order example_chan = true ∧
    run_in_order sample_h run_in_chain_order example_chan = true ∧
    ∃ s', __mv_xor_slot_cleanup sample_h chan_after_run_in_chain_order = some s' ∧
      chan_after_run_in_chain_order.completed_cookie = 2 ∧ s'.completed_cookie = 3 ∧
      chan_after_run_in_chain_order.completed_cookie ≤ s'.completed_cookie := by
  have hl : (__mv_xor_slot_cleanup sample_h chan_after_run_in_chain_order).map
      (fun s' => s'.completed_cookie) = some 3 := by decide
  rw [Option.map_eq_some'] at hl
  obtain ⟨s', hs', hl⟩ := hl
  exact ⟨by decide, rfl, by decide, rfl, by decide, by decide, s', hs', by decide, hl,
    completed_cookie_monotone sample_h run_in_chain_order example_chan
      chan_after_run_in_chain_order s' (by decide) rfl (by decide) rfl (by decide) (by decide)
      hs'⟩

/-! ## The cleanup pass returns when no assertion fails -/

theorem unmap_desc_returns (s : mv_xor_chan) (i : Nat)
    (h : (s.slots i).unmap_len ≠ 0 → (s.slots i).type ≠ dma_transaction_type.DMA_INTERRUPT) :
    ∃ s1, mv_xor_unmap_desc s i = some s1 := by
  unfold mv_xor_unmap_desc
  split
  · rename_i hlen
    have hty := h hlen
    split
    · exact ⟨_, rfl⟩
    · exact ⟨_, rfl⟩
    · exact ⟨_, rfl⟩
    · exact ⟨_, rfl⟩
    · rename_i hty'
      exact absurd hty' hty
  · exact ⟨_, rfl⟩

theorem run_tx_complete_actions_returns (s : mv_xor_chan) (i : Nat) (c : Int)
    (h1 : 0 ≤ (s.slots i).async_tx.cookie)
    (h3 : (s.slots i).async_tx.cookie > 0 → (s.slots i).unmap_len ≠ 0 →
      (s.slots i).type ≠ dma_transaction_type.DMA_INTERRUPT) :
    ∃ p, mv_xor_run_tx_complete_actions s i c = some p := by
  unfold mv_xor_run_tx_complete_actions
  dsimp only
  rw [if_neg (not_lt.mpr h1)]
  by_cases hpos : (s.slots i).async_tx.cookie > 0
  · rw [if_pos hpos]
    by_cases hcb : (s.slots i).async_tx.callback ≠ 0
    · rw [if_pos hcb]
      obtain ⟨s2, hs2⟩ := unmap_desc_returns
        { s with
          events := s.events ++ [mv_xor_event.callback i]
          callback_views := s.callback_views ++ [⟨i, s.lock_held, s.mem⟩] } i (h3 hpos)
      rw [hs2]
      exact ⟨_, rfl⟩
    · rw [if_neg hcb]
      obtain ⟨s2, hs2⟩ := unmap_desc_returns s i (h3 hpos)
      rw [hs2]
      exact ⟨_, rfl⟩
  · rw [if_neg hpos]
    exact ⟨_, rfl⟩

theorem cleanup_chain_loop_returns (k : mv_xor_h) (cur : Nat) :
    ∀ (l : List Nat) (s : mv_xor_chan) (c : Int),
      (∀ i ∈ l, slot_passes_assertions (s.slots i)) →
      ∃ r, cleanup_chain_loop k cur l s c = some r := by
  intro l
  induction l with
  | nil =>
    intro s c _
    exact ⟨_, rfl⟩
  | cons i rest ih =>
    intro s c hsafe
    obtain ⟨h1, h2, h3⟩ := hsafe i (List.mem_cons_self _ _)
    have hrest : ∀ j ∈ rest, slot_passes_assertions (s.slots j) :=
      fun j hj => hsafe j (List.mem_cons_of_mem _ hj)
    rw [cleanup_chain_loop]
    split
    · have hw : ∃ s1, crc32_write_back s i = some s1 := by
        unfold crc32_write_back
        split
        · rename_i ht
          rw [if_neg (h2 ht)]
          exact ⟨_, rfl⟩
        · exact ⟨_, rfl⟩
      obtain ⟨s1, hs1⟩ := hw
      have e1 := crc32_write_back_spec hs1
      have hsl1 : s1.slots = s.slots := by rw [e1]
      have hr : ∃ p, mv_xor_run_tx_complete_actions s1 i c = some p :=
        run_tx_complete_actions_returns s1 i c (by rw [hsl1]; exact h1) (by rw [hsl1]; exact h3)
      obtain ⟨⟨c2, s2⟩, hs2⟩ := hr
      have e2 := (run_tx_complete_actions_spec hs2).1
      have hsl2 : s2.slots = s.slots := by rw [e2, hsl1]
      have f3 : lists_frame s2 (mv_xor_clean_slot k s2 i) := by
        unfold mv_xor_clean_slot
        split <;> exact list_move_tail_frame _ _ _
      have hsl3 : (mv_xor_clean_slot k s2 i).slots = s.slots := by
        unfold lists_frame at f3
        rw [f3]
        exact hsl2
      simp only [hs1, hs2]
      split
      · exact ⟨_, rfl⟩
      · exact ih _ _ (fun j hj => by rw [hsl3]; exact hrest j hj)
    · split
      · exact ⟨_, rfl⟩
      · exact ih s c hrest

/-- On a channel whose lists share no slot and whose chained slots pass the
assertions, the cleanup pass returns. -/
theorem slot_cleanup_returns (k : mv_xor_h) (s : mv_xor_chan) (hnd : (all_slots s).Nodup)
    (hsafe : ∀ i ∈ s.chain, slot_passes_assertions (s.slots i)) :
    ∃ s', __mv_xor_slot_cleanup k s = some s' := by
  unfold __mv_xor_slot_cleanup
  dsimp only
  have e1 := clean_completed_slots_spec k s hnd
  have hsl : (mv_xor_clean_completed_slots k s).slots = s.slots := by rw [e1]
  have hch : (mv_xor_clean_completed_slots k s).chain = s.chain := by rw [e1]
  obtain ⟨r, hr⟩ := cleanup_chain_loop_returns k (mv_chan_get_current_desc s)
    (mv_xor_clean_completed_slots k s).chain (mv_xor_clean_completed_slots k s) 0
    (fun i hi => by rw [hsl]; exact hsafe i (hch ▸ hi))
  rw [hr]
  exact ⟨_, rfl⟩

/-! ## C11: the freshly allocated slot -/

theorem lor_land_self (f m : Nat) : (f ||| m) &&& m = m := by
  apply Nat.eq_of_testBit_eq
  intro i
  rw [Nat.testBit_and, Nat.testBit_or]
  cases f.testBit i <;> cases m.testBit i <;> rfl

theorem alloc_slot_cons (k : mv_xor_h) (s : mv_xor_chan) (i : Nat) (rest : List Nat)
    (hf : s.free_slots = i :: rest) :
    mv_xor_alloc_slot k s =
      (some i,
        set_slot i
          { s.slots i with
            async_tx := { async_tx_ack k (s.slots i).async_tx with cookie := -EBUSY } }
          (list_move_tail i list_head.allocated_slots s)) := by
  unfold mv_xor_alloc_slot
  split
  · rename_i iter rest' hf'
    rw [hf] at hf'
    cases hf'
    rfl
  · rename_i hf'
    rw [hf] at hf'
    cases hf'

theorem alloc_slot_nil (k : mv_xor_h) (s : mv_xor_chan) (hf : s.free_slots = []) :
    mv_xor_alloc_slot k s = (none, tasklet_schedule s) := by
  unfold mv_xor_alloc_slot
  split
  · rename_i iter rest' hf'
    rw [hf] at hf'
    cases hf'
  · rfl

/-- Counterexample to C11 as stated. The slot that `mv_xor_alloc_slot` returns on
`example_chan` (slot `0`) has its acknowledgement flag set, not cleared. -/
theorem alloc_slot_returns_acked_slot :
    example_chan.free_slots ≠ [] ∧
    (mv_xor_alloc_slot sample_h example_chan).1 = some 0 ∧
    async_tx_test_ack sample_h ((mv_xor_alloc_slot sample_h example_chan).2.slots 0).async_tx =
      true := by
  decide

/-- C11 (amended). State of a freshly allocated slot: for every channel with a
non-empty `free_slots`, the slot that `mv_xor_alloc_slot` returns is
pre-acknowledged (its acknowledgement flag is set, whatever its flags were) and
carries no assigned cookie: its cookie is `-EBUSY`, which is not a valid
positive cookie. -/
theorem alloc_slot_fresh (k : mv_xor_h) (s : mv_xor_chan) (i : Nat) (rest : List Nat)
    (hf : s.free_slots = i :: rest) :
    (mv_xor_alloc_slot k s).1 = some i ∧
    async_tx_test_ack k ((mv_xor_alloc_slot k s).2.slots i).async_tx = true ∧
    ((mv_xor_alloc_slot k s).2.slots i).async_tx.cookie = -EBUSY ∧
    ¬ ((mv_xor_alloc_slot k s).2.slots i).async_tx.cookie > 0 := by
  rw [alloc_slot_cons k s i rest hf]
  refine ⟨rfl, ?_, ?_, ?_⟩
  · simp [set_slot, async_tx_test_ack, async_tx_ack, lor_land_self]
  · simp [set_slot]
  · simp [set_slot, EBUSY]

/-- Witness for C11 (amended) on `example_chan`, whose first free slot is slot `0`. -/
theorem alloc_slot_fresh_witness :
    example_chan.free_slots = 0 :: [1, 2, 3] ∧
    async_tx_test_ack sample_h ((mv_xor_alloc_slot sample_h example_chan).2.slots 0).async_tx =
      true ∧
    ((mv_xor_alloc_slot sample_h example_chan).2.slots 0).async_tx.cookie = -EBUSY :=
  ⟨rfl, (alloc_slot_fresh sample_h example_chan 0 [1, 2, 3] rfl).2.1,
    (alloc_slot_fresh sample_h example_chan 0 [1, 2, 3] rfl).2.2.1⟩

/-! ## C17 and C20: the doorbell -/

/-- The test of `mv_xor_issue_pending` for any value of `MV_XOR_THRESHOLD`: a
pending counter that has reached the threshold is reset to zero with one write
of the doorbell, and below the threshold nothing happens. -/
theorem issue_pending_at_threshold (k : mv_xor_h) (s : mv_xor_chan) :
    (s.pending ≥ k.MV_XOR_THRESHOLD →
      mv_xor_issue_pending k s =
        { s with pending := 0, activate_count := s.activate_count + 1 }) ∧
    (s.pending < k.MV_XOR_THRESHOLD → mv_xor_issue_pending k s = s) := by
  constructor
  · intro h
    unfold mv_xor_issue_pending mv_chan_activate
    rw [if_pos h]
  · intro h
    unfold mv_xor_issue_pending
    rw [if_neg (Nat.not_le.mpr h)]

/-- C17. `mv_xor_issue_pending` flushes immediately, for the threshold
`MV_XOR_THRESHOLD` of one: for every channel whose pending counter is greater
than zero it writes the activation doorbell once and resets the pending
counter to zero, changing nothing else; when the pending counter is zero it
does nothing. -/
theorem issue_pending_threshold (k : mv_xor_h) (s : mv_xor_chan)
    (hk : k.MV_XOR_THRESHOLD = 1) :
    (s.pending > 0 →
      mv_xor_issue_pending k s =
        { s with pending := 0, activate_count := s.activate_count + 1 }) ∧
    (s.pending = 0 → mv_xor_issue_pending k s = s) :=
  ⟨fun h => (issue_pending_at_threshold k s).1 (by omega),
    fun h => (issue_pending_at_threshold k s).2 (by omega)⟩

/-- Witness for C17 with the threshold of `sample_h`, which is one: on
`chan_one_pending` the doorbell is written and the counter reset, on
`example_chan`, whose counter is zero, nothing happens. -/
theorem issue_pending_threshold_witness :
    sample_h.MV_XOR_THRESHOLD = 1 ∧ chan_one_pending.pending > 0 ∧
    mv_xor_issue_pending sample_h chan_one_pending =
      { chan_one_pending with
        pending := 0, activate_count := chan_one_pending.activate_count + 1 } ∧
    example_chan.pending = 0 ∧
    mv_xor_issue_pending sample_h example_chan = example_chan :=
  ⟨rfl, by decide, (issue_pending_threshold sample_h chan_one_pending rfl).1 (by decide), rfl,
    (issue_pending_threshold sample_h example_chan rfl).2 rfl⟩

/-- Only a threshold of one makes `mv_xor_issue_pending` flush every positive
pending counter and leave a zero counter alone: with a threshold of zero it
writes the doorbell on a zero counter, and with a larger threshold it leaves a
counter of one pending. -/
theorem issue_pending_flushes_iff (k : mv_xor_h) :
    (∀ s : mv_xor_chan,
      (s.pending > 0 →
        mv_xor_issue_pending k s =
          { s with pending := 0, activate_count := s.activate_count + 1 }) ∧
      (s.pending = 0 → mv_xor_issue_pending k s = s)) ↔ k.MV_XOR_THRESHOLD = 1 := by
  constructor
  · intro h
    have h0 := (h example_chan).2 rfl
    have h1 := (h chan_one_pending).1 (by decide)
    by_contra hk
    rcases Nat.lt_or_gt_of_ne hk with hlt | hgt
    · have hz : example_chan.pending ≥ k.MV_XOR_THRESHOLD := by omega
      rw [(issue_pending_at_threshold k example_chan).1 hz] at h0
      have := congrArg mv_xor_chan.activate_count h0
      simp [example_chan] at this
    · have hz : chan_one_pending.pending < k.MV_XOR_THRESHOLD := hgt
      rw [(issue_pending_at_threshold k chan_one_pending).2 hz] at h1
      have := congrArg mv_xor_chan.pending h1
      simp [chan_one_pending] at this
  · intro hk s
    exact ⟨fun h => (issue_pending_at_threshold k s).1 (by omega),
      fun h => (issue_pending_at_threshold k s).2 (by omega)⟩

/-- A first submission, onto a channel without a pending activation, starts the
device by itself, as `mv_xor_crc32_self_test` of the source expects of it (it
submits one descriptor and never calls `mv_xor_issue_pending`), exactly when
the threshold is at most one. -/
theorem start_new_chain_activates_iff (k : mv_xor_h) (s : mv_xor_chan) (i : Nat)
    (hp : s.pending = 0) :
    (mv_xor_start_new_chain k s i).activate_count = s.activate_count + 1 ↔
      k.MV_XOR_THRESHOLD ≤ 1 := by
  unfold mv_xor_start_new_chain mv_xor_issue_pending mv_chan_activate
    mv_chan_set_next_descriptor
  dsimp only
  rw [hp]
  constructor
  · intro h
    by_contra hk
    rw [if_neg (by simpa using hk)] at h
    simp at h
  · intro hk
    rw [if_pos (by simpa using hk)]

/-- C20. Arming and doorbell coalescing: for every channel and slot,
`mv_xor_start_new_chain` sets the next-descriptor register to the physical
address of the slot and increments the pending counter (an `unsigned int`) by
one; if the incremented counter has reached `MV_XOR_THRESHOLD` the counter is
reset to zero and the doorbell is written exactly once, otherwise no doorbell
is written and the counter keeps its incremented value. The four slot
sequences and the descriptors are unchanged, and so is everything else but the
register, the counter and the doorbell count. -/
theorem start_new_chain_coalescing (k : mv_xor_h) (s : mv_xor_chan) (i : Nat) :
    (mv_xor_start_new_chain k s i).xor_next_desc = (s.slots i).async_tx.phys ∧
    ((s.pending + 1) % 2 ^ 32 ≥ k.MV_XOR_THRESHOLD →
      (mv_xor_start_new_chain k s i).pending = 0 ∧
      (mv_xor_start_new_chain k s i).activate_count = s.activate_count + 1) ∧
    ((s.pending + 1) % 2 ^ 32 < k.MV_XOR_THRESHOLD →
      (mv_xor_start_new_chain k s i).pending = (s.pending + 1) % 2 ^ 32 ∧
      (mv_xor_start_new_chain k s i).activate_count = s.activate_count) ∧
    (mv_xor_start_new_chain k s i).slots = s.slots ∧
    (mv_xor_start_new_chain k s i).free_slots = s.free_slots ∧
    (mv_xor_start_new_chain k s i).allocated_slots = s.allocated_slots ∧
    (mv_xor_start_new_chain k s i).chain = s.chain ∧
    (mv_xor_start_new_chain k s i).completed_slots = s.completed_slots ∧
    mv_xor_start_new_chain k s i =
      { s with
        xor_next_desc := (mv_xor_start_new_chain k s i).xor_next_desc
        pending := (mv_xor_start_new_chain k s i).pending
        activate_count := (mv_xor_start_new_chain k s i).activate_count } := by
  have ha := (start_new_chain_armed k s i).1
  unfold armed_for at ha
  obtain ⟨ha1, ha2⟩ := ha
  refine ⟨ha1, ?_, ?_, ?_, ?_, ?_, ?_, ?_, ?_⟩
  · intro h
    rw [if_pos h] at ha2
    exact ha2
  · intro h
    rw [if_neg (Nat.not_le.mpr h)] at ha2
    exact ha2
  all_goals
    unfold mv_xor_start_new_chain mv_xor_issue_pending mv_chan_activate
      mv_chan_set_next_descriptor
    dsimp only
    split <;> rfl

/-- Witness for C20 on `example_chan` and slot `0`, whose physical address is
`4096`: with the threshold of `sample_h` (one) the doorbell is written and the
counter is back at zero; with a threshold of four no doorbell is written and the
counter is one. -/
theorem start_new_chain_coalescing_witness :
    (mv_xor_start_new_chain sample_h example_chan 0).xor_next_desc = 4096 ∧
    (mv_xor_start_new_chain sample_h example_chan 0).pending = 0 ∧
    (mv_xor_start_new_chain sample_h example_chan 0).activate_count =
      example_chan.activate_count + 1 ∧
    (mv_xor_start_new_chain threshold_four_h example_chan 0).pending = 1 ∧
    (mv_xor_start_new_chain threshold_four_h example_chan 0).activate_count =
      example_chan.activate_count :=
  ⟨(start_new_chain_coalescing sample_h example_chan 0).1,
    ((start_new_chain_coalescing sample_h example_chan 0).2.1 (by decide)).1,
    ((start_new_chain_coalescing sample_h example_chan 0).2.1 (by decide)).2,
    ((start_new_chain_coalescing threshold_four_h example_chan 0).2.2.1 (by decide)).1,
    ((start_new_chain_coalescing threshold_four_h example_chan 0).2.2.1 (by decide)).2⟩

/-! ## C14 and C15: the checksum and copy builders -/

theorem set_slot_set_slot (i : Nat) (d d0 : mv_xor_desc_slot) (s : mv_xor_chan) :
    set_slot i d (set_slot i d0 s) = set_slot i d s := by
  simp [set_slot]

theorem desc_init_fields (k : mv_xor_h) (d : mv_xor_desc_slot) (flags : Nat) :
    (mv_desc_init k d flags).type = d.type ∧
    (mv_desc_init k d flags).async_tx = d.async_tx ∧
    (mv_desc_init k d flags).unmap_src_cnt = d.unmap_src_cnt ∧
    (mv_desc_init k d flags).unmap_len = d.unmap_len ∧
    (mv_desc_init k d flags).crc32_result = d.crc32_result ∧
    (mv_desc_init k d flags).hw_desc.phy_next_desc = 0 ∧
    (mv_desc_init k d flags).hw_desc.byte_count = d.hw_desc.byte_count ∧
    (mv_desc_init k d flags).hw_desc.phy_dest_addr = d.hw_desc.phy_dest_addr ∧
    (mv_desc_init k d flags).hw_desc.phy_q_dest_addr = d.hw_desc.phy_q_dest_addr ∧
    (mv_desc_init k d flags).hw_desc.status = 1 <<< 31 ∧
    (mv_desc_init k d flags).hw_desc.crc32_result = d.hw_desc.crc32_result ∧
    (mv_desc_init k d flags).hw_desc.phy_src_addr = d.hw_desc.phy_src_addr := by
  exact ⟨rfl, rfl, rfl, rfl, rfl, rfl, rfl, rfl, rfl, rfl, rfl, rfl⟩

theorem set_mode_fields (k : mv_xor_h) (d : mv_xor_desc_slot) :
    (mv_desc_set_mode k d).type = d.type ∧
    (mv_desc_set_mode k d).async_tx = d.async_tx ∧
    (mv_desc_set_mode k d).unmap_src_cnt = d.unmap_src_cnt ∧
    (mv_desc_set_mode k d).unmap_len = d.unmap_len ∧
    (mv_desc_set_mode k d).crc32_result = d.crc32_result ∧
    (mv_desc_set_mode k d).hw_desc.phy_next_desc = d.hw_desc.phy_next_desc ∧
    (mv_desc_set_mode k d).hw_desc.byte_count = d.hw_desc.byte_count ∧
    (mv_desc_set_mode k d).hw_desc.phy_dest_addr = d.hw_desc.phy_dest_addr ∧
    (mv_desc_set_mode k d).hw_desc.phy_q_dest_addr = d.hw_desc.phy_q_dest_addr ∧
    (mv_desc_set_mode k d).hw_desc.status = d.hw_desc.status ∧
    (mv_desc_set_mode k d).hw_desc.crc32_result = d.hw_desc.crc32_result ∧
    (mv_desc_set_mode k d).hw_desc.phy_src_addr = d.hw_desc.phy_src_addr := by
  unfold mv_desc_set_mode
  dsimp only
  split <;> exact ⟨rfl, rfl, rfl, rfl, rfl, rfl, rfl, rfl, rfl, rfl, rfl, rfl⟩

theorem set_byte_count_fields (d : mv_xor_desc_slot) (n : Nat) :
    (mv_desc_set_byte_count d n).type = d.type ∧
    (mv_desc_set_byte_count d n).async_tx = d.async_tx ∧
    (mv_desc_set_byte_count d n).unmap_src_cnt = d.unmap_src_cnt ∧
    (mv_desc_set_byte_count d n).unmap_len = d.unmap_len ∧
    (mv_desc_set_byte_count d n).crc32_result = d.crc32_result ∧
    (mv_desc_set_byte_count d n).hw_desc.phy_next_desc = d.hw_desc.phy_next_desc ∧
    (mv_desc_set_byte_count d n).hw_desc.byte_count = n ∧
    (mv_desc_set_byte_count d n).hw_desc.phy_dest_addr = d.hw_desc.phy_dest_addr ∧
    (mv_desc_set_byte_count d n).hw_desc.phy_q_dest_addr = d.hw_desc.phy_q_dest_addr ∧
    (mv_desc_set_byte_count d n).hw_desc.status = d.hw_desc.status ∧
    (mv_desc_set_byte_count d n).hw_desc.crc32_result = d.hw_desc.crc32_result ∧
    (mv_desc_set_byte_count d n).hw_desc.phy_src_addr = d.hw_desc.phy_src_addr := by
  exact ⟨rfl, rfl, rfl, rfl, rfl, rfl, rfl, rfl, rfl, rfl, rfl, rfl⟩

theorem set_dest_addr_fields (d : mv_xor_desc_slot) (addr : Nat) :
    (mv_desc_set_dest_addr d addr).type = d.type ∧
    (mv_desc_set_dest_addr d addr).async_tx = d.async_tx ∧
    (mv_desc_set_dest_addr d addr).unmap_src_cnt = d.unmap_src_cnt ∧
    (mv_desc_set_dest_addr d addr).unmap_len = d.unmap_len ∧
    (mv_desc_set_dest_addr d addr).crc32_result = d.crc32_result ∧
    (mv_desc_set_dest_addr d addr).hw_desc.phy_next_desc = d.hw_desc.phy_next_desc ∧
    (mv_desc_set_dest_addr d addr).hw_desc.byte_count = d.hw_desc.byte_count ∧
    (mv_desc_set_dest_addr d addr).hw_desc.phy_dest_addr = addr ∧
    (mv_desc_set_dest_addr d addr).hw_desc.phy_q_dest_addr = d.hw_desc.phy_q_dest_addr ∧
    (mv_desc_set_dest_addr d addr).hw_desc.status = d.hw_desc.status ∧
    (mv_desc_set_dest_addr d addr).hw_desc.crc32_result = d.hw_desc.crc32_result ∧
    (mv_desc_set_dest_addr d addr).hw_desc.phy_src_addr = d.hw_desc.phy_src_addr := by
  unfold mv_desc_set_dest_addr
  dsimp only
  split <;> exact ⟨rfl, rfl, rfl, rfl, rfl, rfl, rfl, rfl, rfl, rfl, rfl, rfl⟩

theorem set_q_dest_addr_fields (d : mv_xor_desc_slot) (addr : Nat) :
    (mv_desc_set_q_dest_addr d addr).type = d.type ∧
    (mv_desc_set_q_dest_addr d addr).async_tx = d.async_tx ∧
    (mv_desc_set_q_dest_addr d addr).unmap_src_cnt = d.unmap_src_cnt ∧
    (mv_desc_set_q_dest_addr d addr).unmap_len = d.unmap_len ∧
    (mv_desc_set_q_dest_addr d addr).crc32_result = d.crc32_result ∧
    (mv_desc_set_q_dest_addr d addr).hw_desc.phy_next_desc = d.hw_desc.phy_next_desc ∧
    (mv_desc_set_q_dest_addr d addr).hw_desc.byte_count = d.hw_desc.byte_count ∧
    (mv_desc_set_q_dest_addr d addr).hw_desc.phy_dest_addr = d.hw_desc.phy_dest_addr ∧
    (mv_desc_set_q_dest_addr d addr).hw_desc.phy_q_dest_addr = addr ∧
    (mv_desc_set_q_dest_addr d addr).hw_desc.status = d.hw_desc.status ∧
    (mv_desc_set_q_dest_addr d addr).hw_desc.crc32_result = d.hw_desc.crc32_result ∧
    (mv_desc_set_q_dest_addr d addr).hw_desc.phy_src_addr = d.hw_desc.phy_src_addr := by
  unfold mv_desc_set_q_dest_addr
  dsimp only
  split <;> exact ⟨rfl, rfl, rfl, rfl, rfl, rfl, rfl, rfl, rfl, rfl, rfl, rfl⟩

theorem set_src_addr_fields (k : mv_xor_h) (d : mv_xor_desc_slot) (index addr : Nat) :
    (mv_desc_set_src_addr k d index addr).type = d.type ∧
    (mv_desc_set_src_addr k d index addr).async_tx = d.async_tx ∧
    (mv_desc_set_src_addr k d index addr).unmap_src_cnt = d.unmap_src_cnt ∧
    (mv_desc_set_src_addr k d index addr).unmap_len = d.unmap_len ∧
    (mv_desc_set_src_addr k d index addr).crc32_result = d.crc32_result ∧
    (mv_desc_set_src_addr k d index addr).hw_desc.phy_next_desc = d.hw_desc.phy_next_desc ∧
    (mv_desc_set_src_addr k d index addr).hw_desc.byte_count = d.hw_desc.byte_count ∧
    (mv_desc_set_src_addr k d index addr).hw_desc.phy_dest_addr = d.hw_desc.phy_dest_addr ∧
    (mv_desc_set_src_addr k d index addr).hw_desc.phy_q_dest_addr = d.hw_desc.phy_q_dest_addr ∧
    (mv_desc_set_src_addr k d index addr).hw_desc.status = d.hw_desc.status ∧
    (mv_desc_set_src_addr k d index addr).hw_desc.crc32_result = d.hw_desc.crc32_result ∧
    (mv_desc_set_src_addr k d index addr).hw_desc.phy_src_addr = Function.update d.hw_desc.phy_src_addr (k.mv_phy_src_idx index) addr := by
  unfold mv_desc_set_src_addr
  dsimp only
  split <;> exact ⟨rfl, rfl, rfl, rfl, rfl, rfl, rfl, rfl, rfl, rfl, rfl, rfl⟩

/-- C14. Checksum builder acceptance, on a channel whose `free_slots` starts
with slot `i`. `mv_xor_prep_dma_crc32c` returns nothing exactly when the seed
word differs from `0xFFFFFFFF`, or the length is below `MV_XOR_MIN_BYTE_COUNT`
or above `XOR_MAX_BYTE_COUNT`; then the channel is unchanged: no slot leaves
`free_slots` and no descriptor field is written. Otherwise it returns slot `i`,
which has the checksum type, byte count `len`, its source at source index `0`,
unmap source count `1` and the seed location as its output location. -/
theorem prep_dma_crc32c_acceptance (k : mv_xor_h) (s : mv_xor_chan) (src len seed flags : Nat)
    (i : Nat) (rest : List Nat) (hf : s.free_slots = i :: rest) :
    ((mv_xor_prep_dma_crc32c k s src len seed flags).1 = none ↔
      (s.mem seed ≠ 2 ^ 32 - 1 ∨ len < k.MV_XOR_MIN_BYTE_COUNT ∨ len > k.XOR_MAX_BYTE_COUNT)) ∧
    ((mv_xor_prep_dma_crc32c k s src len seed flags).1 = none →
      (mv_xor_prep_dma_crc32c k s src len seed flags).2 = s) ∧
    ((mv_xor_prep_dma_crc32c k s src len seed flags).1 ≠ none →
      (mv_xor_prep_dma_crc32c k s src len seed flags).1 = some i ∧
      (mv_xor_prep_dma_crc32c k s src len seed flags).2.free_slots = rest ∧
      ((mv_xor_prep_dma_crc32c k s src len seed flags).2.slots i).type =
        dma_transaction_type.DMA_CRC32C ∧
      ((mv_xor_prep_dma_crc32c k s src len seed flags).2.slots i).hw_desc.byte_count = len ∧
      ((mv_xor_prep_dma_crc32c k s src len seed flags).2.slots i).hw_desc.phy_src_addr
        (k.mv_phy_src_idx 0) = src ∧
      ((mv_xor_prep_dma_crc32c k s src len seed flags).2.slots i).unmap_src_cnt = 1 ∧
      ((mv_xor_prep_dma_crc32c k s src len seed flags).2.slots i).crc32_result = seed) := by
  by_cases hrej : s.mem seed ≠ 2 ^ 32 - 1 ∨ len < k.MV_XOR_MIN_BYTE_COUNT ∨
      len > k.XOR_MAX_BYTE_COUNT
  · have e : mv_xor_prep_dma_crc32c k s src len seed flags = (none, s) := by
      unfold mv_xor_prep_dma_crc32c
      rw [if_pos hrej]
    rw [e]
    exact ⟨⟨fun _ => hrej, fun _ => rfl⟩, fun _ => rfl, fun h => absurd rfl h⟩
  · have e : ∃ d, mv_xor_prep_dma_crc32c k s src len seed flags =
          (some i, set_slot i d (list_move_tail i list_head.allocated_slots s)) ∧
        d.type = dma_transaction_type.DMA_CRC32C ∧ d.hw_desc.byte_count = len ∧
        d.hw_desc.phy_src_addr (k.mv_phy_src_idx 0) = src ∧ d.unmap_src_cnt = 1 ∧
        d.crc32_result = seed := by
      unfold mv_xor_prep_dma_crc32c
      rw [if_neg hrej, alloc_slot_cons k s i rest hf]
      dsimp only
      rw [set_slot_set_slot]
      refine ⟨_, rfl, ?_, ?_, ?_, ?_, ?_⟩
      · simp only [set_src_addr_fields, set_byte_count_fields]
        split
        · simp only [set_mode_fields, desc_init_fields]
        · simp only [desc_init_fields]
      · simp only [set_src_addr_fields, set_byte_count_fields]
      · simp only [set_src_addr_fields, Function.update_same]
      · rfl
      · rfl
    obtain ⟨d, e, h1, h2, h3, h4, h5⟩ := e
    rw [e]
    refine ⟨⟨fun h => (by simp at h), fun h => absurd h hrej⟩, fun h => (by simp at h),
      fun _ => ?_⟩
    refine ⟨rfl, ?_, ?_, ?_, ?_, ?_, ?_⟩
    · simp [set_slot, list_move_tail, list_add_tail, list_del, hf]
    all_goals simp [set_slot, h1, h2, h3, h4, h5]

/-- Witness for C14 on `chan_seeded`: a checksum over 256 bytes at `8192` with
the seed word at `512` is accepted into slot `0`, and the same request with the
seed word at `516` (which holds `0`) is rejected. -/
theorem prep_dma_crc32c_acceptance_witness :
    chan_seeded.free_slots = 0 :: [1, 2, 3] ∧
    (mv_xor_prep_dma_crc32c sample_h chan_seeded 8192 256 512 0).1 = some 0 ∧
    ((mv_xor_prep_dma_crc32c sample_h chan_seeded 8192 256 512 0).2.slots 0).hw_desc.byte_count =
      256 ∧
    ((mv_xor_prep_dma_crc32c sample_h chan_seeded 8192 256 512 0).2.slots 0).crc32_result = 512 ∧
    (mv_xor_prep_dma_crc32c sample_h chan_seeded 8192 256 516 0).1 = none ∧
    (mv_xor_prep_dma_crc32c sample_h chan_seeded 8192 256 516 0).2 = chan_seeded := by
  have h1 := (prep_dma_crc32c_acceptance sample_h chan_seeded 8192 256 512 0 0 [1, 2, 3] rfl).2.2
    (by decide)
  have h2 := prep_dma_crc32c_acceptance sample_h chan_seeded 8192 256 516 0 0 [1, 2, 3] rfl
  have h3 : (mv_xor_prep_dma_crc32c sample_h chan_seeded 8192 256 516 0).1 = none :=
    h2.1.mpr (Or.inl (by decide))
  exact ⟨rfl, h1.1, h1.2.2.2.1, h1.2.2.2.2.2.2, h3, h2.2.1 h3⟩

/-- C15. Copy length bounds. `mv_xor_prep_dma_memcpy` with a length below
`MV_XOR_MIN_BYTE_COUNT` returns nothing and leaves the channel (the pool and
all descriptors) unchanged. With a length from `MV_XOR_MIN_BYTE_COUNT` to
`MV_XOR_MAX_BYTE_COUNT` (both included) and `free_slots` starting with slot
`i`, it returns slot `i` with the length as byte count, `dest` as destination
and `src` as source `0`. With a length above `MV_XOR_MAX_BYTE_COUNT` (the
minimum being at most the maximum) it reaches the `BUG_ON` instead of returning
a failure. -/
theorem prep_dma_memcpy_length_bounds (k : mv_xor_h) (s : mv_xor_chan)
    (dest src len flags : Nat) :
    (len < k.MV_XOR_MIN_BYTE_COUNT →
      mv_xor_prep_dma_memcpy k s dest src len flags = some (none, s)) ∧
    (∀ i rest, s.free_slots = i :: rest →
      k.MV_XOR_MIN_BYTE_COUNT ≤ len → len ≤ k.MV_XOR_MAX_BYTE_COUNT →
      ∃ s', mv_xor_prep_dma_memcpy k s dest src len flags = some (some i, s') ∧
        (s'.slots i).hw_desc.byte_count = len ∧
        (s'.slots i).hw_desc.phy_dest_addr = dest ∧
        (s'.slots i).hw_desc.phy_src_addr (k.mv_phy_src_idx 0) = src) ∧
    (k.MV_XOR_MIN_BYTE_COUNT ≤ k.MV_XOR_MAX_BYTE_COUNT → len > k.MV_XOR_MAX_BYTE_COUNT →
      mv_xor_prep_dma_memcpy k s dest src len flags = none) := by
  refine ⟨?_, ?_, ?_⟩
  · intro h
    unfold mv_xor_prep_dma_memcpy
    rw [if_pos h]
  · intro i rest hf h1 h2
    unfold mv_xor_prep_dma_memcpy
    rw [if_neg (Nat.not_lt.mpr h1), if_neg (Nat.not_lt.mpr h2), alloc_slot_cons k s i rest hf]
    dsimp only
    refine ⟨_, rfl, ?_, ?_, ?_⟩
    · simp only [set_slot, Function.update_same, set_src_addr_fields, set_dest_addr_fields,
        set_byte_count_fields]
    · simp only [set_slot, Function.update_same, set_src_addr_fields, set_dest_addr_fields]
    · simp only [set_slot, Function.update_same, set_src_addr_fields]
  · intro hk h
    unfold mv_xor_prep_dma_memcpy
    rw [if_neg (by omega), if_pos h]

/-- Witness for C15 on `example_chan` with the bounds of `sample_h`: a copy of
`16777215` bytes (the maximum) is accepted into slot `0`, one of `127` bytes is
refused, and one of `16777216` bytes reaches the `BUG_ON`. -/
theorem prep_dma_memcpy_length_bounds_witness :
    (127 < sample_h.MV_XOR_MIN_BYTE_COUNT ∧
      mv_xor_prep_dma_memcpy sample_h example_chan 8192 12288 127 0 = some (none, example_chan)) ∧
    (example_chan.free_slots = 0 :: [1, 2, 3] ∧ sample_h.MV_XOR_MIN_BYTE_COUNT ≤ 16777215 ∧
      16777215 ≤ sample_h.MV_XOR_MAX_BYTE_COUNT ∧
      ∃ s', mv_xor_prep_dma_memcpy sample_h example_chan 8192 12288 16777215 0 =
          some (some 0, s') ∧
        (s'.slots 0).hw_desc.byte_count = 16777215 ∧
        (s'.slots 0).hw_desc.phy_dest_addr = 8192 ∧
        (s'.slots 0).hw_desc.phy_src_addr (sample_h.mv_phy_src_idx 0) = 12288) ∧
    (sample_h.MV_XOR_MIN_BYTE_COUNT ≤ sample_h.MV_XOR_MAX_BYTE_COUNT ∧
      16777216 > sample_h.MV_XOR_MAX_BYTE_COUNT ∧
      mv_xor_prep_dma_memcpy sample_h example_chan 8192 12288 16777216 0 = none) :=
  ⟨⟨by decide,
      (prep_dma_memcpy_length_bounds sample_h example_chan 8192 12288 127 0).1 (by decide)⟩,
    ⟨rfl, by decide, by decide,
      (prep_dma_memcpy_length_bounds sample_h example_chan 8192 12288 16777215 0).2.1 0 [1, 2, 3]
        rfl (by decide) (by decide)⟩,
    ⟨by decide, by decide,
      (prep_dma_memcpy_length_bounds sample_h example_chan 8192 12288 16777216 0).2.2 (by decide)
        (by decide)⟩⟩

/-! ## C13: the scan of the parity builder -/

theorem pq_src_loop_sublist (k : mv_xor_h) (src scf : Nat → Nat) :
    ∀ (coefs : List Nat) (i src_i n : Nat) (d : mv_xor_desc_slot), coefs.Nodup →
      List.Sublist ((List.range n).map fun j => scf (src_i + j)) coefs →
      pq_src_loop k src scf coefs i src_i n d =
        some (((List.range n).map fun j =>
            (i + coefs.indexOf (scf (src_i + j)), src (src_i + j))).foldl
          (fun d p => mv_desc_set_src_addr k d p.1 p.2) d) := by
  intro coefs
  induction coefs with
  | nil =>
    intro i src_i n d _ hsub
    have hn : n = 0 := by
      have h := List.eq_nil_of_sublist_nil hsub
      simpa using h
    subst hn
    simp [pq_src_loop]
  | cons c cs ih =>
    intro i src_i n d hnd hsub
    have hc : c ∉ cs := (List.nodup_cons.mp hnd).1
    have hcs : cs.Nodup := (List.nodup_cons.mp hnd).2
    cases n with
    | zero => simp [pq_src_loop]
    | succ m =>
      rw [pq_src_loop, if_neg (Nat.succ_ne_zero m)]
      rw [List.range_succ_eq_map, List.map_cons, List.map_map] at hsub
      rw [List.range_succ_eq_map, List.map_cons, List.map_map, List.foldl_cons]
      by_cases h : scf src_i = c
      · rw [if_pos h]
        have hsub' : List.Sublist ((List.range m).map fun j => scf (src_i + 1 + j)) cs := by
          have h0 : scf (src_i + 0) = c := h
          rw [h0] at hsub
          have h1 := List.cons_sublist_cons.mp hsub
          have e : ((fun j => scf (src_i + j)) ∘ Nat.succ) = fun j => scf (src_i + 1 + j) := by
            funext j
            simp [Function.comp, Nat.add_assoc, Nat.add_comm 1 j]
          rw [e] at h1
          exact h1
        rw [Nat.add_sub_cancel, ih (i + 1) (src_i + 1) m _ hcs hsub']
        have e1 : i + List.indexOf (scf (src_i + 0)) (c :: cs) = i := by
          have h0 : scf (src_i + 0) = c := h
          rw [h0, List.indexOf_cons_self]
          rfl
        rw [e1]
        have e2 : List.map (fun j => (i + 1 + cs.indexOf (scf (src_i + 1 + j)), src (src_i + 1 + j)))
            (List.range m) =
            List.map ((fun j => (i + List.indexOf (scf (src_i + j)) (c :: cs), src (src_i + j))) ∘
              Nat.succ) (List.range m) := by
          apply List.map_congr_left
          intro j hj
          have hmem : scf (src_i + 1 + j) ∈ cs :=
            hsub'.subset (List.mem_map.mpr ⟨j, hj, rfl⟩)
          have hne : scf (src_i + 1 + j) ≠ c := fun e => hc (e ▸ hmem)
          have e3 : src_i + Nat.succ j = src_i + 1 + j := by omega
          simp only [Function.comp, e3]
          rw [List.indexOf_cons_ne _ (Ne.symm hne)]
          congr 1
          omega
        rw [e2]
        rfl
      · rw [if_neg h]
        have hsub' : List.Sublist ((List.range (m + 1)).map fun j => scf (src_i + j)) cs := by
          rw [List.range_succ_eq_map, List.map_cons, List.map_map]
          cases hsub with
          | cons _ h1 => exact h1
          | cons₂ _ h1 => exact absurd rfl h
        rw [ih (i + 1) src_i (m + 1) d hcs hsub']
        rw [← List.foldl_cons, ← List.map_map, ← List.map_cons
          (fun j => (i + List.indexOf (scf (src_i + j)) (c :: cs), src (src_i + j))),
          ← List.range_succ_eq_map]
        congr 2
        apply List.map_congr_left
        intro j hj
        have hmem : scf (src_i + j) ∈ cs := hsub'.subset (List.mem_map.mpr ⟨j, hj, rfl⟩)
        have hne : scf (src_i + j) ≠ c := fun e => hc (e ▸ hmem)
        rw [List.indexOf_cons_ne _ (Ne.symm hne)]
        congr 1
        omega

theorem pq_src_loop_placed (k : mv_xor_h) (src scf : Nat → Nat) (n : Nat) (d : mv_xor_desc_slot)
    (hsub : List.Sublist ((List.range n).map scf) mv_xor_raid6_coefs) :
    pq_src_loop k src scf mv_xor_raid6_coefs 0 0 n d = some (pq_placed k src scf n d) := by
  have h := pq_src_loop_sublist k src scf mv_xor_raid6_coefs 0 0 n d (by decide)
    (by simpa using hsub)
  rw [h]
  unfold pq_placed
  simp

/-! ## The builders in closed form -/

theorem xor_src_loop_next_desc (k : mv_xor_h) (src : Nat → Nat) :
    ∀ (n : Nat) (d : mv_xor_desc_slot),
      (xor_src_loop k src n d).hw_desc.phy_next_desc = d.hw_desc.phy_next_desc := by
  intro n
  induction n with
  | zero => intro d; rfl
  | succ m ih =>
    intro d
    rw [xor_src_loop, ih]
    simp only [set_src_addr_fields]

theorem pq_src_loop_next_desc (k : mv_xor_h) (src scf : Nat → Nat) :
    ∀ (coefs : List Nat) (i src_i n : Nat) (d d' : mv_xor_desc_slot),
      pq_src_loop k src scf coefs i src_i n d = some d' →
      d'.hw_desc.phy_next_desc = d.hw_desc.phy_next_desc := by
  intro coefs
  induction coefs with
  | nil =>
    intro i src_i n d d' h
    rw [pq_src_loop] at h
    split at h
    · cases h; rfl
    · cases h
  | cons c cs ih =>
    intro i src_i n d d' h
    rw [pq_src_loop] at h
    split at h
    · cases h; rfl
    · split at h
      · rw [ih _ _ _ _ _ h]
        simp only [set_src_addr_fields]
      · exact ih _ _ _ _ _ h

theorem prep_dma_interrupt_accepted (k : mv_xor_h) (a1 a2 : Nat) (s : mv_xor_chan) (flags : Nat)
    (i : Nat) (rest : List Nat) (hf : s.free_slots = i :: rest) :
    ∃ d, mv_xor_prep_dma_interrupt k a1 a2 s flags =
        (some i, set_slot i d (list_move_tail i list_head.allocated_slots s)) ∧
      d.hw_desc.phy_next_desc = 0 := by
  unfold mv_xor_prep_dma_interrupt
  rw [alloc_slot_cons k s i rest hf]
  dsimp only
  rw [set_slot_set_slot]
  refine ⟨_, rfl, ?_⟩
  simp only [set_src_addr_fields, set_dest_addr_fields, set_byte_count_fields]
  split
  · simp only [set_mode_fields, desc_init_fields]
  · simp only [desc_init_fields]

theorem prep_dma_memcpy_accepted (k : mv_xor_h) (s : mv_xor_chan) (dest src len flags : Nat)
    (i : Nat) (rest : List Nat) (hf : s.free_slots = i :: rest)
    (h1 : k.MV_XOR_MIN_BYTE_COUNT ≤ len) (h2 : len ≤ k.MV_XOR_MAX_BYTE_COUNT) :
    ∃ d, mv_xor_prep_dma_memcpy k s dest src len flags =
        some (some i, set_slot i d (list_move_tail i list_head.allocated_slots s)) ∧
      d.hw_desc.phy_next_desc = 0 := by
  unfold mv_xor_prep_dma_memcpy
  rw [if_neg (Nat.not_lt.mpr h1), if_neg (Nat.not_lt.mpr h2), alloc_slot_cons k s i rest hf]
  dsimp only
  rw [set_slot_set_slot]
  refine ⟨_, rfl, ?_⟩
  simp only [set_src_addr_fields, set_dest_addr_fields, set_byte_count_fields]
  split
  · simp only [set_mode_fields, desc_init_fields]
  · simp only [desc_init_fields]

theorem prep_dma_xor_accepted (k : mv_xor_h) (s : mv_xor_chan) (dest : Nat) (src : Nat → Nat)
    (src_cnt len flags : Nat) (i : Nat) (rest : List Nat) (hf : s.free_slots = i :: rest)
    (h1 : k.MV_XOR_MIN_BYTE_COUNT ≤ len) (h2 : len ≤ k.MV_XOR_MAX_BYTE_COUNT) :
    ∃ d, mv_xor_prep_dma_xor k s dest src src_cnt len flags =
        some (some i, set_slot i d (list_move_tail i list_head.allocated_slots s)) ∧
      d.hw_desc.phy_next_desc = 0 := by
  unfold mv_xor_prep_dma_xor
  rw [if_neg (Nat.not_lt.mpr h1), if_neg (Nat.not_lt.mpr h2), alloc_slot_cons k s i rest hf]
  dsimp only
  rw [set_slot_set_slot]
  refine ⟨_, rfl, ?_⟩
  rw [xor_src_loop_next_desc]
  simp only [set_dest_addr_fields, set_byte_count_fields]
  split
  · simp only [set_mode_fields, desc_init_fields]
  · simp only [desc_init_fields]

theorem prep_dma_crc32c_accepted (k : mv_xor_h) (s : mv_xor_chan) (src len seed flags : Nat)
    (i : Nat) (rest : List Nat) (hf : s.free_slots = i :: rest)
    (hacc : ¬ (s.mem seed ≠ 2 ^ 32 - 1 ∨ len < k.MV_XOR_MIN_BYTE_COUNT ∨
      len > k.XOR_MAX_BYTE_COUNT)) :
    ∃ d, mv_xor_prep_dma_crc32c k s src len seed flags =
        (some i, set_slot i d (list_move_tail i list_head.allocated_slots s)) ∧
      d.hw_desc.phy_next_desc = 0 := by
  unfold mv_xor_prep_dma_crc32c
  rw [if_neg hacc, alloc_slot_cons k s i rest hf]
  dsimp only
  rw [set_slot_set_slot]
  refine ⟨_, rfl, ?_⟩
  simp only [set_src_addr_fields, set_byte_count_fields]
  split
  · simp only [set_mode_fields, desc_init_fields]
  · simp only [desc_init_fields]

theorem prep_dma_pq_accepted (k : mv_xor_h) (s : mv_xor_chan) (dst src : Nat → Nat)
    (src_cnt : Nat) (scf : Nat → Nat) (len flags : Nat) (i : Nat) (rest : List Nat)
    (hf : s.free_slots = i :: rest)
    (h1 : k.MV_XOR_MIN_BYTE_COUNT ≤ len) (h2 : len ≤ k.MV_XOR_MAX_BYTE_COUNT)
    (hfl : ¬ (flags &&& k.DMA_PREP_PQ_MULT ≠ 0 ∨ flags &&& k.DMA_PREP_PQ_SUM_PRODUCT ≠ 0)) :
    ∃ d0, mv_xor_prep_dma_pq k s dst src src_cnt scf len flags =
        (pq_src_loop k src scf mv_xor_raid6_coefs 0 0 src_cnt d0).map (fun d =>
          (some i, set_slot i d (list_move_tail i list_head.allocated_slots s))) ∧
      d0.hw_desc.phy_next_desc = 0 ∧ d0.type = dma_transaction_type.DMA_PQ ∧
      d0.unmap_src_cnt = src_cnt ∧ d0.hw_desc.byte_count = len ∧
      d0.hw_desc.phy_src_addr = (s.slots i).hw_desc.phy_src_addr := by
  unfold mv_xor_prep_dma_pq
  rw [if_neg (Nat.not_lt.mpr h1), if_neg (Nat.not_lt.mpr h2), if_neg hfl,
    alloc_slot_cons k s i rest hf]
  dsimp only
  simp only [set_slot_set_slot]
  split
  all_goals
    rename_i heq
    refine ⟨_, (congrArg (Option.map fun d =>
      (some i, set_slot i d (list_move_tail i list_head.allocated_slots s))) heq).symm,
      ?_, ?_, ?_, ?_, ?_⟩
    · split <;> split <;> split <;>
        simp only [set_q_dest_addr_fields, set_dest_addr_fields, set_byte_count_fields,
          set_mode_fields, desc_init_fields]
    · split <;> split <;> split <;>
        simp only [set_q_dest_addr_fields, set_dest_addr_fields, set_byte_count_fields,
          set_mode_fields, desc_init_fields]
    · rfl
    · split <;> split <;> split <;>
        simp only [set_q_dest_addr_fields, set_dest_addr_fields, set_byte_count_fields,
          set_mode_fields, desc_init_fields]
    · split <;> split <;> split <;>
        simp [set_q_dest_addr_fields, set_dest_addr_fields, set_byte_count_fields,
          set_mode_fields, desc_init_fields, set_slot]

theorem foldl_set_src_addr_other (k : mv_xor_h) :
    ∀ (ps : List (Nat × Nat)) (d : mv_xor_desc_slot) (x : Nat),
      (∀ p ∈ ps, k.mv_phy_src_idx p.1 ≠ x) →
      (ps.foldl (fun d p => mv_desc_set_src_addr k d p.1 p.2) d).hw_desc.phy_src_addr x =
        d.hw_desc.phy_src_addr x := by
  intro ps
  induction ps with
  | nil => intro d x _; rfl
  | cons p ps ih =>
    intro d x h
    rw [List.foldl_cons, ih _ x (fun q hq => h q (List.mem_cons_of_mem _ hq))]
    simp only [set_src_addr_fields]
    exact Function.update_noteq (Ne.symm (h p (List.mem_cons_self _ _))) _ _

theorem foldl_set_src_addr_placed (k : mv_xor_h) :
    ∀ (ps : List (Nat × Nat)) (d : mv_xor_desc_slot),
      (ps.map fun p => k.mv_phy_src_idx p.1).Nodup → ∀ p ∈ ps,
      (ps.foldl (fun d p => mv_desc_set_src_addr k d p.1 p.2) d).hw_desc.phy_src_addr
        (k.mv_phy_src_idx p.1) = p.2 := by
  intro ps
  induction ps with
  | nil => intro d _ p hp; cases hp
  | cons q ps ih =>
    intro d hnd p hp
    rw [List.map_cons, List.nodup_cons] at hnd
    rw [List.foldl_cons]
    rcases List.mem_cons.mp hp with e | hmem
    · subst e
      rw [foldl_set_src_addr_other k ps _ _ (fun r hr e => hnd.1 (List.mem_map.mpr ⟨r, hr, e⟩))]
      simp only [set_src_addr_fields, Function.update_same]
    · exact ih _ hnd.2 p hmem

theorem pq_placed_src_addr (k : mv_xor_h) (src scf : Nat → Nat) (n : Nat) (d : mv_xor_desc_slot)
    (hinj : ∀ a b, a < 8 → b < 8 → k.mv_phy_src_idx a = k.mv_phy_src_idx b → a = b)
    (hsub : List.Sublist ((List.range n).map scf) mv_xor_raid6_coefs) (j : Nat) (hj : j < n) :
    (pq_placed k src scf n d).hw_desc.phy_src_addr
      (k.mv_phy_src_idx (mv_xor_raid6_coefs.indexOf (scf j))) = src j := by
  have hmem : ∀ a ∈ List.range n, scf a ∈ mv_xor_raid6_coefs := fun a ha =>
    hsub.subset (List.mem_map.mpr ⟨a, ha, rfl⟩)
  have hnd : ((List.range n).map scf).Nodup := hsub.nodup (by decide)
  have hlt : ∀ a ∈ List.range n, mv_xor_raid6_coefs.indexOf (scf a) < 8 := fun a ha =>
    List.indexOf_lt_length.mpr (hmem a ha)
  have hkeys : (((List.range n).map fun j => (mv_xor_raid6_coefs.indexOf (scf j), src j)).map
      fun p => k.mv_phy_src_idx p.1).Nodup := by
    rw [List.map_map]
    apply List.Nodup.map_on _ (List.nodup_range n)
    intro a ha b hb e
    have e1 := hinj _ _ (hlt a ha) (hlt b hb) e
    have e2 : scf a = scf b := (List.indexOf_inj (hmem a ha) (hmem b hb)).mp e1
    exact List.inj_on_of_nodup_map hnd ha hb e2
  exact foldl_set_src_addr_placed k _ d hkeys (mv_xor_raid6_coefs.indexOf (scf j), src j)
    (List.mem_map.mpr ⟨j, List.mem_range.mpr hj, rfl⟩)

theorem pq_src_loop_eq_scan (k : mv_xor_h) (src scf : Nat → Nat) :
    ∀ (coefs : List Nat) (i src_i n : Nat) (d : mv_xor_desc_slot),
      pq_src_loop k src scf coefs i src_i n d =
        if (pq_src_scan k src scf coefs ⟨i, src_i, n, d⟩).src_cnt = 0 then
          some (pq_src_scan k src scf coefs ⟨i, src_i, n, d⟩).desc
        else none := by
  intro coefs
  induction coefs with
  | nil =>
    intro i src_i n d
    simp only [pq_src_loop, pq_src_scan]
  | cons c cs ih =>
    intro i src_i n d
    rw [pq_src_loop, pq_src_scan]
    dsimp only
    by_cases hn : n = 0
    · simp only [hn, if_true]
    · rw [if_neg hn, if_neg hn]
      by_cases hc : scf src_i = c
      · rw [if_pos hc, if_pos hc]
        exact ih _ _ _ _
      · rw [if_neg hc, if_neg hc]
        exact ih _ _ _ _

/-- C13, evaluated at two failing inputs. The table `mv_xor_raid6_coefs` has
eight entries. On `example_chan`, with a valid length and flags,
`mv_xor_prep_dma_pq` enters its loop with a descriptor `d0` for slot `0`.
Given the coefficients `2, 1` (coefficients of the engine in descending
order), the loop places source `0` at index `1` and then walks the rest of the
table without meeting the coefficient `1` of source `1`: with that source
still to place (`src_i = 1`, `src_cnt = 1`) the table index `i` is `8`, so the
next step of the loop reads `mv_xor_raid6_coefs[8]`, past the last entry.
Given the coefficient `3`, which the engine does not have, the loop arrives at
the same read with the source unplaced, where the builder was to return
nothing. Given the coefficients `1, 2` the builder returns slot `0`. -/
theorem prep_dma_pq_leaves_table :
    mv_xor_raid6_coefs.length = 8 ∧
    (∃ d0, mv_xor_prep_dma_pq sample_h example_chan example_addrs example_addrs 2 scf_descending
          128 0 =
        (pq_src_loop sample_h example_addrs scf_descending mv_xor_raid6_coefs 0 0 2 d0).map
          (fun d => (some 0, set_slot 0 d (list_move_tail 0 list_head.allocated_slots
            example_chan))) ∧
      pq_src_scan sample_h example_addrs scf_descending mv_xor_raid6_coefs ⟨0, 0, 2, d0⟩ =
        ⟨8, 1, 1, mv_desc_set_src_addr sample_h d0 1 (example_addrs 0)⟩) ∧
    (∃ d0, mv_xor_prep_dma_pq sample_h example_chan example_addrs example_addrs 1 scf_foreign
          128 0 =
        (pq_src_loop sample_h example_addrs scf_foreign mv_xor_raid6_coefs 0 0 1 d0).map
          (fun d => (some 0, set_slot 0 d (list_move_tail 0 list_head.allocated_slots
            example_chan))) ∧
      pq_src_scan sample_h example_addrs scf_foreign mv_xor_raid6_coefs ⟨0, 0, 1, d0⟩ =
        ⟨8, 0, 1, d0⟩) ∧
    (mv_xor_prep_dma_pq sample_h example_chan example_addrs example_addrs 2 scf_ascending 128
      0).map Prod.fst = some (some 0) := by
  refine ⟨rfl, ?_, ?_, by decide⟩
  · obtain ⟨d0, e, _⟩ := prep_dma_pq_accepted sample_h example_chan example_addrs example_addrs 2
      scf_descending 128 0 0 [1, 2, 3] rfl (by decide) (by decide) (by decide)
    exact ⟨d0, e, rfl⟩
  · obtain ⟨d0, e, _⟩ := prep_dma_pq_accepted sample_h example_chan example_addrs example_addrs 1
      scf_foreign 128 0 0 [1, 2, 3] rfl (by decide) (by decide) (by decide)
    exact ⟨d0, e, rfl⟩

/-! ## C12: when a builder returns nothing -/

theorem prep_dma_memcpy_refused (k : mv_xor_h) (s : mv_xor_chan) (dest src len flags : Nat)
    (h : len < k.MV_XOR_MIN_BYTE_COUNT) :
    mv_xor_prep_dma_memcpy k s dest src len flags = some (none, s) := by
  unfold mv_xor_prep_dma_memcpy
  rw [if_pos h]

theorem prep_dma_memcpy_bug (k : mv_xor_h) (s : mv_xor_chan) (dest src len flags : Nat)
    (h1 : k.MV_XOR_MIN_BYTE_COUNT ≤ len) (h2 : len > k.MV_XOR_MAX_BYTE_COUNT) :
    mv_xor_prep_dma_memcpy k s dest src len flags = none := by
  unfold mv_xor_prep_dma_memcpy
  rw [if_neg (Nat.not_lt.mpr h1), if_pos h2]

theorem prep_dma_xor_refused (k : mv_xor_h) (s : mv_xor_chan) (dest : Nat) (src : Nat → Nat)
    (src_cnt len flags : Nat) (h : len < k.MV_XOR_MIN_BYTE_COUNT) :
    mv_xor_prep_dma_xor k s dest src src_cnt len flags = some (none, s) := by
  unfold mv_xor_prep_dma_xor
  rw [if_pos h]

theorem prep_dma_xor_bug (k : mv_xor_h) (s : mv_xor_chan) (dest : Nat) (src : Nat → Nat)
    (src_cnt len flags : Nat)
    (h1 : k.MV_XOR_MIN_BYTE_COUNT ≤ len) (h2 : len > k.MV_XOR_MAX_BYTE_COUNT) :
    mv_xor_prep_dma_xor k s dest src src_cnt len flags = none := by
  unfold mv_xor_prep_dma_xor
  rw [if_neg (Nat.not_lt.mpr h1), if_pos h2]

theorem prep_dma_pq_refused (k : mv_xor_h) (s : mv_xor_chan) (dst src : Nat → Nat)
    (src_cnt : Nat) (scf : Nat → Nat) (len flags : Nat)
    (h : len < k.MV_XOR_MIN_BYTE_COUNT ∨ (len ≤ k.MV_XOR_MAX_BYTE_COUNT ∧
      (flags &&& k.DMA_PREP_PQ_MULT ≠ 0 ∨ flags &&& k.DMA_PREP_PQ_SUM_PRODUCT ≠ 0))) :
    mv_xor_prep_dma_pq k s dst src src_cnt scf len flags = some (none, s) := by
  unfold mv_xor_prep_dma_pq
  by_cases h1 : len < k.MV_XOR_MIN_BYTE_COUNT
  · rw [if_pos h1]
  · rcases h with h | ⟨h2, h3⟩
    · exact absurd h h1
    · rw [if_neg h1, if_neg (Nat.not_lt.mpr h2), if_pos h3]

theorem prep_dma_pq_bug (k : mv_xor_h) (s : mv_xor_chan) (dst src : Nat → Nat)
    (src_cnt : Nat) (scf : Nat → Nat) (len flags : Nat)
    (h1 : k.MV_XOR_MIN_BYTE_COUNT ≤ len) (h2 : len > k.MV_XOR_MAX_BYTE_COUNT) :
    mv_xor_prep_dma_pq k s dst src src_cnt scf len flags = none := by
  unfold mv_xor_prep_dma_pq
  rw [if_neg (Nat.not_lt.mpr h1), if_pos h2]

theorem prep_dma_crc32c_refused (k : mv_xor_h) (s : mv_xor_chan) (src len seed flags : Nat)
    (h : s.mem seed ≠ 2 ^ 32 - 1 ∨ len < k.MV_XOR_MIN_BYTE_COUNT ∨ len > k.XOR_MAX_BYTE_COUNT) :
    mv_xor_prep_dma_crc32c k s src len seed flags = (none, s) := by
  unfold mv_xor_prep_dma_crc32c
  rw [if_pos h]

/-- Counterexample to C12 as stated. On `example_chan`, which has free slots,
the XOR builder returns a descriptor for one source and for no source at all
(source counts outside `2..8`), and the copy builder given a length above the
maximum does not return at all (it reaches the `BUG_ON`) instead of returning
nothing. -/
theorem prep_dma_xor_accepts_any_source_count :
    example_chan.free_slots ≠ [] ∧
    (mv_xor_prep_dma_xor sample_h example_chan 8192 example_addrs 1 128 0).map Prod.fst =
      some (some 0) ∧
    (mv_xor_prep_dma_xor sample_h example_chan 8192 example_addrs 0 128 0).map Prod.fst =
      some (some 0) ∧
    16777216 > sample_h.MV_XOR_MAX_BYTE_COUNT ∧
    (mv_xor_prep_dma_memcpy sample_h example_chan 8192 12288 16777216 0).isNone = true := by
  decide

/-- C12 (amended). When a builder returns nothing, on a channel whose
`free_slots` starts with slot `i`. The copy and XOR builders return nothing if
and only if the length is below `MV_XOR_MIN_BYTE_COUNT`, and return slot `i`
for every length from there to `MV_XOR_MAX_BYTE_COUNT`, the XOR builder for
every source count up to the eight sources of a descriptor. The parity builder returns nothing if and only if the length is below
`MV_XOR_MIN_BYTE_COUNT`, or it is at most `MV_XOR_MAX_BYTE_COUNT` and one of
the flags `DMA_PREP_PQ_MULT` and `DMA_PREP_PQ_SUM_PRODUCT` is set; it returns
slot `i` for a length within the bounds, without those flags, when the
coefficients are a sublist of `mv_xor_raid6_coefs`. With a length above
`MV_XOR_MAX_BYTE_COUNT` (and not below the minimum) these three builders reach
the `BUG_ON`. The checksum builder returns nothing if and only if the seed word
is not `0xFFFFFFFF` or the length is below `MV_XOR_MIN_BYTE_COUNT` or above
`XOR_MAX_BYTE_COUNT`, and returns slot `i` otherwise. -/
theorem prep_returns_nothing_iff (k : mv_xor_h) (s : mv_xor_chan) (i : Nat) (rest : List Nat)
    (hf : s.free_slots = i :: rest) :
    (∀ dest src len flags,
      ((mv_xor_prep_dma_memcpy k s dest src len flags).map Prod.fst = some none ↔
        len < k.MV_XOR_MIN_BYTE_COUNT) ∧
      (k.MV_XOR_MIN_BYTE_COUNT ≤ len → len ≤ k.MV_XOR_MAX_BYTE_COUNT →
        (mv_xor_prep_dma_memcpy k s dest src len flags).map Prod.fst = some (some i)) ∧
      (k.MV_XOR_MIN_BYTE_COUNT ≤ len → len > k.MV_XOR_MAX_BYTE_COUNT →
        mv_xor_prep_dma_memcpy k s dest src len flags = none)) ∧
    (∀ dest src src_cnt len flags,
      ((mv_xor_prep_dma_xor k s dest src src_cnt len flags).map Prod.fst = some none ↔
        len < k.MV_XOR_MIN_BYTE_COUNT) ∧
      (src_cnt ≤ 8 → k.MV_XOR_MIN_BYTE_COUNT ≤ len → len ≤ k.MV_XOR_MAX_BYTE_COUNT →
        (mv_xor_prep_dma_xor k s dest src src_cnt len flags).map Prod.fst = some (some i)) ∧
      (k.MV_XOR_MIN_BYTE_COUNT ≤ len → len > k.MV_XOR_MAX_BYTE_COUNT →
        mv_xor_prep_dma_xor k s dest src src_cnt len flags = none)) ∧
    (∀ dst src src_cnt scf len flags,
      ((mv_xor_prep_dma_pq k s dst src src_cnt scf len flags).map Prod.fst = some none ↔
        (len < k.MV_XOR_MIN_BYTE_COUNT ∨ (len ≤ k.MV_XOR_MAX_BYTE_COUNT ∧
          (flags &&& k.DMA_PREP_PQ_MULT ≠ 0 ∨ flags &&& k.DMA_PREP_PQ_SUM_PRODUCT ≠ 0)))) ∧
      (k.MV_XOR_MIN_BYTE_COUNT ≤ len → len ≤ k.MV_XOR_MAX_BYTE_COUNT →
        flags &&& k.DMA_PREP_PQ_MULT = 0 → flags &&& k.DMA_PREP_PQ_SUM_PRODUCT = 0 →
        List.Sublist ((List.range src_cnt).map scf) mv_xor_raid6_coefs →
        (mv_xor_prep_dma_pq k s dst src src_cnt scf len flags).map Prod.fst = some (some i)) ∧
      (k.MV_XOR_MIN_BYTE_COUNT ≤ len → len > k.MV_XOR_MAX_BYTE_COUNT →
        mv_xor_prep_dma_pq k s dst src src_cnt scf len flags = none)) ∧
    (∀ src len seed flags,
      ((mv_xor_prep_dma_crc32c k s src len seed flags).1 = none ↔
        (s.mem seed ≠ 2 ^ 32 - 1 ∨ len < k.MV_XOR_MIN_BYTE_COUNT ∨
          len > k.XOR_MAX_BYTE_COUNT)) ∧
      (¬ (s.mem seed ≠ 2 ^ 32 - 1 ∨ len < k.MV_XOR_MIN_BYTE_COUNT ∨
          len > k.XOR_MAX_BYTE_COUNT) →
        (mv_xor_prep_dma_crc32c k s src len seed flags).1 = some i)) := by
  refine ⟨?_, ?_, ?_, ?_⟩
  · intro dest src len flags
    have hacc : k.MV_XOR_MIN_BYTE_COUNT ≤ len → len ≤ k.MV_XOR_MAX_BYTE_COUNT →
        (mv_xor_prep_dma_memcpy k s dest src len flags).map Prod.fst = some (some i) := by
      intro h1 h2
      obtain ⟨d, e, _⟩ := prep_dma_memcpy_accepted k s dest src len flags i rest hf h1 h2
      rw [e]; rfl
    refine ⟨⟨fun h => ?_, fun h => ?_⟩, hacc, prep_dma_memcpy_bug k s dest src len flags⟩
    · by_contra hn
      have h1 := Nat.not_lt.mp hn
      by_cases h2 : len ≤ k.MV_XOR_MAX_BYTE_COUNT
      · rw [hacc h1 h2] at h
        simp at h
      · rw [prep_dma_memcpy_bug k s dest src len flags h1 (Nat.not_le.mp h2)] at h
        simp at h
    · rw [prep_dma_memcpy_refused k s dest src len flags h]; rfl
  · intro dest src src_cnt len flags
    have hacc : k.MV_XOR_MIN_BYTE_COUNT ≤ len → len ≤ k.MV_XOR_MAX_BYTE_COUNT →
        (mv_xor_prep_dma_xor k s dest src src_cnt len flags).map Prod.fst = some (some i) := by
      intro h1 h2
      obtain ⟨d, e, _⟩ := prep_dma_xor_accepted k s dest src src_cnt len flags i rest hf h1 h2
      rw [e]; rfl
    refine ⟨⟨fun h => ?_, fun h => ?_⟩, fun _ => hacc,
      prep_dma_xor_bug k s dest src src_cnt len flags⟩
    · by_contra hn
      have h1 := Nat.not_lt.mp hn
      by_cases h2 : len ≤ k.MV_XOR_MAX_BYTE_COUNT
      · rw [hacc h1 h2] at h
        simp at h
      · rw [prep_dma_xor_bug k s dest src src_cnt len flags h1 (Nat.not_le.mp h2)] at h
        simp at h
    · rw [prep_dma_xor_refused k s dest src src_cnt len flags h]; rfl
  · intro dst src src_cnt scf len flags
    refine ⟨⟨fun h => ?_, fun h => ?_⟩, fun h1 h2 h3 h4 hsub => ?_,
      prep_dma_pq_bug k s dst src src_cnt scf len flags⟩
    · by_contra hn
      have h1 : k.MV_XOR_MIN_BYTE_COUNT ≤ len := Nat.not_lt.mp (fun h' => hn (Or.inl h'))
      by_cases h2 : len ≤ k.MV_XOR_MAX_BYTE_COUNT
      · have hfl : ¬ (flags &&& k.DMA_PREP_PQ_MULT ≠ 0 ∨
            flags &&& k.DMA_PREP_PQ_SUM_PRODUCT ≠ 0) := fun h' => hn (Or.inr ⟨h2, h'⟩)
        obtain ⟨d0, e, _⟩ := prep_dma_pq_accepted k s dst src src_cnt scf len flags i rest hf
          h1 h2 hfl
        rw [e] at h
        cases hl : pq_src_loop k src scf mv_xor_raid6_coefs 0 0 src_cnt d0 with
        | none => rw [hl] at h; simp at h
        | some d => rw [hl] at h; simp at h
      · rw [prep_dma_pq_bug k s dst src src_cnt scf len flags h1 (Nat.not_le.mp h2)] at h
        simp at h
    · rw [prep_dma_pq_refused k s dst src src_cnt scf len flags h]; rfl
    · obtain ⟨d0, e, _⟩ := prep_dma_pq_accepted k s dst src src_cnt scf len flags i rest hf
        h1 h2 (by simp [h3, h4])
      rw [e, pq_src_loop_placed k src scf src_cnt d0 hsub]
      rfl
  · intro src len seed flags
    have hacc : ¬ (s.mem seed ≠ 2 ^ 32 - 1 ∨ len < k.MV_XOR_MIN_BYTE_COUNT ∨
          len > k.XOR_MAX_BYTE_COUNT) →
        (mv_xor_prep_dma_crc32c k s src len seed flags).1 = some i := by
      intro h
      obtain ⟨d, e, _⟩ := prep_dma_crc32c_accepted k s src len seed flags i rest hf h
      rw [e]
    refine ⟨⟨fun h => ?_, fun h => ?_⟩, hacc⟩
    · by_contra hn
      rw [hacc hn] at h
      simp at h
    · rw [prep_dma_crc32c_refused k s src len seed flags h]

/-- Witness for C12 (amended) on `example_chan`: an XOR of three sources over 128 bytes is
accepted into slot `0`, and one over 127 bytes returns nothing. -/
theorem prep_returns_nothing_iff_witness :
    example_chan.free_slots = 0 :: [1, 2, 3] ∧
    (mv_xor_prep_dma_xor sample_h example_chan 8192 example_addrs 3 128 0).map Prod.fst =
      some (some 0) ∧
    (mv_xor_prep_dma_xor sample_h example_chan 8192 example_addrs 3 127 0).map Prod.fst =
      some none :=
  ⟨rfl,
    ((prep_returns_nothing_iff sample_h example_chan 0 [1, 2, 3] rfl).2.1 8192 example_addrs 3 128
      0).2.1 (by decide) (by decide) (by decide),
    ((prep_returns_nothing_iff sample_h example_chan 0 [1, 2, 3] rfl).2.1 8192 example_addrs 3 127
      0).1.mpr (by decide)⟩

/-! ## C16: the interrupt handler -/

theorem land_ne_zero_iff (c m : Nat) :
    c &&& m ≠ 0 ↔ ∃ b, c.testBit b = true ∧ m.testBit b = true := by
  constructor
  · intro h
    obtain ⟨b, hb⟩ := Nat.ne_zero_implies_bit_true h
    rw [Nat.testBit_and, Bool.and_eq_true] at hb
    exact ⟨b, hb⟩
  · rintro ⟨b, h1, h2⟩ h0
    have h : (c &&& m).testBit b = true := by
      rw [Nat.testBit_and, h1, h2]; rfl
    rw [h0, Nat.zero_testBit] at h
    cases h

theorem testBit_err_mask (b : Nat) : Nat.testBit 1008 b = true ↔ 4 ≤ b ∧ b ≤ 9 := by
  by_cases h : b < 10
  · interval_cases b <;> decide
  · have h1 : Nat.testBit 1008 b = false := by
      apply Nat.testBit_lt_two_pow
      calc 1008 < 2 ^ 10 := by decide
        _ ≤ 2 ^ b := Nat.pow_le_pow_right (by decide) (Nat.not_lt.mp h)
    rw [h1]
    constructor
    · intro h2; cases h2
    · intro h2; omega

theorem testBit_bit_4 (b : Nat) : Nat.testBit 16 b = true ↔ b = 4 := by
  by_cases h : b < 5
  · interval_cases b <;> decide
  · have h1 : Nat.testBit 16 b = false := by
      apply Nat.testBit_lt_two_pow
      calc 16 < 2 ^ 5 := by decide
        _ ≤ 2 ^ b := Nat.pow_le_pow_right (by decide) (Nat.not_lt.mp h)
    rw [h1]
    constructor
    · intro h2; cases h2
    · intro h2; omega

theorem is_err_intr_iff (c : Nat) :
    mv_is_err_intr c ≠ 0 ↔ ∃ b, 4 ≤ b ∧ b ≤ 9 ∧ c.testBit b = true := by
  unfold mv_is_err_intr
  have hm : (1 <<< 4) ||| (1 <<< 5) ||| (1 <<< 6) ||| (1 <<< 7) ||| (1 <<< 8) ||| (1 <<< 9) =
      1008 := by decide
  rw [hm]
  by_cases h : c &&& 1008 ≠ 0
  · rw [if_pos h]
    obtain ⟨b, h1, h2⟩ := (land_ne_zero_iff c 1008).mp h
    have h3 := (testBit_err_mask b).mp h2
    exact ⟨fun _ => ⟨b, h3.1, h3.2, h1⟩, fun _ => by decide⟩
  · rw [if_neg h]
    constructor
    · intro h'; exact absurd rfl h'
    · rintro ⟨b, h1, h2, h3⟩
      exact absurd ((land_ne_zero_iff c 1008).mpr ⟨b, h3, (testBit_err_mask b).mpr ⟨h1, h2⟩⟩) h

theorem land_bit_4_ne_zero_iff (c : Nat) : c &&& (1 <<< 4) ≠ 0 ↔ c.testBit 4 = true := by
  have hm : (1 <<< 4 : Nat) = 16 := by decide
  rw [hm, land_ne_zero_iff]
  constructor
  · rintro ⟨b, h1, h2⟩
    rw [(testBit_bit_4 b).mp h2] at h1
    exact h1
  · intro h
    exact ⟨4, h, by decide⟩

/-- Counterexample to C16 as stated. With the cause bits `4` and `5` set, an error bit other
than bit `4` is set, and yet `mv_xor_err_interrupt_handler` returns without a
register dump, and `mv_xor_interrupt_handler` goes on to schedule the tasklet
and to clear the completion cause bits. -/
theorem err_interrupt_ignored_beside_bit_4 :
    Nat.testBit 48 5 = true ∧ mv_is_err_intr 48 = 1 ∧
    irq_returned (mv_xor_err_interrupt_handler example_chan 48) = true ∧
    (irq_chan (mv_xor_err_interrupt_handler example_chan 48)).reg_dumps = 0 ∧
    mv_chan_get_intr_cause chan_cause_4_5 = 48 ∧
    irq_returned (mv_xor_interrupt_handler chan_cause_4_5) = true ∧
    (irq_chan (mv_xor_interrupt_handler chan_cause_4_5)).reg_dumps = 0 ∧
    (irq_chan (mv_xor_interrupt_handler chan_cause_4_5)).tasklet_count = 1 ∧
    (irq_chan (mv_xor_interrupt_handler chan_cause_4_5)).intr_cause_writes = [4294967292] := by
  decide

/-- C16 (amended). Interrupt error classification. A cause mask is classified as
an error (`mv_is_err_intr` returns `1`, else `0`) exactly when at least one of
its bits `4..9` is set. `mv_xor_err_interrupt_handler` dumps the registers and
stops in `BUG()` for every cause mask in which bit `4` is clear, and returns
with the channel untouched for every cause mask in which bit `4` is set.
`mv_xor_interrupt_handler`, reading the cause mask of the channel: when one of
the bits `5..9` is set and bit `4` is clear it dumps the registers and stops in
`BUG()` without scheduling the tasklet or writing the cause register; when bit
`4` is set (whatever the other error bits) or none of the bits `4..9` is set, it
goes on: the tasklet is scheduled once and the completion cause bits of the
channel are cleared by one write of `~(3 << (idx * 16))`. -/
theorem interrupt_error_classification (s : mv_xor_chan) :
    (∀ c, (mv_is_err_intr c = 1 ↔ ∃ b, 4 ≤ b ∧ b ≤ 9 ∧ c.testBit b = true) ∧
      (mv_is_err_intr c = 0 ↔ ¬ ∃ b, 4 ≤ b ∧ b ≤ 9 ∧ c.testBit b = true)) ∧
    (∀ c, c.testBit 4 = false →
      mv_xor_err_interrupt_handler s c = irq_outcome.bug (mv_dump_xor_regs s)) ∧
    (∀ c, c.testBit 4 = true → mv_xor_err_interrupt_handler s c = irq_outcome.returned s) ∧
    ((∃ b, 5 ≤ b ∧ b ≤ 9 ∧ (mv_chan_get_intr_cause s).testBit b = true) →
      (mv_chan_get_intr_cause s).testBit 4 = false →
      mv_xor_interrupt_handler s =
        irq_outcome.bug { s with reg_dumps := s.reg_dumps + 1 }) ∧
    (((mv_chan_get_intr_cause s).testBit 4 = true ∨
        ¬ ∃ b, 4 ≤ b ∧ b ≤ 9 ∧ (mv_chan_get_intr_cause s).testBit b = true) →
      mv_xor_interrupt_handler s =
        irq_outcome.returned
          { s with
            tasklet_count := s.tasklet_count + 1
            intr_cause_writes := s.intr_cause_writes ++ [u32_not (3 <<< (s.idx * 16))] }) := by
  have hbug : ∀ c, c.testBit 4 = false →
      mv_xor_err_interrupt_handler s c = irq_outcome.bug (mv_dump_xor_regs s) := by
    intro c h
    unfold mv_xor_err_interrupt_handler
    rw [if_neg]
    rw [land_bit_4_ne_zero_iff, h]
    decide
  have hret : ∀ c, c.testBit 4 = true →
      mv_xor_err_interrupt_handler s c = irq_outcome.returned s := by
    intro c h
    unfold mv_xor_err_interrupt_handler
    rw [if_pos ((land_bit_4_ne_zero_iff c).mpr h)]
  refine ⟨?_, hbug, hret, ?_, ?_⟩
  · intro c
    have h01 : mv_is_err_intr c = 0 ∨ mv_is_err_intr c = 1 := by
      unfold mv_is_err_intr
      split
      · exact Or.inr rfl
      · exact Or.inl rfl
    have hi := is_err_intr_iff c
    constructor
    · constructor
      · intro h
        exact hi.mp (by rw [h]; decide)
      · intro h
        rcases h01 with h0 | h1
        · exact absurd h0 (hi.mpr h)
        · exact h1
    · constructor
      · intro h h'
        exact hi.mpr h' h
      · intro h
        by_contra h'
        exact h (hi.mp h')
  · rintro ⟨b, h1, h2, h3⟩ h4
    unfold mv_xor_interrupt_handler
    dsimp only
    rw [if_pos ((is_err_intr_iff _).mpr ⟨b, by omega, h2, h3⟩), hbug _ h4]
    rfl
  · intro h
    unfold mv_xor_interrupt_handler
    dsimp only
    by_cases he : mv_is_err_intr (mv_chan_get_intr_cause s) ≠ 0
    · rw [if_pos he]
      rcases h with h | h
      · rw [hret _ h]
        rfl
      · exact absurd ((is_err_intr_iff _).mp he) h
    · rw [if_neg he]
      rfl

/-- Witness for C16: on `chan_cause_5` (only the cause bit `5` set) the
interrupt handler stops in `BUG()` after one register dump; on `chan_cause_4_5`
(bits `4` and `5`) it goes on. -/
theorem interrupt_error_classification_witness :
    (mv_chan_get_intr_cause chan_cause_5).testBit 5 = true ∧
    (mv_chan_get_intr_cause chan_cause_5).testBit 4 = false ∧
    mv_xor_interrupt_handler chan_cause_5 =
      irq_outcome.bug { chan_cause_5 with reg_dumps := chan_cause_5.reg_dumps + 1 } ∧
    (mv_chan_get_intr_cause chan_cause_4_5).testBit 4 = true ∧
    mv_xor_interrupt_handler chan_cause_4_5 =
      irq_outcome.returned
        { chan_cause_4_5 with
          tasklet_count := chan_cause_4_5.tasklet_count + 1
          intr_cause_writes :=
            chan_cause_4_5.intr_cause_writes ++ [u32_not (3 <<< (chan_cause_4_5.idx * 16))] } :=
  ⟨by decide, by decide,
    (interrupt_error_classification chan_cause_5).2.2.2.1 ⟨5, by decide, by decide, by decide⟩
      (by decide),
    by decide,
    (interrupt_error_classification chan_cause_4_5).2.2.2.2 (Or.inl (by decide))⟩

/-! ## C18: the lock during the completion actions -/

/-- Counterexample to C18 as stated. The tasklet `mv_xor_tasklet` is entered on
`chan_in_order` with the lock free; its pass invokes the callbacks of the slots
`0` and `1`, and each of the two callbacks finds the lock held; the lock is
free again after the pass. -/
theorem callback_invoked_with_lock_held :
    chan_in_order.lock_held = false ∧ chan_in_order.callback_views.length = 0 ∧
    (mv_xor_tasklet sample_h chan_in_order).map
      (fun s => s.callback_views.map fun v => (v.idx, v.lock_held)) =
      some [(0, true), (1, true)] ∧
    (mv_xor_tasklet sample_h chan_in_order).map (fun s => callback_slots s.events) =
      some [0, 1] ∧
    (mv_xor_tasklet sample_h chan_in_order).map (fun s => s.lock_held) = some false := by
  decide

/-- C18 (amended). Callbacks run with the channel lock held. For every pass of
`mv_xor_slot_cleanup` (the body of the tasklet `mv_xor_tasklet`) that returns,
on any channel and whatever the lock flag was before: the pass records one
view for every callback that it invokes, in the order of the invocations (the
callbacks of its event log are the slots of the views that it adds), and every
one of these callbacks finds the lock held at the moment
`mv_xor_run_tx_complete_actions` invokes it; the lock is free after the pass.
On a channel whose lists share no slot these callbacks are those of the slots
that the pass completes and that have one, in chain order. -/
theorem callbacks_run_with_lock_held (k : mv_xor_h) (s s' : mv_xor_chan)
    (h : mv_xor_slot_cleanup k s = some s') :
    mv_xor_tasklet k s = some s' ∧ s'.lock_held = false ∧
    ∃ views, s'.callback_views = s.callback_views ++ views ∧
      callback_slots s'.events = callback_slots s.events ++ views.map (fun v => v.idx) ∧
      (∀ v ∈ views, v.lock_held = true) ∧
      ((all_slots s).Nodup →
        views.map (fun v => v.idx) = (cleanup_completed k s).filter (has_callback s.slots)) := by
  obtain ⟨hl, mem, l, hv, hcb⟩ := slot_cleanup_lock_views k s s' h
  refine ⟨h, hl, _, hv, hcb, fun v hm => ((walk_views_spec s.slots true l mem).2 v hm).1, ?_⟩
  intro hnd
  unfold mv_xor_slot_cleanup at h
  dsimp only at h
  cases hc : __mv_xor_slot_cleanup k (spin_lock_bh s) with
  | none => simp [hc] at h
  | some s1 =>
    simp only [hc, Option.some.injEq] at h
    subst h
    have hnd1 : (all_slots (spin_lock_bh s)).Nodup := hnd
    have hviews := (slot_cleanup_views k (spin_lock_bh s) s1 hnd1 hc).2.2
    have hviews' : s1.callback_views = s.callback_views ++
        walk_views s.slots true s.mem (cleanup_completed k s) := hviews
    have hv' : s1.callback_views = s.callback_views ++ walk_views s.slots true mem l := hv
    rw [hviews'] at hv'
    rw [← List.append_cancel_left hv']
    exact (walk_views_spec s.slots true (cleanup_completed k s) s.mem).1

/-- Witness for C18 (amended) on `chan_in_order`: the pass returns with the lock free,
and the callbacks of the slots `0` and `1` find the lock held. -/
theorem callbacks_run_with_lock_held_witness :
    ∃ s', mv_xor_slot_cleanup sample_h chan_in_order = some s' ∧ s'.lock_held = false ∧
      ∃ views, s'.callback_views = chan_in_order.callback_views ++ views ∧
        views.map (fun v => v.idx) = [0, 1] ∧ ∀ v ∈ views, v.lock_held = true := by
  have hs : (mv_xor_slot_cleanup sample_h chan_in_order).isSome = true := by decide
  obtain ⟨s', hs'⟩ := Option.isSome_iff_exists.mp hs
  obtain ⟨_, hl, views, hv, _, hlock, hidx⟩ :=
    callbacks_run_with_lock_held sample_h chan_in_order s' hs'
  have hc : (cleanup_completed sample_h chan_in_order).filter (has_callback chan_in_order.slots) =
      [0, 1] := by decide
  exact ⟨s', hs', hl, views, hv, (hidx (by decide)).trans hc, hlock⟩

/-! ## C19: the forward link -/

/-- C19, evaluated at a failing run. The run `engine_run_to_linked_tail` from
`example_chan` (builds, submissions of allocated slots and a cleanup pass, with
the device marking slot `1` successful and slot `0` not) reaches a channel
whose chain is slot `0` alone, with the forward link of slot `0` still set to
the address of slot `1`; the submission of the allocated slot `2` then hits
the assertion `BUG_ON(hw_desc->phy_next_desc)` of `mv_desc_set_next_desc`. -/
theorem engine_run_reaches_linked_tail :
    example_chan.allocated_slots = [] ∧ example_chan.chain = [] ∧
    (engine_run sample_h engine_run_to_linked_tail example_chan).map
      (fun s => (s.chain, s.allocated_slots, (s.slots 0).hw_desc.phy_next_desc)) =
      some ([0], [2], 4160) ∧
    ((engine_run sample_h engine_run_to_linked_tail example_chan).bind
      fun s => (mv_xor_tx_submit sample_h s 2).map fun r => r.1) = none := by
  decide

theorem free_head_not_mem {s : mv_xor_chan} {i : Nat} {rest : List Nat}
    (hnd : (all_slots s).Nodup) (hf : s.free_slots = i :: rest) :
    i ∉ s.allocated_slots ∧ i ∉ s.chain ∧ i ∉ s.completed_slots := by
  unfold all_slots at hnd
  rw [hf] at hnd
  simp only [List.nodup_append, List.nodup_cons, List.Disjoint, List.mem_append,
    List.mem_cons] at hnd
  obtain ⟨⟨⟨_, _, h1⟩, _, h2⟩, _, h3⟩ := hnd
  exact ⟨fun h => h1 (Or.inl rfl) h, fun h => h2 (Or.inl (Or.inl rfl)) h,
    fun h => h3 (Or.inl (Or.inl (Or.inl rfl))) h⟩

theorem link_inv_build {s s' : mv_xor_chan} (hnd : (all_slots s).Nodup)
    (ha : allocated_unlinked s) (ht : tail_unlinked s) (hb : build_effect s s') :
    (all_slots s').Nodup ∧ allocated_unlinked s' ∧ tail_unlinked s' := by
  rcases hb with e | e | ⟨i, rest, d, hf, hd, e⟩
  · subst e; exact ⟨hnd, ha, ht⟩
  · subst e; exact ⟨hnd, ha, ht⟩
  · obtain ⟨hia, hic, _⟩ := free_head_not_mem hnd hf
    have hi : i ∈ all_slots s := by
      unfold all_slots
      rw [hf]
      simp
    have hperm := all_slots_list_move_tail_perm s i list_head.allocated_slots hnd hi
    have ealloc : s'.allocated_slots = s.allocated_slots ++ [i] := by
      rw [e]
      simp [set_slot, list_move_tail, list_add_tail, list_del, List.erase_of_not_mem hia]
    have echain : s'.chain = s.chain := by
      rw [e]
      simp [set_slot, list_move_tail, list_add_tail, list_del, List.erase_of_not_mem hic]
    have eslots : s'.slots = Function.update s.slots i d := by
      rw [e]; rfl
    refine ⟨?_, ?_, ?_⟩
    · rw [e]
      exact hperm.nodup_iff.mpr hnd
    · intro j hj
      rw [ealloc, List.mem_append, List.mem_singleton] at hj
      rw [eslots]
      by_cases hji : j = i
      · subst hji
        rw [Function.update_same]
        exact hd
      · rw [Function.update_noteq hji]
        rcases hj with hj | hj
        · exact ha j hj
        · exact absurd hj hji
    · intro t htl
      rw [echain] at htl
      have htc : t ∈ s.chain := List.mem_of_getLast?_eq_some htl
      have hti : t ≠ i := fun h => hic (h ▸ htc)
      rw [eslots, Function.update_noteq hti]
      exact ht t htl

theorem engine_step_build (k : mv_xor_h) (op : engine_op) (s s' : mv_xor_chan)
    (h : engine_step k op s = some s') :
    build_effect s s' ∨ (∃ tx, op = engine_op.tx_submit tx) ∨ op = engine_op.slot_cleanup ∨
      (∃ st crc cur act, op = engine_op.device st crc cur act) ∨
      (∃ tx fl cb pa, op = engine_op.client tx fl cb pa) := by
  cases op with
  | tx_submit tx => exact Or.inr (Or.inl ⟨tx, rfl⟩)
  | slot_cleanup => exact Or.inr (Or.inr (Or.inl rfl))
  | device st crc cur act => exact Or.inr (Or.inr (Or.inr (Or.inl ⟨st, crc, cur, act, rfl⟩)))
  | client tx fl cb pa => exact Or.inr (Or.inr (Or.inr (Or.inr ⟨tx, fl, cb, pa, rfl⟩)))
  | prep_dma_interrupt a1 a2 flags =>
    left
    simp only [engine_step, Option.some.injEq] at h
    subst h
    cases hf : s.free_slots with
    | nil =>
      unfold mv_xor_prep_dma_interrupt
      rw [alloc_slot_nil k s hf]
      exact Or.inr (Or.inl rfl)
    | cons i rest =>
      obtain ⟨d, e, hd⟩ := prep_dma_interrupt_accepted k a1 a2 s flags i rest hf
      rw [e]
      exact Or.inr (Or.inr ⟨i, rest, d, hf, hd, rfl⟩)
  | prep_dma_crc32c src len seed flags =>
    left
    simp only [engine_step, Option.some.injEq] at h
    subst h
    by_cases hrej : s.mem seed ≠ 2 ^ 32 - 1 ∨ len < k.MV_XOR_MIN_BYTE_COUNT ∨
        len > k.XOR_MAX_BYTE_COUNT
    · rw [prep_dma_crc32c_refused k s src len seed flags hrej]
      exact Or.inl rfl
    · cases hf : s.free_slots with
      | nil =>
        unfold mv_xor_prep_dma_crc32c
        rw [if_neg hrej, alloc_slot_nil k s hf]
        exact Or.inr (Or.inl rfl)
      | cons i rest =>
        obtain ⟨d, e, hd⟩ := prep_dma_crc32c_accepted k s src len seed flags i rest hf hrej
        rw [e]
        exact Or.inr (Or.inr ⟨i, rest, d, hf, hd, rfl⟩)
  | prep_dma_memcpy dest src len flags =>
    left
    simp only [engine_step] at h
    by_cases h1 : len < k.MV_XOR_MIN_BYTE_COUNT
    · rw [prep_dma_memcpy_refused k s dest src len flags h1] at h
      simp only [Option.map_some', Option.some.injEq] at h
      exact Or.inl h.symm
    · by_cases h2 : len > k.MV_XOR_MAX_BYTE_COUNT
      · rw [prep_dma_memcpy_bug k s dest src len flags (Nat.not_lt.mp h1) h2] at h
        simp at h
      · cases hf : s.free_slots with
        | nil =>
          unfold mv_xor_prep_dma_memcpy at h
          rw [if_neg h1, if_neg h2, alloc_slot_nil k s hf] at h
          simp only [Option.map_some', Option.some.injEq] at h
          exact Or.inr (Or.inl h.symm)
        | cons i rest =>
          obtain ⟨d, e, hd⟩ := prep_dma_memcpy_accepted k s dest src len flags i rest hf
            (Nat.not_lt.mp h1) (Nat.not_lt.mp h2)
          rw [e] at h
          simp only [Option.map_some', Option.some.injEq] at h
          exact Or.inr (Or.inr ⟨i, rest, d, hf, hd, h.symm⟩)
  | prep_dma_xor dest src src_cnt len flags =>
    left
    simp only [engine_step] at h
    by_cases h1 : len < k.MV_XOR_MIN_BYTE_COUNT
    · rw [prep_dma_xor_refused k s dest src src_cnt len flags h1] at h
      simp only [Option.map_some', Option.some.injEq] at h
      exact Or.inl h.symm
    · by_cases h2 : len > k.MV_XOR_MAX_BYTE_COUNT
      · rw [prep_dma_xor_bug k s dest src src_cnt len flags (Nat.not_lt.mp h1) h2] at h
        simp at h
      · cases hf : s.free_slots with
        | nil =>
          unfold mv_xor_prep_dma_xor at h
          rw [if_neg h1, if_neg h2, alloc_slot_nil k s hf] at h
          simp only [Option.map_some', Option.some.injEq] at h
          exact Or.inr (Or.inl h.symm)
        | cons i rest =>
          obtain ⟨d, e, hd⟩ := prep_dma_xor_accepted k s dest src src_cnt len flags i rest hf
            (Nat.not_lt.mp h1) (Nat.not_lt.mp h2)
          rw [e] at h
          simp only [Option.map_some', Option.some.injEq] at h
          exact Or.inr (Or.inr ⟨i, rest, d, hf, hd, h.symm⟩)
  | prep_dma_pq dst src src_cnt scf len flags =>
    left
    simp only [engine_step] at h
    by_cases hr : len < k.MV_XOR_MIN_BYTE_COUNT ∨ (len ≤ k.MV_XOR_MAX_BYTE_COUNT ∧
        (flags &&& k.DMA_PREP_PQ_MULT ≠ 0 ∨ flags &&& k.DMA_PREP_PQ_SUM_PRODUCT ≠ 0))
    · rw [prep_dma_pq_refused k s dst src src_cnt scf len flags hr] at h
      simp only [Option.map_some', Option.some.injEq] at h
      exact Or.inl h.symm
    · have h1 : ¬ len < k.MV_XOR_MIN_BYTE_COUNT := fun h' => hr (Or.inl h')
      by_cases h2 : len > k.MV_XOR_MAX_BYTE_COUNT
      · rw [prep_dma_pq_bug k s dst src src_cnt scf len flags (Nat.not_lt.mp h1) h2] at h
        simp at h
      · have hfl : ¬ (flags &&& k.DMA_PREP_PQ_MULT ≠ 0 ∨
            flags &&& k.DMA_PREP_PQ_SUM_PRODUCT ≠ 0) :=
          fun h' => hr (Or.inr ⟨Nat.not_lt.mp h2, h'⟩)
        cases hf : s.free_slots with
        | nil =>
          unfold mv_xor_prep_dma_pq at h
          rw [if_neg h1, if_neg h2, if_neg hfl, alloc_slot_nil k s hf] at h
          simp only [Option.map_some', Option.some.injEq] at h
          exact Or.inr (Or.inl h.symm)
        | cons i rest =>
          obtain ⟨d0, e, hd, _⟩ := prep_dma_pq_accepted k s dst src src_cnt scf len flags i rest
            hf (Nat.not_lt.mp h1) (Nat.not_lt.mp h2) hfl
          rw [e] at h
          cases hl : pq_src_loop k src scf mv_xor_raid6_coefs 0 0 src_cnt d0 with
          | none => rw [hl] at h; simp at h
          | some d =>
            rw [hl] at h
            simp only [Option.map_some', Option.some.injEq] at h
            have hd' := pq_src_loop_next_desc k src scf _ _ _ _ _ _ hl
            exact Or.inr (Or.inr ⟨i, rest, d, hf, hd'.trans hd, h.symm⟩)

theorem tx_submit_hw_desc (k : mv_xor_h) (s : mv_xor_chan) (tx : Nat) (r : Int × mv_xor_chan)
    (hnd : (all_slots s).Nodup) (htx : tx ∈ s.allocated_slots)
    (hr : mv_xor_tx_submit k s tx = some r) (j : Nat)
    (hj : ∀ t, s.chain.getLast? = some t → j ≠ t) :
    (r.2.slots j).hw_desc = (s.slots j).hw_desc := by
  cases hl : s.chain.getLast? with
  | none =>
    rw [tx_submit_eq] at hr
    simp only [hl, Option.some.injEq] at hr
    subst hr
    dsimp only
    rw [(start_new_chain_lists k _ tx).2.2.2.2.2.1]
    exact slots_move_assign_hw s tx j list_head.chain
  | some t =>
    obtain ⟨c, s'⟩ := r
    exact (tx_submit_append_spec k s tx t hnd hl htx).2 c s' hr |>.2.2.2.1 j (hj t hl)

theorem tx_submit_returns (k : mv_xor_h) (s : mv_xor_chan) (tx : Nat)
    (hnd : (all_slots s).Nodup) (htx : tx ∈ s.allocated_slots) (ht : tail_unlinked s) :
    ∃ r, mv_xor_tx_submit k s tx = some r := by
  cases hl : s.chain.getLast? with
  | none =>
    rw [tx_submit_eq]
    simp only [hl]
    exact ⟨_, rfl⟩
  | some t =>
    have h := (tx_submit_append_spec k s tx t hnd hl htx).1.mpr (ht t hl)
    exact Option.isSome_iff_exists.mp h

theorem link_inv_submit (k : mv_xor_h) (s : mv_xor_chan) (tx : Nat) (r : Int × mv_xor_chan)
    (hnd : (all_slots s).Nodup) (ha : allocated_unlinked s)
    (htx : tx ∈ s.allocated_slots) (hr : mv_xor_tx_submit k s tx = some r) :
    (all_slots r.2).Nodup ∧ allocated_unlinked r.2 ∧ tail_unlinked r.2 := by
  have hf := tx_submit_fields k s tx r hr
  obtain ⟨htc, _, _, _⟩ := not_mem_chain_of_mem_allocated hnd htx
  have hne : ∀ j ∈ s.allocated_slots, ∀ t, s.chain.getLast? = some t → j ≠ t := by
    intro j hj t hl e
    exact (not_mem_chain_of_mem_allocated hnd hj).1 (e ▸ List.mem_of_getLast?_eq_some hl)
  refine ⟨(all_slots_tx_submit_perm k s tx r hnd htx hr).nodup_iff.mpr hnd, ?_, ?_⟩
  · intro j hj
    rw [hf.2.2.2.2.2.2.1] at hj
    have hj' := List.mem_of_mem_erase hj
    rw [tx_submit_hw_desc k s tx r hnd htx hr j (hne j hj')]
    exact ha j hj'
  · intro t hl
    rw [hf.2.2.2.2.1, List.getLast?_concat, Option.some.injEq] at hl
    subst hl
    rw [tx_submit_hw_desc k s tx r hnd htx hr _ (hne _ htx)]
    exact ha _ htx

theorem link_inv_cleanup (k : mv_xor_h) (s s' : mv_xor_chan)
    (hnd : (all_slots s).Nodup) (ha : allocated_unlinked s) (ht : tail_unlinked s)
    (hio : chain_in_order k s = true) (h : __mv_xor_slot_cleanup k s = some s') :
    (all_slots s').Nodup ∧ allocated_unlinked s' ∧ tail_unlinked s' := by
  obtain ⟨es, _, eal, _⟩ := slot_cleanup_spec k s s' hnd h
  have hsplit := chain_split_of_in_order k s s' hnd h hio
  refine ⟨(all_slots_slot_cleanup_perm k s s' hnd h).nodup_iff.mpr hnd, ?_, ?_⟩
  · intro j hj
    rw [eal] at hj
    rw [es]
    exact ha j hj
  · intro t hl
    rw [es]
    apply ht t
    rw [← hsplit, List.getLast?_append, hl]
    rfl

theorem link_inv_engine_step (k : mv_xor_h) (op : engine_op) (s s' : mv_xor_chan)
    (hnd : (all_slots s).Nodup) (ha : allocated_unlinked s) (ht : tail_unlinked s)
    (hio : engine_run_in_order k [op] s = true) (h : engine_step k op s = some s') :
    (all_slots s').Nodup ∧ allocated_unlinked s' ∧ tail_unlinked s' := by
  rcases engine_step_build k op s s' h with hb | ⟨tx, e⟩ | e | ⟨st, crc, cur, act, e⟩ |
    ⟨tx, fl, cb, pa, e⟩
  · exact link_inv_build hnd ha ht hb
  · subst e
    simp only [engine_step, driver_step] at h
    split at h
    · rename_i htx
      rw [Option.map_eq_some'] at h
      obtain ⟨r, hr, e⟩ := h
      subst e
      exact link_inv_submit k s tx r hnd ha htx hr
    · cases h
  · subst e
    simp only [engine_step, driver_step] at h
    have hio' : chain_in_order k s = true := by
      simp only [engine_run_in_order, Bool.and_eq_true] at hio
      exact hio.1
    exact link_inv_cleanup k s s' hnd ha ht hio' h
  · subst e
    simp only [engine_step, driver_step, Option.some.injEq] at h
    subst h
    exact ⟨hnd, fun j hj => ha j hj, fun t hl => ht t hl⟩
  · subst e
    simp only [engine_step, driver_step, Option.some.injEq] at h
    subst h
    refine ⟨hnd, ?_, ?_⟩
    · intro j hj
      have := ha j hj
      unfold client_update set_slot
      by_cases hjt : j = tx
      · subst hjt
        simpa using this
      · simpa [Function.update_noteq hjt] using this
    · intro t hl
      have := ht t hl
      unfold client_update set_slot
      by_cases hjt : t = tx
      · subst hjt
        simpa using this
      · simpa [Function.update_noteq hjt] using this

theorem engine_run_in_order_cons (k : mv_xor_h) (op : engine_op) (ops : List engine_op)
    (s s1 : mv_xor_chan) (h : engine_step k op s = some s1)
    (hio : engine_run_in_order k (op :: ops) s = true) :
    engine_run_in_order k [op] s = true ∧ engine_run_in_order k ops s1 = true := by
  simp only [engine_run_in_order, h, Bool.and_eq_true] at hio ⊢
  exact ⟨⟨hio.1, trivial⟩, hio.2⟩

theorem link_inv_engine_run (k : mv_xor_h) :
    ∀ (ops : List engine_op) (s s' : mv_xor_chan), (all_slots s).Nodup →
      allocated_unlinked s → tail_unlinked s → engine_run_in_order k ops s = true →
      engine_run k ops s = some s' →
      (all_slots s').Nodup ∧ allocated_unlinked s' ∧ tail_unlinked s' := by
  intro ops
  induction ops with
  | nil =>
    intro s s' hnd ha ht _ h
    simp only [engine_run, Option.some.injEq] at h
    subst h
    exact ⟨hnd, ha, ht⟩
  | cons op ops ih =>
    intro s s' hnd ha ht hio h
    rw [engine_run] at h
    cases hs : engine_step k op s with
    | none => simp [hs] at h
    | some s1 =>
      simp only [hs] at h
      obtain ⟨hio1, hio2⟩ := engine_run_in_order_cons k op ops s s1 hs hio
      obtain ⟨hnd1, ha1, ht1⟩ := link_inv_engine_step k op s s1 hnd ha ht hio1 hs
      exact ih s1 s' hnd1 ha1 ht1 hio2 h

/-- The forward link when the device completes in chain order: in every
channel `s` that a run of `engine_run` reaches from a channel whose lists share
no slot and whose `allocated_slots` and `chain` are empty, by builds,
submissions of allocated slots and cleanup passes each of which finds the
successful slots of the chain at its head (together with device and client
writes), the last slot of the chain has a zero forward link. Consequently `mv_xor_tx_submit` of an
allocated slot returns (the assertion of `mv_desc_set_next_desc` is not hit),
and the only forward link it changes is that of the old tail of the chain,
which was zero; a cleanup pass changes no forward link, and every allocated
slot (built, not yet submitted) has a zero forward link. -/
theorem forward_link_single_write (k : mv_xor_h) (ops : List engine_op) (s0 s : mv_xor_chan)
    (hnd : (all_slots s0).Nodup) (ha : s0.allocated_slots = []) (hc : s0.chain = [])
    (hio : engine_run_in_order k ops s0 = true) (hrun : engine_run k ops s0 = some s) :
    tail_unlinked s ∧ allocated_unlinked s ∧
    (∀ tx ∈ s.allocated_slots, ∃ r, mv_xor_tx_submit k s tx = some r ∧
      ∀ j, (r.2.slots j).hw_desc.phy_next_desc ≠ (s.slots j).hw_desc.phy_next_desc →
        s.chain.getLast? = some j ∧ (s.slots j).hw_desc.phy_next_desc = 0) ∧
    (∀ s', __mv_xor_slot_cleanup k s = some s' →
      ∀ j, (s'.slots j).hw_desc.phy_next_desc = (s.slots j).hw_desc.phy_next_desc) := by
  have ha0 : allocated_unlinked s0 := by
    intro j hj
    rw [ha] at hj
    cases hj
  have ht0 : tail_unlinked s0 := by
    intro t hl
    rw [hc] at hl
    cases hl
  obtain ⟨hnd', ha', ht'⟩ := link_inv_engine_run k ops s0 s hnd ha0 ht0 hio hrun
  refine ⟨ht', ha', ?_, ?_⟩
  · intro tx htx
    obtain ⟨r, hr⟩ := tx_submit_returns k s tx hnd' htx ht'
    refine ⟨r, hr, ?_⟩
    intro j hj
    by_contra hn
    apply hj
    rw [tx_submit_hw_desc k s tx r hnd' htx hr j]
    intro t hl e
    subst e
    exact hn ⟨hl, ht' j hl⟩
  · intro s' h j
    rw [(slot_cleanup_spec k s s' hnd' h).1]

/-- The forward link on the run `engine_run_in_chain_order` from
`example_chan`: it ends with slot `1` alone in the chain, its forward link
zero, and the submission of the allocated slot `2` returns. -/
theorem forward_link_single_write_witness :
    (all_slots example_chan).Nodup ∧ example_chan.allocated_slots = [] ∧
    example_chan.chain = [] ∧
    engine_run_in_order sample_h engine_run_in_chain_order example_chan = true ∧
    ∃ s, engine_run sample_h engine_run_in_chain_order example_chan = some s ∧
      s.chain = [1] ∧ (s.slots 1).hw_desc.phy_next_desc = 0 ∧ 2 ∈ s.allocated_slots ∧
      ∃ r, mv_xor_tx_submit sample_h s 2 = some r := by
  have hs : (engine_run sample_h engine_run_in_chain_order example_chan).isSome = true := by
    decide
  obtain ⟨s, hs⟩ := Option.isSome_iff_exists.mp hs
  have hch : (engine_run sample_h engine_run_in_chain_order example_chan).map
      (fun s => (s.chain, s.allocated_slots)) = some ([1], [2]) := by decide
  rw [hs] at hch
  simp only [Option.map_some', Option.some.injEq, Prod.mk.injEq] at hch
  have h := forward_link_single_write sample_h engine_run_in_chain_order example_chan s
    (by decide) rfl rfl (by decide) hs
  have h2 : 2 ∈ s.allocated_slots := by rw [hch.2]; simp
  obtain ⟨r, hr, _⟩ := h.2.2.1 2 h2
  exact ⟨by decide, rfl, rfl, by decide, s, hs, hch.1, h.1 1 (by rw [hch.1]; rfl), h2, r, hr⟩

/-! ## C21 and C23: the resume decision of a cleanup pass -/

theorem list_next_of_split (pre rest : List Nat) (i : Nat) (hi : i ∉ pre) :
    list_next (pre ++ i :: rest) i = rest.head? := by
  unfold list_next
  induction pre with
  | nil => simp
  | cons a pre ih =>
    have ha : a ≠ i := fun e => hi (e ▸ List.mem_cons_self _ _)
    have hi' : i ∉ pre := fun h => hi (List.mem_cons_of_mem _ h)
    rw [List.cons_append, List.dropWhile_cons_of_pos (by simpa using ha)]
    exact ih hi'

theorem find_none_of_walk_visited (slots : Nat → mv_xor_desc_slot) (cur : Nat) :
    ∀ l : List Nat, (∀ j ∈ walk_visited slots cur l, (slots j).async_tx.phys ≠ cur) →
      l.find? (fun j => decide ((slots j).async_tx.phys = cur)) = none := by
  intro l
  induction l with
  | nil => intro _; rfl
  | cons a l ih =>
    intro h
    rw [walk_visited] at h
    by_cases ha : (slots a).async_tx.phys = cur
    · rw [if_pos ha] at h
      exact absurd ha (h a (List.mem_singleton.mpr rfl))
    · rw [if_neg ha] at h
      rw [List.find?_cons_of_neg _ (by simpa using ha)]
      exact ih (fun j hj => h j (List.mem_cons_of_mem _ hj))

/-- The locals of a cleanup pass at the resume decision, and the fields that
the decision writes. -/
theorem slot_cleanup_resume (k : mv_xor_h) (s s' : mv_xor_chan) (hnd : (all_slots s).Nodup)
    (h : __mv_xor_slot_cleanup k s = some s') :
    ∃ r : cleanup_locals,
      r.chan.chain = s'.chain ∧ r.chan.slots = s.slots ∧ r.chan.pending = s.pending ∧
      r.chan.xor_next_desc = s.xor_next_desc ∧ r.chan.activate_count = s.activate_count ∧
      r.chan.tasklet_count = s.tasklet_count ∧
      r.iter = s.chain.find?
        (fun j => decide ((s.slots j).async_tx.phys = mv_chan_get_current_desc s)) ∧
      r.current_cleaned = (match r.iter with
        | some i => slot_success k s.slots i
        | none => false) ∧
      s'.pending = (cleanup_resume k (mv_chan_is_busy s) r).pending ∧
      s'.xor_next_desc = (cleanup_resume k (mv_chan_is_busy s) r).xor_next_desc ∧
      s'.activate_count = (cleanup_resume k (mv_chan_is_busy s) r).activate_count ∧
      s'.tasklet_count = (cleanup_resume k (mv_chan_is_busy s) r).tasklet_count := by
  unfold __mv_xor_slot_cleanup at h
  dsimp only at h
  have hp := all_slots_clean_completed_perm k s hnd
  have hnd1 := hp.nodup_iff.mpr hnd
  have e1 := clean_completed_slots_spec k s hnd
  generalize mv_xor_clean_completed_slots k s = s1 at h hnd1 e1
  cases hl : cleanup_chain_loop k (mv_chan_get_current_desc s) s1.chain s1 0 with
  | none => simp [hl] at h
  | some r =>
    simp only [hl, Option.some.injEq] at h
    obtain ⟨f1, _, _, _, _, _, f7, f8⟩ :=
      cleanup_chain_loop_spec k _ s1.chain [] s1 0 r hnd1 (by simp) hl
    have hslots1 : s1.slots = s.slots := by rw [e1]
    have hchain1 : s1.chain = s.chain := by rw [e1]
    rw [hslots1, hchain1] at f7
    rw [hslots1] at f8
    have g := cleanup_resume_frame k (mv_chan_is_busy s) r
    unfold resume_frame at g
    unfold cleanup_frame at f1
    have hr : r.chan.slots = s.slots ∧ r.chan.pending = s.pending ∧
        r.chan.xor_next_desc = s.xor_next_desc ∧ r.chan.activate_count = s.activate_count ∧
        r.chan.tasklet_count = s.tasklet_count := by
      rw [f1, e1]
      exact ⟨rfl, rfl, rfl, rfl, rfl⟩
    have hch : (cleanup_resume k (mv_chan_is_busy s) r).chain = r.chan.chain := by
      rw [g]
    refine ⟨r, ?_, hr.1, hr.2.1, hr.2.2.1, hr.2.2.2.1, hr.2.2.2.2, f7, f8, ?_, ?_, ?_, ?_⟩
    · subst h
      split <;> exact hch.symm
    all_goals
      subst h
      split <;> rfl

theorem resume_armed (k : mv_xor_h) (s s' : mv_xor_chan) (r : cleanup_locals) (n : Nat)
    (hs : r.chan.slots = s.slots) (hp : r.chan.pending = s.pending)
    (ha : r.chan.activate_count = s.activate_count)
    (ht : r.chan.tasklet_count = s.tasklet_count)
    (e1 : s'.pending = (mv_xor_start_new_chain k r.chan n).pending)
    (e2 : s'.xor_next_desc = (mv_xor_start_new_chain k r.chan n).xor_next_desc)
    (e3 : s'.activate_count = (mv_xor_start_new_chain k r.chan n).activate_count)
    (e4 : s'.tasklet_count = (mv_xor_start_new_chain k r.chan n).tasklet_count) :
    armed_for k (s.slots n).async_tx.phys s s' ∧ s'.tasklet_count = s.tasklet_count := by
  obtain ⟨a, t⟩ := start_new_chain_armed k r.chan n
  unfold armed_for at a ⊢
  rw [hs, hp, ha] at a
  rw [e1, e2, e3, e4, t, ht]
  exact ⟨a, rfl⟩

theorem cleanup_resume_off (k : mv_xor_h) (busy : Bool) (r : cleanup_locals)
    (h : busy = true ∨ r.chan.chain = []) : cleanup_resume k busy r = r.chan := by
  unfold cleanup_resume
  dsimp only
  rw [if_neg]
  rintro ⟨h1, h2⟩
  rcases h with h | h
  · rw [h] at h1; cases h1
  · exact h2 h

theorem cleanup_resume_cleaned (k : mv_xor_h) (r : cleanup_locals) (hd : Nat)
    (hh : r.chan.chain.head? = some hd) (hc : r.current_cleaned = true) :
    cleanup_resume k false r = mv_xor_start_new_chain k r.chan hd := by
  have hne : r.chan.chain ≠ [] := by
    intro e
    rw [e] at hh
    cases hh
  unfold cleanup_resume
  dsimp only
  rw [if_pos ⟨rfl, hne⟩, if_pos hc, hh]

theorem cleanup_resume_next (k : mv_xor_h) (r : cleanup_locals) (hne : r.chan.chain ≠ [])
    (hc : r.current_cleaned = false) :
    cleanup_resume k false r =
      (match (match r.iter with
          | some iter => list_next r.chan.chain iter
          | none => r.chan.chain.head?) with
        | some iter => mv_xor_start_new_chain k r.chan iter
        | none => tasklet_schedule r.chan) := by
  unfold cleanup_resume
  dsimp only
  rw [if_pos ⟨rfl, hne⟩, if_neg (by rw [hc]; decide)]

/-- C21. Resume decision of a cleanup pass, on a channel whose lists share no
slot. When the device was busy at the start of the pass or the chain is empty
after the walk, the pass writes no register, leaves the pending counter and the
doorbell alone and schedules no tasklet. When the device was not busy and the
chain is not empty after the walk, and the walk stopped on slot `i` (the first
chained slot whose address is the current-descriptor snapshot): if `i` is
successful the device is armed for the new head of the chain; if `i` is not yet
successful and not the last slot of the chain, the device is armed for the slot
that follows `i` in the chain; if `i` is not yet successful and is the last
slot of the chain, nothing is armed and the tasklet is scheduled once. Arming
is that of `mv_xor_start_new_chain`: the next-descriptor register gets the
address of the slot, the pending counter is incremented and the threshold rule
of the doorbell is applied. -/
theorem cleanup_resume_decision (k : mv_xor_h) (s s' : mv_xor_chan)
    (hnd : (all_slots s).Nodup) (h : __mv_xor_slot_cleanup k s = some s') :
    ((mv_chan_is_busy s = true ∨ s'.chain = []) →
      s'.xor_next_desc = s.xor_next_desc ∧ s'.pending = s.pending ∧
      s'.activate_count = s.activate_count ∧ s'.tasklet_count = s.tasklet_count) ∧
    (mv_chan_is_busy s = false → s'.chain ≠ [] →
      ∀ i, s.chain.find?
          (fun j => decide ((s.slots j).async_tx.phys = mv_chan_get_current_desc s)) = some i →
        (slot_success k s.slots i = true →
          ∃ hd, s'.chain.head? = some hd ∧
            armed_for k (s.slots hd).async_tx.phys s s' ∧
            s'.tasklet_count = s.tasklet_count) ∧
        (slot_success k s.slots i = false → s'.chain.getLast? ≠ some i →
          ∃ pre n post, s'.chain = pre ++ i :: n :: post ∧
            armed_for k (s.slots n).async_tx.phys s s' ∧
            s'.tasklet_count = s.tasklet_count) ∧
        (slot_success k s.slots i = false → s'.chain.getLast? = some i →
          s'.xor_next_desc = s.xor_next_desc ∧ s'.pending = s.pending ∧
          s'.activate_count = s.activate_count ∧
          s'.tasklet_count = s.tasklet_count + 1)) := by
  obtain ⟨r, hc, hs, hp, hn, ha, ht, hi, hcc, e1, e2, e3, e4⟩ := slot_cleanup_resume k s s' hnd h
  refine ⟨?_, ?_⟩
  · intro hoff
    have hres := cleanup_resume_off k (mv_chan_is_busy s) r (by rw [hc]; exact hoff)
    rw [hres] at e1 e2 e3 e4
    exact ⟨e2.trans hn, e1.trans hp, e3.trans ha, e4.trans ht⟩
  · intro hidle hne i hfind
    rw [hidle] at e1 e2 e3 e4
    rw [hfind] at hi
    rw [hi] at hcc
    dsimp only at hcc
    have hnd' : s'.chain.Nodup :=
      chain_nodup_of_all_slots ((all_slots_slot_cleanup_perm k s s' hnd h).nodup_iff.mpr hnd)
    have hsplit : slot_success k s.slots i = false →
        ∃ pre rest, s'.chain = pre ++ i :: rest ∧ i ∉ pre ∧ i ∉ rest := by
      intro hsucc
      have hmem : i ∈ s'.chain := by
        rw [mem_chain_after_cleanup k s s' hnd h i]
        refine ⟨List.mem_of_find?_eq_some hfind, ?_⟩
        rintro ⟨_, h2⟩
        rw [hsucc] at h2
        cases h2
      obtain ⟨pre, rest, e⟩ := List.append_of_mem hmem
      rw [e] at hnd'
      have h1 := List.nodup_append.mp hnd'
      refine ⟨pre, rest, e, ?_, (List.nodup_cons.mp h1.2.1).1⟩
      intro hp'
      exact h1.2.2 hp' (List.mem_cons_self _ _)
    refine ⟨?_, ?_, ?_⟩
    · intro hsucc
      obtain ⟨hd, hh⟩ : ∃ hd, s'.chain.head? = some hd := by
        cases hch : s'.chain with
        | nil => exact absurd hch hne
        | cons a l => exact ⟨a, rfl⟩
      have hres := cleanup_resume_cleaned k r hd (by rw [hc]; exact hh) (by rw [hcc]; exact hsucc)
      rw [hres] at e1 e2 e3 e4
      exact ⟨hd, hh, resume_armed k s s' r hd hs hp ha ht e1 e2 e3 e4⟩
    · intro hsucc hlast
      obtain ⟨pre, rest, e, hpre, hrest⟩ := hsplit hsucc
      have hres := cleanup_resume_next k r (by rw [hc]; exact hne) (by rw [hcc]; exact hsucc)
      rw [hi, hc, e] at hres
      dsimp only at hres
      rw [list_next_of_split pre rest i hpre] at hres
      cases rest with
      | nil =>
        rw [e] at hlast
        simp at hlast
      | cons n post =>
        simp only [List.head?_cons] at hres
        rw [hres] at e1 e2 e3 e4
        exact ⟨pre, n, post, e, resume_armed k s s' r n hs hp ha ht e1 e2 e3 e4⟩
    · intro hsucc hlast
      obtain ⟨pre, rest, e, hpre, hrest⟩ := hsplit hsucc
      have hres := cleanup_resume_next k r (by rw [hc]; exact hne) (by rw [hcc]; exact hsucc)
      rw [hi, hc, e] at hres
      dsimp only at hres
      rw [list_next_of_split pre rest i hpre] at hres
      cases rest with
      | nil =>
        simp only [List.head?_nil] at hres
        rw [hres] at e1 e2 e3 e4
        exact ⟨e2.trans hn, e1.trans hp, e3.trans ha, by rw [e4, ← ht]; rfl⟩
      | cons n post =>
        exfalso
        rw [e] at hlast
        have hl := List.mem_of_getLast?_eq_some hlast
        have hlast' : (n :: post).getLast? = some i := by
          rw [List.getLast?_append, List.getLast?_cons_cons] at hlast
          cases hq : (n :: post).getLast? with
          | none => simp at hq
          | some q =>
            rw [hq] at hlast
            simpa using hlast
        exact hrest (List.mem_of_getLast?_eq_some hlast')

/-- Witness for C21 on `chan_resume_next` (the walk stops on slot `1`, not yet
successful and followed by slot `2`: the device is armed for slot `2`), on
`chan_resume_cleaned` (the walk stops on the successful slot `1`: the device is
armed for the new head) and on `chan_tail_drained` (the walk stops on the last
slot: the tasklet is scheduled). -/
theorem cleanup_resume_decision_witness :
    (∃ s', __mv_xor_slot_cleanup sample_h chan_resume_next = some s' ∧
      ∃ pre n post, s'.chain = pre ++ 1 :: n :: post ∧
        armed_for sample_h (chan_resume_next.slots n).async_tx.phys chan_resume_next s' ∧
        s'.tasklet_count = chan_resume_next.tasklet_count) ∧
    (∃ s', __mv_xor_slot_cleanup sample_h chan_resume_cleaned = some s' ∧
      ∃ hd, s'.chain.head? = some hd ∧
        armed_for sample_h (chan_resume_cleaned.slots hd).async_tx.phys chan_resume_cleaned s' ∧
        s'.tasklet_count = chan_resume_cleaned.tasklet_count) ∧
    (∃ s', __mv_xor_slot_cleanup sample_h chan_tail_drained = some s' ∧
      s'.xor_next_desc = chan_tail_drained.xor_next_desc ∧
      s'.pending = chan_tail_drained.pending ∧
      s'.activate_count = chan_tail_drained.activate_count ∧
      s'.tasklet_count = chan_tail_drained.tasklet_count + 1) := by
  refine ⟨?_, ?_, ?_⟩
  · have hs : (__mv_xor_slot_cleanup sample_h chan_resume_next).isSome = true := by decide
    obtain ⟨s', hs'⟩ := Option.isSome_iff_exists.mp hs
    have hch : (__mv_xor_slot_cleanup sample_h chan_resume_next).map (fun s => s.chain) =
        some [1, 2] := by decide
    rw [hs'] at hch
    simp only [Option.map_some', Option.some.injEq] at hch
    have h := (cleanup_resume_decision sample_h chan_resume_next s' (by decide) hs').2
      (by decide) (by rw [hch]; simp) 1 (by decide)
    exact ⟨s', hs', h.2.1 (by decide) (by rw [hch]; decide)⟩
  · have hs : (__mv_xor_slot_cleanup sample_h chan_resume_cleaned).isSome = true := by decide
    obtain ⟨s', hs'⟩ := Option.isSome_iff_exists.mp hs
    have hch : (__mv_xor_slot_cleanup sample_h chan_resume_cleaned).map (fun s => s.chain) =
        some [2] := by decide
    rw [hs'] at hch
    simp only [Option.map_some', Option.some.injEq] at hch
    have h := (cleanup_resume_decision sample_h chan_resume_cleaned s' (by decide) hs').2
      (by decide) (by rw [hch]; simp) 1 (by decide)
    exact ⟨s', hs', h.1 (by decide)⟩
  · have hs : (__mv_xor_slot_cleanup sample_h chan_tail_drained).isSome = true := by decide
    obtain ⟨s', hs'⟩ := Option.isSome_iff_exists.mp hs
    have hch : (__mv_xor_slot_cleanup sample_h chan_tail_drained).map (fun s => s.chain) =
        some [0] := by decide
    rw [hs'] at hch
    simp only [Option.map_some', Option.some.injEq] at hch
    have h := (cleanup_resume_decision sample_h chan_tail_drained s' (by decide) hs').2
      (by decide) (by rw [hch]; simp) 0 (by decide)
    exact ⟨s', hs', h.2.2 (by decide) (by rw [hch]; rfl)⟩

theorem walk_visited_of_not_current (slots : Nat → mv_xor_desc_slot) (cur : Nat) :
    ∀ l : List Nat, (∀ j ∈ walk_visited slots cur l, (slots j).async_tx.phys ≠ cur) →
      walk_visited slots cur l = l := by
  intro l
  induction l with
  | nil => intro _; rfl
  | cons a l ih =>
    intro h
    rw [walk_visited] at h ⊢
    by_cases ha : (slots a).async_tx.phys = cur
    · rw [if_pos ha] at h
      exact absurd ha (h a (List.mem_singleton.mpr rfl))
    · rw [if_neg ha] at h ⊢
      rw [ih (fun j hj => h j (List.mem_cons_of_mem _ hj))]

/-- C23. A walk that never meets the current descriptor, on a channel whose
lists share no slot: when the device was not busy at the start of the cleanup
pass, no slot that the walk visits in the chain has the address of the
current-descriptor snapshot, and the chain is not empty after the walk, then
the walk has visited the whole chain, the chain keeps its slots that are not
yet successful, and the pass arms the device for the first of them (the
next-descriptor register gets its address, the pending counter is incremented
and the threshold rule of the doorbell is applied) and schedules no tasklet:
the cursor that the loop leaves at the list head is not the last node, and the
node after it is the head of the chain. -/
theorem cleanup_walk_past_current (k : mv_xor_h) (s s' : mv_xor_chan)
    (hnd : (all_slots s).Nodup) (h : __mv_xor_slot_cleanup k s = some s')
    (hidle : mv_chan_is_busy s = false)
    (hnone : ∀ j ∈ cleanup_visited s, (s.slots j).async_tx.phys ≠ mv_chan_get_current_desc s)
    (hne : s'.chain ≠ []) :
    cleanup_visited s = s.chain ∧
    s'.chain = s.chain.filter (fun i => !slot_success k s.slots i) ∧
    ∃ hd, s'.chain.head? = some hd ∧
      armed_for k (s.slots hd).async_tx.phys s s' ∧
      s'.tasklet_count = s.tasklet_count := by
  obtain ⟨r, hc, hs, hp, hn, ha, ht, hi, hcc, e1, e2, e3, e4⟩ := slot_cleanup_resume k s s' hnd h
  have hv : cleanup_visited s = s.chain := walk_visited_of_not_current _ _ _ hnone
  have hchain := (slot_cleanup_spec k s s' hnd h).2.2.2.2.2.2.1
  rw [hv, List.drop_length, List.append_nil] at hchain
  refine ⟨hv, hchain, ?_⟩
  rw [find_none_of_walk_visited _ _ _ hnone] at hi
  rw [hi] at hcc
  dsimp only at hcc
  obtain ⟨hd, hh⟩ : ∃ hd, s'.chain.head? = some hd := by
    cases hch : s'.chain with
    | nil => exact absurd hch hne
    | cons a l => exact ⟨a, rfl⟩
  have hres := cleanup_resume_next k r (by rw [hc]; exact hne) hcc
  rw [hi, hc] at hres
  dsimp only at hres
  rw [hh] at hres
  dsimp only at hres
  rw [hidle, hres] at e1 e2 e3 e4
  exact ⟨hd, hh, resume_armed k s s' r hd hs hp ha ht e1 e2 e3 e4⟩

/-- Witness for C23 on `chan_walk_past_current`: the pass leaves slot `1` alone
in the chain and arms the device for it. -/
theorem cleanup_walk_past_current_witness :
    (all_slots chan_walk_past_current).Nodup ∧ mv_chan_is_busy chan_walk_past_current = false ∧
    ∃ s', __mv_xor_slot_cleanup sample_h chan_walk_past_current = some s' ∧
      s'.chain = [1] ∧
      armed_for sample_h (chan_walk_past_current.slots 1).async_tx.phys
        chan_walk_past_current s' ∧
      s'.tasklet_count = chan_walk_past_current.tasklet_count := by
  have hs : (__mv_xor_slot_cleanup sample_h chan_walk_past_current).isSome = true := by decide
  obtain ⟨s', hs'⟩ := Option.isSome_iff_exists.mp hs
  have hch : (__mv_xor_slot_cleanup sample_h chan_walk_past_current).map (fun s => s.chain) =
      some [1] := by decide
  rw [hs'] at hch
  simp only [Option.map_some', Option.some.injEq] at hch
  obtain ⟨_, _, hd, hh, harm, htl⟩ := cleanup_walk_past_current sample_h chan_walk_past_current s'
    (by decide) hs' (by decide) (by decide) (by rw [hch]; simp)
  rw [hch] at hh
  simp only [List.head?_cons, Option.some.injEq] at hh
  subst hh
  exact ⟨by decide, by decide, s', hs', hch, harm, htl⟩

/-! ## C22: the scan of the parity builder and the command word -/

theorem testBit_one_shiftLeft (i b : Nat) : (1 <<< i).testBit b = decide (i = b) := by
  rw [Nat.one_shiftLeft, Nat.testBit_two_pow]

theorem desc_init_command_bit (k : mv_xor_h) (d : mv_xor_desc_slot) (flags b : Nat)
    (hb : b < 8) : (mv_desc_init k d flags).hw_desc.desc_command.testBit b = false := by
  have h31 : (1 <<< 31 : Nat).testBit b = false := by
    rw [testBit_one_shiftLeft]
    exact decide_eq_false (by omega)
  have h30 : (1 <<< 30 : Nat).testBit b = false := by
    rw [testBit_one_shiftLeft]
    exact decide_eq_false (by omega)
  unfold mv_desc_init
  dsimp only
  split <;> split <;>
    simp only [Nat.testBit_or, Nat.zero_testBit, h31, h30, Bool.or_false]

theorem set_mode_command_pq (k : mv_xor_h) (d : mv_xor_desc_slot)
    (ht : d.type = dma_transaction_type.DMA_PQ) :
    (mv_desc_set_mode k d).hw_desc.desc_command =
      d.hw_desc.desc_command ||| k.XOR_DESC_OPERATION_PQ := by
  unfold mv_desc_set_mode
  dsimp only
  rw [ht]

theorem set_byte_count_command (d : mv_xor_desc_slot) (n : Nat) :
    (mv_desc_set_byte_count d n).hw_desc.desc_command = d.hw_desc.desc_command := rfl

theorem set_dest_addr_command_bit (d : mv_xor_desc_slot) (addr b : Nat) (hb : b < 8) :
    (mv_desc_set_dest_addr d addr).hw_desc.desc_command.testBit b =
      d.hw_desc.desc_command.testBit b := by
  unfold mv_desc_set_dest_addr
  dsimp only
  split
  · simp only [Nat.testBit_or, testBit_one_shiftLeft]
    have : decide (8 = b) = false := decide_eq_false (by omega)
    rw [this, Bool.or_false]
  · rfl

theorem set_q_dest_addr_command_bit (d : mv_xor_desc_slot) (addr b : Nat) (hb : b < 8) :
    (mv_desc_set_q_dest_addr d addr).hw_desc.desc_command.testBit b =
      d.hw_desc.desc_command.testBit b := by
  unfold mv_desc_set_q_dest_addr
  dsimp only
  split
  · simp only [Nat.testBit_or, testBit_one_shiftLeft]
    have : decide (9 = b) = false := decide_eq_false (by omega)
    rw [this, Bool.or_false]
  · rfl

theorem set_src_addr_command_pq (k : mv_xor_h) (d : mv_xor_desc_slot) (index addr : Nat)
    (ht : d.type = dma_transaction_type.DMA_PQ) :
    (mv_desc_set_src_addr k d index addr).hw_desc.desc_command =
      d.hw_desc.desc_command ||| (1 <<< index) := by
  unfold mv_desc_set_src_addr
  dsimp only
  rw [if_pos (Or.inr ht)]

theorem foldl_set_src_addr_type (k : mv_xor_h) :
    ∀ (ps : List (Nat × Nat)) (d : mv_xor_desc_slot),
      (ps.foldl (fun d p => mv_desc_set_src_addr k d p.1 p.2) d).type = d.type ∧
      (ps.foldl (fun d p => mv_desc_set_src_addr k d p.1 p.2) d).unmap_src_cnt =
        d.unmap_src_cnt := by
  intro ps
  induction ps with
  | nil => intro d; exact ⟨rfl, rfl⟩
  | cons p ps ih =>
    intro d
    rw [List.foldl_cons, (ih _).1, (ih _).2]
    simp only [set_src_addr_fields, and_self]

theorem foldl_set_src_addr_command (k : mv_xor_h) :
    ∀ (ps : List (Nat × Nat)) (d : mv_xor_desc_slot), d.type = dma_transaction_type.DMA_PQ →
      ∀ b, (ps.foldl (fun d p => mv_desc_set_src_addr k d p.1 p.2) d).hw_desc.desc_command.testBit
          b = true ↔
        (d.hw_desc.desc_command.testBit b = true ∨ ∃ p ∈ ps, p.1 = b) := by
  intro ps
  induction ps with
  | nil =>
    intro d _ b
    simp
  | cons p ps ih =>
    intro d ht b
    have ht' : (mv_desc_set_src_addr k d p.1 p.2).type = dma_transaction_type.DMA_PQ := by
      rw [(set_src_addr_fields k d p.1 p.2).1, ht]
    rw [List.foldl_cons, ih _ ht' b, set_src_addr_command_pq k d p.1 p.2 ht, Nat.testBit_or,
      testBit_one_shiftLeft]
    simp only [Bool.or_eq_true, decide_eq_true_eq, List.mem_cons, exists_eq_or_imp]
    tauto

theorem prep_dma_pq_entry (k : mv_xor_h) (s : mv_xor_chan) (dst src : Nat → Nat)
    (src_cnt : Nat) (scf : Nat → Nat) (len flags : Nat) (i : Nat) (rest : List Nat)
    (hf : s.free_slots = i :: rest)
    (h1 : k.MV_XOR_MIN_BYTE_COUNT ≤ len) (h2 : len ≤ k.MV_XOR_MAX_BYTE_COUNT)
    (hfl : ¬ (flags &&& k.DMA_PREP_PQ_MULT ≠ 0 ∨ flags &&& k.DMA_PREP_PQ_SUM_PRODUCT ≠ 0)) :
    ∃ d0, mv_xor_prep_dma_pq k s dst src src_cnt scf len flags =
        (pq_src_loop k src scf mv_xor_raid6_coefs 0 0 src_cnt d0).map (fun d =>
          (some i, set_slot i d (list_move_tail i list_head.allocated_slots s))) ∧
      d0.type = dma_transaction_type.DMA_PQ ∧ d0.unmap_src_cnt = src_cnt ∧
      ∀ b, b < 8 → d0.hw_desc.desc_command.testBit b = true →
        s.op_in_desc = mv_xor_mode.XOR_MODE_IN_DESC ∧
          k.XOR_DESC_OPERATION_PQ.testBit b = true := by
  unfold mv_xor_prep_dma_pq
  rw [if_neg (Nat.not_lt.mpr h1), if_neg (Nat.not_lt.mpr h2), if_neg hfl,
    alloc_slot_cons k s i rest hf]
  dsimp only
  simp only [set_slot_set_slot]
  split
  all_goals
    rename_i heq
    refine ⟨_, (congrArg (Option.map fun d =>
      (some i, set_slot i d (list_move_tail i list_head.allocated_slots s))) heq).symm,
      ?_, ?_, ?_⟩
    · split <;> split <;> split <;>
        simp only [set_q_dest_addr_fields, set_dest_addr_fields, set_byte_count_fields,
          set_mode_fields, desc_init_fields]
    · rfl
    · intro b hb
      dsimp only
      split <;> split <;> split <;> rename_i hop <;>
        simp only [set_q_dest_addr_command_bit _ _ _ hb, set_dest_addr_command_bit _ _ _ hb,
          set_byte_count_command, desc_init_command_bit _ _ _ _ hb] <;>
        first
        | (intro hbit; cases hbit)
        | (rw [set_mode_command_pq _ _ (by simp only [desc_init_fields]), Nat.testBit_or,
            desc_init_command_bit _ _ _ _ hb, Bool.false_or]
           exact fun hbit => ⟨hop, hbit⟩)

theorem raid6_coefs_index :
    ∀ x ∈ mv_xor_raid6_coefs, ∀ b < 8,
      (mv_xor_raid6_coefs.indexOf x = b ↔ mv_xor_raid6_coefs[b]? = some x) := by
  decide

/-- C22. Lockstep scan of the parity builder. For every coefficient array whose
first `src_cnt` entries are a strictly ascending selection from the table
`mv_xor_raid6_coefs` (a sublist of the table), with a length within the bounds,
neither of the flags `DMA_PREP_PQ_MULT` and `DMA_PREP_PQ_SUM_PRODUCT`, and
`free_slots` starting with slot `i`: `src_cnt` is at most `8`; the loop of
`mv_xor_prep_dma_pq`, entered with the descriptor `d0` that the builder has
prepared, returns a descriptor `d` without reading the table past its eight
entries, and the builder returns slot `i` holding `d`; `d` has every source `j`
set by `mv_desc_set_src_addr` at the table index `b` with
`mv_xor_raid6_coefs[b] = scf j` (so source `j` is in the source word of that
index when `mv_phy_src_idx` is injective on the eight indices); when the
operation code `XOR_DESC_OPERATION_PQ` that `mv_desc_set_mode` puts into the
command word has none of the bits `0..7`, the bits set among the bits `0..7` of
the command word of `d` are exactly the indices `b` with
`mv_xor_raid6_coefs[b] = scf j` for a source `j`; and the unmap source count of
`d` is `src_cnt`. -/
theorem prep_dma_pq_lockstep_scan (k : mv_xor_h) (s : mv_xor_chan) (dst src : Nat → Nat)
    (src_cnt : Nat) (scf : Nat → Nat) (len flags : Nat) (i : Nat) (rest : List Nat)
    (hf : s.free_slots = i :: rest)
    (h1 : k.MV_XOR_MIN_BYTE_COUNT ≤ len) (h2 : len ≤ k.MV_XOR_MAX_BYTE_COUNT)
    (hfl : flags &&& k.DMA_PREP_PQ_MULT = 0 ∧ flags &&& k.DMA_PREP_PQ_SUM_PRODUCT = 0)
    (hsub : List.Sublist ((List.range src_cnt).map scf) mv_xor_raid6_coefs) :
    src_cnt ≤ 8 ∧
    ∃ d0 d, pq_src_loop k src scf mv_xor_raid6_coefs 0 0 src_cnt d0 = some d ∧
      mv_xor_prep_dma_pq k s dst src src_cnt scf len flags =
        some (some i, set_slot i d (list_move_tail i list_head.allocated_slots s)) ∧
      d = pq_placed k src scf src_cnt d0 ∧
      d.unmap_src_cnt = src_cnt ∧
      (∀ j, j < src_cnt → ∃ b, b < 8 ∧ mv_xor_raid6_coefs[b]? = some (scf j) ∧
        ((∀ a c, a < 8 → c < 8 → k.mv_phy_src_idx a = k.mv_phy_src_idx c → a = c) →
          d.hw_desc.phy_src_addr (k.mv_phy_src_idx b) = src j)) ∧
      ((s.op_in_desc = mv_xor_mode.XOR_MODE_IN_DESC →
          ∀ b, b < 8 → k.XOR_DESC_OPERATION_PQ.testBit b = false) →
        ∀ b, b < 8 → (d.hw_desc.desc_command.testBit b = true ↔
          ∃ j, j < src_cnt ∧ mv_xor_raid6_coefs[b]? = some (scf j))) := by
  have hlen : src_cnt ≤ 8 := by
    have h := hsub.length_le
    simpa [mv_xor_raid6_coefs] using h
  have hmem : ∀ j, j < src_cnt → scf j ∈ mv_xor_raid6_coefs := fun j hj =>
    hsub.subset (List.mem_map.mpr ⟨j, List.mem_range.mpr hj, rfl⟩)
  have hlt : ∀ j, j < src_cnt → mv_xor_raid6_coefs.indexOf (scf j) < 8 := fun j hj =>
    List.indexOf_lt_length.mpr (hmem j hj)
  obtain ⟨d0, e, ht, hu, hcmd⟩ := prep_dma_pq_entry k s dst src src_cnt scf len flags i rest hf
    h1 h2 (by simp [hfl.1, hfl.2])
  have hloop := pq_src_loop_placed k src scf src_cnt d0 hsub
  rw [hloop] at e
  refine ⟨hlen, d0, pq_placed k src scf src_cnt d0, hloop, e, rfl, ?_, ?_, ?_⟩
  · unfold pq_placed
    rw [(foldl_set_src_addr_type k _ d0).2, hu]
  · intro j hj
    refine ⟨mv_xor_raid6_coefs.indexOf (scf j), hlt j hj,
      (raid6_coefs_index _ (hmem j hj) _ (hlt j hj)).mp rfl, ?_⟩
    intro hinj
    exact pq_placed_src_addr k src scf src_cnt d0 hinj hsub j hj
  · intro hop b hb
    unfold pq_placed
    rw [foldl_set_src_addr_command k _ d0 ht b]
    have hd0 : ¬ d0.hw_desc.desc_command.testBit b = true := by
      intro hbit
      obtain ⟨hin, hbit'⟩ := hcmd b hb hbit
      rw [hop hin b hb] at hbit'
      cases hbit'
    constructor
    · rintro (hbit | ⟨p, hp, hpb⟩)
      · exact absurd hbit hd0
      · obtain ⟨j, hj, rfl⟩ := List.mem_map.mp hp
        have hj' := List.mem_range.mp hj
        exact ⟨j, hj', (raid6_coefs_index _ (hmem j hj') b hb).mp hpb⟩
    · rintro ⟨j, hj, hb'⟩
      right
      exact ⟨(mv_xor_raid6_coefs.indexOf (scf j), src j),
        List.mem_map.mpr ⟨j, List.mem_range.mpr hj, rfl⟩,
        (raid6_coefs_index _ (hmem j hj) b hb).mpr hb'⟩

/-- Witness for C22 on `example_chan` with the coefficients `1, 2`: the builder
returns slot `0` with unmap source count `2`, the sources in the source words
`0` and `1`, and exactly the bits `0` and `1` set among the bits `0..7` of the
command word. -/
theorem prep_dma_pq_lockstep_scan_witness :
    example_chan.free_slots = 0 :: [1, 2, 3] ∧
    List.Sublist ((List.range 2).map scf_ascending) mv_xor_raid6_coefs ∧
    ∃ d, mv_xor_prep_dma_pq sample_h example_chan example_addrs example_addrs 2 scf_ascending
        128 0 =
        some (some 0, set_slot 0 d (list_move_tail 0 list_head.allocated_slots example_chan)) ∧
      d.unmap_src_cnt = 2 ∧
      (∀ b, b < 8 → (d.hw_desc.desc_command.testBit b = true ↔
        ∃ j, j < 2 ∧ mv_xor_raid6_coefs[b]? = some (scf_ascending j))) := by
  have hsub : List.Sublist ((List.range 2).map scf_ascending) mv_xor_raid6_coefs := by decide
  obtain ⟨_, d0, d, _, e, _, hu, _, hc⟩ := prep_dma_pq_lockstep_scan sample_h example_chan
    example_addrs example_addrs 2 scf_ascending 128 0 0 [1, 2, 3] rfl (by decide) (by decide)
    (by decide) hsub
  exact ⟨rfl, hsub, d, e, hu, hc (fun _ => by decide)⟩

end MvXor
